import Mathlib

/-! Docker engine: admission control and the sandboxBuilder lifecycle

A shallow embedding of `engines/docker/engine.go` and
`engines/docker/sandboxbuilder.go`.

* Go `error` values are the type `Error`; a nil error is `none`.
* A call that does not return (a Go panic, the runtime's fatal error for
  unlocking an unlocked mutex, a call that can never get past `Lock`) is an
  `Abort`, carried by `Except`.
* Each method is one atomic step on an explicit state: the body between
  `Lock` and the deferred `Unlock` runs as a whole.  The mutex itself is kept
  in the state so that every `Lock` and `Unlock` of the source is executed.
* `ImageHandle.Release` belongs to the image cache, which is a collaborator;
  its calls are recorded in order in `World.released`.
* Go `int` is modelled as `Int` wrapped to 64 bits where it is incremented.
-/

namespace dockerengine

/-! ## Errors and aborts -/

/-- Error values returned across the engine boundary: the sentinels of package
`engines`, the malformed-payload error of package `runtime`, and opaque errors
of collaborators (image cache, docker client, plugins) told apart by a number. -/
inductive Error where
  | ErrMaxConcurrencyExceeded
  | ErrNamingConflict
  | ErrSandboxBuilderDiscarded
  | MalformedPayloadError (message : String)
  | other (id : Nat)
  deriving DecidableEq, Repr

/-- Ways in which a call fails to return to its caller. -/
inductive Abort where
  /-- A Go panic (`MustValidateAndMap`, `monitor.Panicf`). -/
  | panic (message : String)
  /-- The runtime's "sync: unlock of unlocked mutex". -/
  | unlockOfUnlockedMutex
  /-- The call waits for something that the state does not offer
  (`Lock` on a held mutex, `Wait` on a resolution that is not done). -/
  | blocked
  deriving DecidableEq, Repr

deriving instance DecidableEq for Except

/-! ## sync.Mutex -/

/-- State of a `sync.Mutex`: held or free. -/
structure Mutex where
  locked : Bool
  deriving DecidableEq, Repr

/-- `Lock` takes a free mutex; on a held mutex the caller waits. -/
def Mutex.Lock (m : Mutex) : Except Abort Mutex :=
  if m.locked then .error .blocked else .ok { locked := true }

/-- `Unlock` frees a held mutex; unlocking a free mutex is a fatal error. -/
def Mutex.Unlock (m : Mutex) : Except Abort Mutex :=
  if m.locked then .ok { locked := false } else .error .unlockOfUnlockedMutex

/-! ## Go int -/

/-- Two's complement wrap-around of a 64-bit Go `int`. -/
def wrapInt (x : Int) : Int := (x + 2 ^ 63) % 2 ^ 64 - 2 ^ 63

/-- The values a 64-bit Go `int` can hold. -/
def isInt (x : Int) : Prop := -(2 ^ 63) ≤ x ∧ x < 2 ^ 63

instance (x : Int) : Decidable (isInt x) := by unfold isInt; infer_instance

/-! ## Data model -/

/-- Identity of an `*imagecache.ImageHandle`. -/
abbrev ImageHandle := Nat

/-- Identity of an `http.Handler`. -/
abbrev Handler := Nat

/-- Engine configuration after `MustValidateAndMap`. -/
structure configType where
  DockerEndpoint : String
  MaxConcurrency : Int
  deriving DecidableEq, Repr

/-- Task payload after `MustValidateAndMap`; the image specification is an
opaque value of the image cache. -/
structure payloadType where
  Image : String
  Command : List String
  deriving DecidableEq, Repr

/-- The fields of `engine` that its methods read or write (the environment,
the docker client and the monitor are collaborators and carry no state here). -/
structure engine where
  m : Mutex
  maxConcurrency : Int
  engineConfig : configType
  running : Int
  deriving DecidableEq, Repr

/-- A `docker.HostMount` as filled in by `AttachVolume`. -/
structure HostMount where
  Target : String
  Source : String
  Type_ : String
  ReadOnly : Bool
  deriving DecidableEq, Repr

/-- The fields of `sandboxBuilder`.  `proxies` is the Go map as an association
list, `env` is the `docker.Env` string slice, `imageDone` is the done flag of
the `atomics.Once`.  The engine a builder points to lives in `World`. -/
structure sandboxBuilder where
  m : Mutex
  payload : payloadType
  proxies : List (String × Handler)
  env : List String
  discarded : Bool
  mounts : List HostMount
  imageDone : Bool
  imageHandle : Option ImageHandle
  imageErr : Option Error
  deriving DecidableEq, Repr

/-- Modelled from the spec: the `sandbox` type is not among the sources; a
Sandbox owns the resolved resource handle and the accumulated configuration
of the builder it was started from. -/
structure sandbox where
  imageHandle : Option ImageHandle
  proxies : List (String × Handler)
  env : List String
  mounts : List HostMount
  deriving DecidableEq, Repr

/-- An engine, one builder created on it, the calls of `Release` made so far
(oldest first) and the Sandboxes created so far (oldest first). -/
structure World where
  e : engine
  sb : sandboxBuilder
  released : List ImageHandle
  sandboxes : List sandbox
  deriving DecidableEq, Repr

/-! ## engine.go -/

/-- `engineProvider.NewEngine`: `config` is `options.Config` as validated and
mapped by `MustValidateAndMap` (`none` when validation fails, which panics),
`clientErr` is the error of `docker.NewClient`. -/
def NewEngine (config : Option configType) (clientErr : Option Error) :
    Except Abort (Option engine × Option Error) :=
  match config with
  | none => .error (.panic "MustValidateAndMap: config does not validate")
  | some c =>
    match clientErr with
    | some err => .ok (none, some err)
    | none =>
      .ok (some { m := { locked := false }
                  maxConcurrency := c.MaxConcurrency
                  engineConfig := c
                  running := 0 }, none)

/-- `engine.NewSandboxBuilder`: `payload` is `options.Payload` as validated and
mapped by `MustValidateAndMap` (`none` when validation fails, which panics).
Returns the engine state, the builder (`none` is a nil interface) and the
error. -/
def engine.NewSandboxBuilder (e : engine) (payload : Option payloadType) :
    Except Abort (engine × Option sandboxBuilder × Option Error) :=
  match payload with
  | none => .error (.panic "MustValidateAndMap: payload does not validate")
  | some _p => do
    let m ← e.m.Lock
    let e := { e with m := m }
    if e.maxConcurrency == e.running then
      let m ← e.m.Unlock
      return ({ e with m := m }, none, some .ErrMaxConcurrencyExceeded)
    let e := { e with running := wrapInt (e.running + 1) }
    let m ← e.m.Unlock
    return ({ e with m := m }, none, none)

/-- `engine.Dispose`. -/
def engine.Dispose (_e : engine) : Option Error := none

/-! ## Regular expressions (package regexp, as far as the patterns need it) -/

/-- Regular expressions over characters; a character class is a predicate. -/
inductive Regex where
  | nothing : Regex
  | eps : Regex
  | chars (p : Char → Bool) : Regex
  | cat (r s : Regex) : Regex
  | alt (r s : Regex) : Regex
  | star (r : Regex) : Regex

namespace Regex

/-- One or more repetitions: the operator `+`. -/
def plus (r : Regex) : Regex := cat r (star r)

/-- Whether the expression matches the empty text. -/
def nullable : Regex → Bool
  | nothing => false
  | eps => true
  | chars _ => false
  | cat r s => r.nullable && s.nullable
  | alt r s => r.nullable || s.nullable
  | star _ => true

/-- Brzozowski derivative: what remains to be matched after reading `c`. -/
def deriv (c : Char) : Regex → Regex
  | nothing => nothing
  | eps => nothing
  | chars p => if p c then eps else nothing
  | cat r s => if r.nullable then alt (cat (deriv c r) s) (deriv c s) else cat (deriv c r) s
  | alt r s => alt (deriv c r) (deriv c s)
  | star r => cat (deriv c r) (star r)

/-- `MatchString` for a pattern written between `^` and `$`: the whole text
has to match the expression. -/
def MatchString (r : Regex) (s : String) : Bool :=
  (s.data.foldl (fun r c => deriv c r) r).nullable

end Regex

/-- The character class `[a-zA-Z0-9_-]`. -/
def nameChar (c : Char) : Bool :=
  ('a' ≤ c && c ≤ 'z') || ('A' ≤ c && c ≤ 'Z') || ('0' ≤ c && c ≤ '9') || c == '_' || c == '-'

/-- `envVarPattern`: `^[a-zA-Z0-9_-]+$`. -/
def envVarPattern : Regex := Regex.plus (.chars nameChar)

/-- `proxyNamePattern`: `^[a-zA-Z0-9_-]+$`. -/
def proxyNamePattern : Regex := Regex.plus (.chars nameChar)

/-- The characters listed in the negated class of `mountPointPattern`:
slash, NUL, backslash, colon, star, double quote, less, greater, bar. -/
def mountPointForbidden : List Char :=
  ['/', Char.ofNat 0, Char.ofNat 92, ':', '*', Char.ofNat 34, '<', '>', '|']

/-- The negated character class of `mountPointPattern`. -/
def mountPointChar (c : Char) : Bool := !(mountPointForbidden.contains c)

/-- `mountPointPattern`: one or more groups of a slash followed by one or more
allowed characters, then a final slash. -/
def mountPointPattern : Regex :=
  .cat (Regex.plus (.cat (.chars (fun c => c == '/')) (Regex.plus (.chars mountPointChar))))
    (.chars (fun c => c == '/'))

/-! ## strings -/

/-- `strings.HasPrefix(s, pre)`. -/
def HasPrefix (s pre : String) : Bool := pre.data.isPrefixOf s.data

/-- `strings.HasSuffix(s, suf)`. -/
def HasSuffix (s suf : String) : Bool := suf.data.isSuffixOf s.data

/-- Whether `sub` occurs in the character list at its start or later. -/
def containsAt (sub : List Char) : List Char → Bool
  | [] => sub.isEmpty
  | c :: cs => sub.isPrefixOf (c :: cs) || containsAt sub cs

/-- `strings.Contains(s, sub)`. -/
def Contains (s sub : String) : Bool := containsAt sub.data s.data

/-! ## sandboxbuilder.go -/

/-- `newSandboxBuilder`: the fresh builder; the background resolution it
starts is the separate step `sandboxBuilder.imageResolved`. -/
def newSandboxBuilder (payload : payloadType) : sandboxBuilder :=
  { m := { locked := false }
    payload := payload
    proxies := []
    env := []
    discarded := false
    mounts := []
    imageDone := false
    imageHandle := none
    imageErr := none }

/-- Text of `mountPointPattern.String()`. -/
def mountPointPatternString : String :=
  "^(?:/[^/" ++ String.singleton (Char.ofNat 92) ++ "0" ++ String.singleton (Char.ofNat 92)
    ++ String.singleton (Char.ofNat 92) ++ ":*" ++ String.singleton (Char.ofNat 34) ++ "<>|]+)+/$"

/-- `validateMountPoint`: `none` is a nil error. -/
def validateMountPoint (mountPoint : String) : Option Error :=
  if !HasPrefix mountPoint "/" then
    some (.MalformedPayloadError ("mount-point: '" ++ mountPoint ++
      "' does not start with slash, all mount-points must be absolute"))
  else if !HasSuffix mountPoint "/" then
    some (.MalformedPayloadError ("mount-point: '" ++ mountPoint ++
      "' does not end with slash, all mount-points must end with " ++
      "a slash to indicate a folder being mounted"))
  else if !mountPointPattern.MatchString mountPoint then
    some (.MalformedPayloadError ("mount-point: '" ++ mountPoint ++
      "' is not allowed for docker engine, mount-points must match: " ++ mountPointPatternString))
  else if Contains mountPoint "/./" || Contains mountPoint "/../" then
    some (.MalformedPayloadError ("mount-point: '" ++ mountPoint ++
      "' may not contain '/./' or '/../'"))
  else none

/-- An `engines.Volume` handed to `AttachVolume`: a `*volume` of this engine
with the name `GetName` returns, or a value of any other type. -/
inductive Volume where
  | docker (name : String)
  | foreign
  deriving DecidableEq, Repr

/-- The loop of `AttachVolume` over `sb.mounts`: `true` when some mount makes
the loop return `ErrNamingConflict`. -/
def namingConflict (mountPoint target : String) : List HostMount → Bool
  | [] => false
  | mount :: rest =>
    if target = mount.Target then true
    else if HasPrefix mount.Target mountPoint || HasPrefix target (mount.Target ++ "/") then true
    else namingConflict mountPoint target rest

/-- `sandboxBuilder.AttachVolume`.  The slice `mountPoint[:len(mountPoint)-1]`
drops the last byte, which after validation is the final slash. -/
def sandboxBuilder.AttachVolume (sb : sandboxBuilder) (mountPoint : String) (vol : Volume)
    (readOnly : Bool) : Except Abort (sandboxBuilder × Option Error) :=
  match vol with
  | .foreign => .error (.panic "AttachVolume() was passed volume of a foreign type")
  | .docker name =>
    match validateMountPoint mountPoint with
    | some err => .ok (sb, some err)
    | none => do
      let m ← sb.m.Lock
      let sb := { sb with m := m }
      let target := String.mk mountPoint.data.dropLast
      if namingConflict mountPoint target sb.mounts then
        let m ← sb.m.Unlock
        return ({ sb with m := m }, some .ErrNamingConflict)
      let mount : HostMount :=
        { Target := target, Source := name, Type_ := "volume", ReadOnly := readOnly }
      let sb := { sb with mounts := sb.mounts ++ [mount] }
      let m ← sb.m.Unlock
      return ({ sb with m := m }, none)

/-- `ImageHandle.Release` of the image cache: the call is recorded. -/
def Release (ih : ImageHandle) (w : World) : World :=
  { w with released := w.released ++ [ih] }

/-- Take the builder's mutex: `sb.m.Lock()`. -/
def World.lock (w : World) : Except Abort World := do
  let m ← w.sb.m.Lock
  return { w with sb := { w.sb with m := m } }

/-- Free the builder's mutex: `sb.m.Unlock()`. -/
def World.unlock (w : World) : Except Abort World := do
  let m ← w.sb.m.Unlock
  return { w with sb := { w.sb with m := m } }

/-- The function that `newSandboxBuilder` hands to `sb.imageDone.Do` on its own
goroutine, from the point where `e.imageCache.Require` has returned `ih` and
`err`.  `Do` runs it once and then marks the `Once` done. -/
def sandboxBuilder.imageResolved (ih : Option ImageHandle) (err : Option Error) (w : World) :
    Except Abort World :=
  if w.sb.imageDone then .ok w
  else do
    let w ← w.lock
    let w :=
      if w.sb.discarded then
        match ih with
        | some h => Release h w
        | none => w
      else { w with sb := { w.sb with imageHandle := ih, imageErr := err } }
    let w ← w.unlock
    return { w with sb := { w.sb with imageDone := true } }

/-- Modelled from the spec: `newSandbox` is not among the sources.  On success
`StartSandbox` "transfers ownership of the resolved resource handle and the
accumulated configuration to a newly created Sandbox and returns it": the new
Sandbox holds the handle and the configuration, and the builder, which
`newSandbox` gets as a pointer, holds neither afterwards.  The result is the
builder as `newSandbox` leaves it, the Sandbox and the error. -/
def newSandbox (sb : sandboxBuilder) : sandboxBuilder × Option sandbox × Option Error :=
  ({ sb with imageHandle := none, proxies := [], env := [], mounts := [] },
    some { imageHandle := sb.imageHandle, proxies := sb.proxies, env := sb.env,
           mounts := sb.mounts }, none)

/-- `sandboxBuilder.StartSandbox`.  `sb.imageDone.Wait()` lets the caller
through once the resolution is done.  The deferred `Unlock` runs on every
return, also after the explicit `Unlock` of the discarded branch. -/
def sandboxBuilder.StartSandbox (w : World) :
    Except Abort (World × Option sandbox × Option Error) :=
  if !w.sb.imageDone then .error .blocked
  else do
    let w ← w.lock
    if w.sb.discarded then
      let w ← w.unlock
      let w ← w.unlock
      return (w, none, some .ErrSandboxBuilderDiscarded)
    let w := { w with sb := { w.sb with discarded := true } }
    match w.sb.imageErr with
    | some err =>
      let w ← w.unlock
      return (w, none, some err)
    | none =>
      let (sb1, s, err) := newSandbox w.sb
      let w := { w with sb := sb1, sandboxes := w.sandboxes ++ s.toList }
      let w ← w.unlock
      return (w, s, err)

/-- `sandboxBuilder.Discard`. -/
def sandboxBuilder.Discard (w : World) : Except Abort (World × Option Error) := do
  let w ← w.lock
  let w := { w with sb := { w.sb with discarded := true } }
  let w :=
    match w.sb.imageHandle with
    | some h => { Release h w with sb := { w.sb with imageHandle := none } }
    | none => w
  let w ← w.unlock
  return (w, none)

/-! ## The builder as a state machine -/

/-- The atomic steps on one builder. -/
inductive Step where
  /-- The background resolution completes: `Require` returned `ih` and `err`. -/
  | resolved (ih : Option ImageHandle) (err : Option Error)
  | StartSandbox
  | Discard
  deriving DecidableEq, Repr

/-- One step.  A call that does not return leaves the state as it found it. -/
def step (w : World) : Step → World
  | .resolved ih err =>
    match sandboxBuilder.imageResolved ih err w with
    | .ok w1 => w1
    | .error _ => w
  | .StartSandbox =>
    match sandboxBuilder.StartSandbox w with
    | .ok (w1, _, _) => w1
    | .error _ => w
  | .Discard =>
    match sandboxBuilder.Discard w with
    | .ok (w1, _) => w1
    | .error _ => w

/-- A sequence of steps, first to last. -/
def run (w : World) (steps : List Step) : World := steps.foldl step w

/-- The state right after `newSandboxBuilder` on engine `e`. -/
def World.fresh (e : engine) (payload : payloadType) : World :=
  { e := e, sb := newSandboxBuilder payload, released := [], sandboxes := [] }

/-! ## Sequences of calls -/

/-- A sequence of `NewSandboxBuilder` calls on one engine: the final engine
state and the number of calls that returned a nil error.  A call that panics
changes nothing. -/
def newSandboxBuilders : engine → List (Option payloadType) → engine × Nat
  | e, [] => (e, 0)
  | e, p :: ps =>
    match e.NewSandboxBuilder p with
    | .ok (e1, _, none) => let r := newSandboxBuilders e1 ps; (r.1, r.2 + 1)
    | .ok (e1, _, some _) => newSandboxBuilders e1 ps
    | .error _ => newSandboxBuilders e ps

/-- A sequence of `AttachVolume` calls on one builder; a call that panics
changes nothing. -/
def attachVolumes (sb : sandboxBuilder) : List (String × Volume × Bool) → sandboxBuilder
  | [] => sb
  | (mountPoint, vol, readOnly) :: rest =>
    match sb.AttachVolume mountPoint vol readOnly with
    | .ok (sb1, _) => attachVolumes sb1 rest
    | .error _ => attachVolumes sb rest


/-! ## Predicates used by the statements -/

/-- The resolution has not completed: nothing is stored, released or started,
and the mutex is free. -/
def Pending (w : World) : Prop :=
  w.sb.imageDone = false ∧ w.sb.imageHandle = none ∧ w.sb.imageErr = none ∧
    w.released = [] ∧ w.sandboxes = [] ∧ w.sb.m.locked = false

/-- The builder was discarded first and the resolution then released `h`
itself: nothing is stored, `h` was released once, no Sandbox exists. -/
def ReleasedByResolution (h : ImageHandle) (w : World) : Prop :=
  w.sb.imageDone = true ∧ w.sb.discarded = true ∧ w.sb.imageHandle = none ∧
    w.sb.imageErr = none ∧ w.released = [h] ∧ w.sandboxes = [] ∧ w.sb.m.locked = false

/-- The resolution stored `h` without an error and the builder is not
consumed: nothing was released, no Sandbox exists. -/
def Stored (h : ImageHandle) (w : World) : Prop :=
  w.sb.imageDone = true ∧ w.sb.discarded = false ∧ w.sb.imageHandle = some h ∧
    w.sb.imageErr = none ∧ w.released = [] ∧ w.sandboxes = [] ∧ w.sb.m.locked = false

/-- A `StartSandbox` transferred `h`: one Sandbox holds it, the builder is
consumed and holds no handle, nothing was released. -/
def Transferred (h : ImageHandle) (w : World) : Prop :=
  w.sb.imageDone = true ∧ w.sb.discarded = true ∧ w.sb.imageHandle = none ∧
    w.released = [] ∧ w.sandboxes.map (fun s => s.imageHandle) = [some h] ∧
    w.sb.m.locked = false

/-- The account of the handle of one builder: releases and Sandboxes together
are at most one; while the builder holds a handle, or the resolution is
pending, or the builder is not consumed, there is neither; and a pending
resolution has stored nothing. -/
def HandleAccounted (w : World) : Prop :=
  w.sb.m.locked = false ∧ w.released.length + w.sandboxes.length ≤ 1 ∧
    (w.sb.imageHandle.isSome = true ∨ w.sb.imageDone = false ∨ w.sb.discarded = false →
      w.released = [] ∧ w.sandboxes = []) ∧
    (w.sb.imageDone = false → w.sb.imageHandle = none)

/-- The errors returned by `n` consecutive `Discard` calls and the state after
the last one. -/
def discards : Nat → World → Except Abort (World × List (Option Error))
  | 0, w => .ok (w, [])
  | n + 1, w => do
    let (w1, err) ← sandboxBuilder.Discard w
    let (w2, errs) ← discards n w1
    return (w2, err :: errs)

/-- Two recorded mounts do not overlap: their targets differ and neither
target followed by a slash starts the other. -/
def NoOverlap (a b : HostMount) : Prop :=
  a.Target ≠ b.Target ∧ HasPrefix b.Target (a.Target ++ "/") = false ∧
    HasPrefix a.Target (b.Target ++ "/") = false

/-- The target `AttachVolume` records for a mount point: the mount point
without its last character. -/
def targetOf (mountPoint : String) : String := String.mk mountPoint.data.dropLast

/-! ## docker.Env and the proxies map -/

/-- The key of an Env entry as `Env.Map` reads it: the text before the first
`=` (the first part of `strings.SplitN(kv, "=", 2)`). -/
def envKey (kv : String) : String := String.mk (kv.data.takeWhile (fun c => c != '='))

/-- The value of an Env entry as `Env.Map` reads it: the text after the first
`=`, empty when there is none. -/
def envValue (kv : String) : String :=
  String.mk ((kv.data.dropWhile (fun c => c != '=')).drop 1)

/-- `Env.Exists(key)` of go-dockerclient: whether `Env.Map()` has the key. -/
def Env.Exists (env : List String) (key : String) : Bool :=
  env.any (fun kv => envKey kv == key)

/-- `Env.Set(key, value)` of go-dockerclient: appends `key=value`. -/
def Env.Set (env : List String) (key value : String) : List String :=
  env ++ [key ++ "=" ++ value]

/-- `Env.Get(key)` of go-dockerclient: the value `Env.Map()` holds for the
key, where a later entry overwrites an earlier one; empty when absent. -/
def Env.Get (env : List String) (key : String) : String :=
  match env.reverse.find? (fun kv => envKey kv == key) with
  | some kv => envValue kv
  | none => ""

/-- Assignment `m[k] = v` on a Go map kept as an association list. -/
def mapSet (m : List (String × Handler)) (k : String) (v : Handler) : List (String × Handler) :=
  if m.any (fun e => e.1 == k) then m.map (fun e => if e.1 == k then (k, v) else e)
  else m ++ [(k, v)]

/-- `sandboxBuilder.SetEnvironmentVariable`. -/
def sandboxBuilder.SetEnvironmentVariable (sb : sandboxBuilder) (name value : String) :
    Except Abort (sandboxBuilder × Option Error) :=
  if !envVarPattern.MatchString name then
    .ok (sb, some (.MalformedPayloadError ("Environment variables name: '" ++ name ++
      "' doesn't match: ^[a-zA-Z0-9_-]+$")))
  else do
    let m ← sb.m.Lock
    let sb := { sb with m := m }
    if Env.Exists sb.env name then
      let m ← sb.m.Unlock
      return ({ sb with m := m }, some .ErrNamingConflict)
    let sb := { sb with env := Env.Set sb.env name value }
    let m ← sb.m.Unlock
    return ({ sb with m := m }, none)

/-- `sandboxBuilder.AttachProxy`. -/
def sandboxBuilder.AttachProxy (sb : sandboxBuilder) (hostname : String) (handler : Handler) :
    Except Abort (sandboxBuilder × Option Error) :=
  if !proxyNamePattern.MatchString hostname then
    .ok (sb, some (.MalformedPayloadError ("Proxy hostname: '" ++ hostname ++ "'" ++
      " is not allowed for docker engine. The hostname must match: ^[a-zA-Z0-9_-]+$")))
  else do
    let m ← sb.m.Lock
    let sb := { sb with m := m }
    if (sb.proxies.lookup hostname).isSome then
      let m ← sb.m.Unlock
      return ({ sb with m := m }, some .ErrNamingConflict)
    let sb := { sb with proxies := mapSet sb.proxies hostname handler }
    let m ← sb.m.Unlock
    return ({ sb with m := m }, none)

/-- A sequence of `AttachProxy` calls on one builder, first to last: the final
builder and the error each call returned. -/
def attachProxies (sb : sandboxBuilder) :
    List (String × Handler) → Except Abort (sandboxBuilder × List (Option Error))
  | [] => .ok (sb, [])
  | (hostname, handler) :: rest => do
    let (sb1, err) ← sb.AttachProxy hostname handler
    let (sb2, errs) ← attachProxies sb1 rest
    return (sb2, err :: errs)

/-! ## What a regular expression matches -/

/-- The texts a regular expression denotes. -/
def Regex.Matches : Regex → List Char → Prop
  | .nothing, _ => False
  | .eps, s => s = []
  | .chars p, s => ∃ c, s = [c] ∧ p c = true
  | .cat r1 r2, s => ∃ s1 s2, s = s1 ++ s2 ∧ Regex.Matches r1 s1 ∧ Regex.Matches r2 s2
  | .alt r1 r2, s => Regex.Matches r1 s ∨ Regex.Matches r2 s
  | .star r, s => ∃ pieces : List (List Char), s = pieces.flatten ∧ ∀ p ∈ pieces, Regex.Matches r p

/-- The characters of the concatenation of the segments, each behind a slash,
followed by a final slash. -/
def segmentsPath (segs : List (List Char)) : List Char :=
  (segs.map (fun s => '/' :: s)).flatten ++ ['/']

/-- The mount points the specification accepts: one or more segments followed
by a final slash, each segment a slash followed by one or more characters none
of which is forbidden, and no segment named `.` or `..`. -/
def IsMountPoint (p : String) : Prop :=
  ∃ segs : List (List Char), segs ≠ [] ∧ p.data = segmentsPath segs ∧
    ∀ s ∈ segs, s ≠ [] ∧ (∀ c ∈ s, c ∉ mountPointForbidden) ∧ s ≠ ['.'] ∧ s ≠ ['.', '.']

end dockerengine

namespace taskrun

/-! ## stages.go: the data a TaskRun holds -/

/-- Identity of an `engines.SandboxBuilder`. -/
abbrev SandboxBuilder := Nat

/-- Identity of an `engines.Sandbox`. -/
abbrev Sandbox := Nat

/-- Identity of a `plugins.TaskPlugin`. -/
abbrev TaskPlugin := Nat

/-- Identity of an `engines.ResultSet`. -/
abbrev ResultSet := Nat

/-- `Stage`: the stages of a TaskRun, in the order of the constants. -/
inductive Stage where
  | StagePrepare
  | StageBuild
  | StageStart
  | StageStarted
  | StageWaiting
  | StageStopped
  | StageFinished
  | stageResolved
  deriving DecidableEq, Repr

/-- What `payloadSchema.Validate(t.payload)` returns: nil, a
`*schematypes.ValidationError` with the text of each of its issues for the
prefix `task.payload`, or another error with its text. -/
inductive ValidateResult where
  | valid
  | validationError (issues : List String)
  | other (text : String)
  deriving DecidableEq, Repr

/-- A call made on a collaborator: the engine, the plugin manager, the task
plugin, the builder, the Sandbox or the task controller. -/
inductive Call where
  | NewSandboxBuilder
  | NewTaskPlugin
  | BuildSandbox (plugin : TaskPlugin) (builder : Option SandboxBuilder)
  | StartSandbox (builder : SandboxBuilder)
  | Started (plugin : TaskPlugin) (sandbox : Option Sandbox)
  | WaitForResult (sandbox : Sandbox)
  | Stopped (plugin : TaskPlugin) (result : Option ResultSet)
  | CloseLog
  | Finished (plugin : TaskPlugin) (success : Bool)
  deriving DecidableEq, Repr

/-- What the collaborators of a TaskRun return when they are called.  They are
interfaces: each call is taken as returning, with any values.  `none` is a nil
interface or a nil error. -/
structure Collaborators where
  /-- Error of `schematypes.Merge` on the two payload schemas. -/
  mergeErr : Option dockerengine.Error
  /-- Result of `payloadSchema.Validate(t.payload)`. -/
  validate : ValidateResult
  /-- Result of `t.engine.NewSandboxBuilder(...)`. -/
  newSandboxBuilder : Option SandboxBuilder × Option dockerengine.Error
  /-- Result of `t.pluginManager.NewTaskPlugin(...)`. -/
  newTaskPlugin : Option TaskPlugin × Option dockerengine.Error
  /-- Result of `BuildSandbox` on a task plugin. -/
  buildSandbox : TaskPlugin → Option SandboxBuilder → Option dockerengine.Error
  /-- Result of `StartSandbox` on a builder. -/
  startSandbox : SandboxBuilder → Option Sandbox × Option dockerengine.Error
  /-- Result of `Started` on a task plugin. -/
  started : TaskPlugin → Option Sandbox → Option dockerengine.Error
  /-- Result of `WaitForResult` on a Sandbox. -/
  waitForResult : Sandbox → Option ResultSet × Option dockerengine.Error
  /-- Result of `Stopped` on a task plugin. -/
  stopped : TaskPlugin → Option ResultSet → Bool × Option dockerengine.Error
  /-- Error of `t.controller.CloseLog()`. -/
  closeLog : Option dockerengine.Error
  /-- Result of `Finished` on a task plugin. -/
  finished : TaskPlugin → Bool → Option dockerengine.Error

/-- Modelled from the spec: the declaration of `TaskRun` is not among the
sources; these are the fields the stage functions assign, and the calls made on
collaborators so far (oldest first). -/
structure TaskRun where
  sandboxBuilder : Option SandboxBuilder
  sandbox : Option Sandbox
  taskPlugin : Option TaskPlugin
  resultSet : Option ResultSet
  success : Bool
  calls : List Call
  deriving DecidableEq, Repr

/-! ## stages.go: the stage functions -/

/-- Modelled from the spec: `runtime.NewMalformedPayloadError` is not among the
sources; it makes a malformed-payload error of the text of its arguments. -/
def NewMalformedPayloadError (text : String) : dockerengine.Error :=
  .MalformedPayloadError text

/-- Text of an error. -/
def errorText : dockerengine.Error → String
  | .MalformedPayloadError message => message
  | .ErrMaxConcurrencyExceeded => "ErrMaxConcurrencyExceeded"
  | .ErrNamingConflict => "ErrNamingConflict"
  | .ErrSandboxBuilderDiscarded => "ErrSandboxBuilderDiscarded"
  | .other id => "error " ++ toString id

/-- Modelled from the spec: `runtime.MergeMalformedPayload` is not among the
sources; it collects the given malformed-payload errors into a single
malformed-payload error value. -/
def MergeMalformedPayload (errs : List dockerengine.Error) : dockerengine.Error :=
  .MalformedPayloadError (String.intercalate (String.singleton (Char.ofNat 10)) (errs.map errorText))

/-- Modelled from the spec: `runtime.IsMalformedPayloadError` is not among the
sources; it tells whether an error is a malformed-payload error.  A nil error
is not. -/
def IsMalformedPayloadError : Option dockerengine.Error → Bool
  | some (.MalformedPayloadError _) => true
  | _ => false

/-- The value of `verr` in `prepare` after the conversion of the result of
`Validate`: nil, or a malformed-payload error. -/
def validationError : ValidateResult → Option dockerengine.Error
  | .valid => none
  | .validationError issues => some (MergeMalformedPayload (issues.map NewMalformedPayloadError))
  | .other text => some (NewMalformedPayloadError ("task.payload schema violation: " ++ text))

/-- `prepare`.  The two functions given to `util.Parallel` assign different
fields; their calls are logged in the order they are written. -/
def prepare (c : Collaborators) (t : TaskRun) :
    Except dockerengine.Abort (TaskRun × Option dockerengine.Error) :=
  match c.mergeErr with
  | some err =>
    .error (.panic ("Conflicting plugin and engine payload properties, error: " ++ errorText err))
  | none =>
    let verr := validationError c.validate
    let r1 : TaskRun × Option dockerengine.Error :=
      if verr.isSome then (t, none)
      else ({ t with sandboxBuilder := c.newSandboxBuilder.1
                     calls := t.calls ++ [Call.NewSandboxBuilder] }, c.newSandboxBuilder.2)
    let t := r1.1
    let err1 := r1.2
    let t := { t with taskPlugin := c.newTaskPlugin.1, calls := t.calls ++ [Call.NewTaskPlugin] }
    let err2 := c.newTaskPlugin.2
    if verr.isSome then .ok (t, verr)
    else if IsMalformedPayloadError err1 || err2.isNone then .ok (t, err1)
    else .ok (t, err2)

/-- `build`.  A method call on a nil interface panics. -/
def build (c : Collaborators) (t : TaskRun) :
    Except dockerengine.Abort (TaskRun × Option dockerengine.Error) :=
  match t.taskPlugin with
  | none => .error (.panic "invalid memory address or nil pointer dereference")
  | some p =>
    .ok ({ t with calls := t.calls ++ [Call.BuildSandbox p t.sandboxBuilder] },
      c.buildSandbox p t.sandboxBuilder)

/-- `start`. -/
def start (c : Collaborators) (t : TaskRun) :
    Except dockerengine.Abort (TaskRun × Option dockerengine.Error) :=
  match t.sandboxBuilder with
  | none => .error (.panic "invalid memory address or nil pointer dereference")
  | some b =>
    let t := { t with sandbox := (c.startSandbox b).1, calls := t.calls ++ [Call.StartSandbox b] }
    let err := (c.startSandbox b).2
    let t := { t with sandboxBuilder := none }
    .ok (t, err)

/-- `started`. -/
def started (c : Collaborators) (t : TaskRun) :
    Except dockerengine.Abort (TaskRun × Option dockerengine.Error) :=
  match t.taskPlugin with
  | none => .error (.panic "invalid memory address or nil pointer dereference")
  | some p => .ok ({ t with calls := t.calls ++ [Call.Started p t.sandbox] }, c.started p t.sandbox)

/-- `waiting`. -/
def waiting (c : Collaborators) (t : TaskRun) :
    Except dockerengine.Abort (TaskRun × Option dockerengine.Error) :=
  match t.sandbox with
  | none => .error (.panic "invalid memory address or nil pointer dereference")
  | some s =>
    let t := { t with resultSet := (c.waitForResult s).1, calls := t.calls ++ [Call.WaitForResult s] }
    let err := (c.waitForResult s).2
    let t := { t with sandbox := none }
    .ok (t, err)

/-- `stopped`. -/
def stopped (c : Collaborators) (t : TaskRun) :
    Except dockerengine.Abort (TaskRun × Option dockerengine.Error) :=
  match t.taskPlugin with
  | none => .error (.panic "invalid memory address or nil pointer dereference")
  | some p =>
    .ok ({ t with success := (c.stopped p t.resultSet).1
                  calls := t.calls ++ [Call.Stopped p t.resultSet] }, (c.stopped p t.resultSet).2)

/-- `finished`. -/
def finished (c : Collaborators) (t : TaskRun) :
    Except dockerengine.Abort (TaskRun × Option dockerengine.Error) :=
  let t := { t with calls := t.calls ++ [Call.CloseLog] }
  match c.closeLog with
  | some err => .error (.panic ("Failed to close task-log, error: " ++ errorText err))
  | none =>
    match t.taskPlugin with
    | none => .error (.panic "invalid memory address or nil pointer dereference")
    | some p => .ok ({ t with calls := t.calls ++ [Call.Finished p t.success] }, c.finished p t.success)

/-- `stages`: the stage function of each stage; `stageResolved` has none. -/
def stages : Stage →
    Option (Collaborators → TaskRun → Except dockerengine.Abort (TaskRun × Option dockerengine.Error))
  | .StagePrepare => some prepare
  | .StageBuild => some build
  | .StageStart => some start
  | .StageStarted => some started
  | .StageWaiting => some waiting
  | .StageStopped => some stopped
  | .StageFinished => some finished
  | .stageResolved => none

/-! ## Running the stage functions in order -/

/-- The stages that have a stage function, in order. -/
def pipeline : List Stage :=
  [.StagePrepare, .StageBuild, .StageStart, .StageStarted, .StageWaiting, .StageStopped,
    .StageFinished]

/-- The stage functions of the given stages run in order on one TaskRun,
stopping at the first error: each stage whose function returned, with the
TaskRun as the function left it and the error it returned.  A stage function
that does not return ends the list. -/
def runStages (c : Collaborators) : List Stage → TaskRun →
    List (Stage × TaskRun × Option dockerengine.Error)
  | [], _ => []
  | s :: rest, t =>
    match stages s with
    | none => []
    | some f =>
      match f c t with
      | .error _ => []
      | .ok (t1, none) => (s, t1, none) :: runStages c rest t1
      | .ok (t1, some err) => [(s, t1, some err)]

end taskrun

namespace runtime

/-! ## compositeschema.go -/

/-- Errors of the composite schemas: the sentinel `ErrConflictingSchemas`, the
error `Parse` makes for a required property that is absent, and an error of
`json.Unmarshal` with its text. -/
inductive Error where
  | ErrConflictingSchemas
  | propertyIsMissing
  | unmarshal (text : String)
  deriving DecidableEq, Repr

/-- `json.RawMessage`: a nil slice, or bytes. -/
abbrev RawMessage := Option (List Nat)

/-- `schemaEntry`; `makeTarget` is the identity of the factory function. -/
structure schemaEntry where
  property : String
  schema : String
  required : Bool
  makeTarget : Nat
  deriving DecidableEq, Repr

/-- `CompositeSchema`: a `*schemaEntry` or a `*composedSchema` with its
entries. -/
inductive CompositeSchema where
  | entry (s : schemaEntry)
  | composed (entries : List CompositeSchema)

/-- `NewCompositeSchema`. -/
def NewCompositeSchema (property schema : String) (required : Bool) (makeTarget : Nat) :
    CompositeSchema :=
  .entry { property := property, schema := schema, required := required,
           makeTarget := makeTarget }

/-- What `Parse` returns as its `interface{}`: nil, the target that the factory
`makeTarget` made and `json.Unmarshal` filled from `value`, or the slice of
results of a composed schema. -/
inductive Result where
  | nil
  | target (makeTarget : Nat) (value : List Nat)
  | results (rs : List Result)

mutual
/-- `visit` of `*schemaEntry` and of `*composedSchema`.  What the visitor does
to the variables it captures is the state passed along. -/
def CompositeSchema.visit {σ : Type} : CompositeSchema → (schemaEntry → σ → σ) → σ → σ
  | .entry s, visitor, st => visitor s st
  | .composed entries, visitor, st => visitEntries entries visitor st
/-- The loop of `composedSchema.visit` over `s.entries`. -/
def visitEntries {σ : Type} : List CompositeSchema → (schemaEntry → σ → σ) → σ → σ
  | [], _, st => st
  | entry :: rest, visitor, st => visitEntries rest visitor (entry.visit visitor st)
end

/-- The loop `for _, s := range schemas[i:]` inside the visitor of
`MergeCompositeSchemas`, on the value of `hasConflict`. -/
def conflictsIn (entry : schemaEntry) : List CompositeSchema → Bool → Bool
  | [], hasConflict => hasConflict
  | s :: rest, hasConflict =>
    conflictsIn entry rest
      (s.visit (fun e hasConflict =>
        if entry.property == e.property && entry.schema != e.schema then true
        else hasConflict) hasConflict)

/-- The loop `for i, schema := range schemas` of `MergeCompositeSchemas` from
index `i` on: the argument is `schemas[i:]`. -/
def mergeLoop : List CompositeSchema → Bool → Bool
  | [], hasConflict => hasConflict
  | schema :: rest, hasConflict =>
    mergeLoop rest
      (schema.visit (fun entry hasConflict => conflictsIn entry (schema :: rest) hasConflict)
        hasConflict)

/-- `MergeCompositeSchemas`. -/
def MergeCompositeSchemas (schemas : List CompositeSchema) :
    Option CompositeSchema × Option Error :=
  let hasConflict := mergeLoop schemas false
  if hasConflict then (none, some .ErrConflictingSchemas)
  else (some (.composed schemas), none)

/-- `schemaEntry.Parse`.  `Unmarshal value makeTarget` is the error of
`json.Unmarshal(value, target)` on the target the factory made. -/
def schemaEntry.Parse (Unmarshal : List Nat → Nat → Option Error) (s : schemaEntry)
    (data : List (String × RawMessage)) : Result × Option Error :=
  match (data.lookup s.property).getD none with
  | none => if s.required then (.nil, some .propertyIsMissing) else (.nil, none)
  | some value =>
    match Unmarshal value s.makeTarget with
    | some err => (.nil, some err)
    | none => (.target s.makeTarget value, none)

mutual
/-- `Parse` of `*schemaEntry` and of `*composedSchema`. -/
def CompositeSchema.Parse (Unmarshal : List Nat → Nat → Option Error) :
    CompositeSchema → List (String × RawMessage) → Result × Option Error
  | .entry s, data => s.Parse Unmarshal data
  | .composed entries, data => parseEntries Unmarshal entries data []
/-- The loop of `composedSchema.Parse` over `s.entries`, with the results so
far. -/
def parseEntries (Unmarshal : List Nat → Nat → Option Error) :
    List CompositeSchema → List (String × RawMessage) → List Result → Result × Option Error
  | [], _, results => (.results results, none)
  | entry :: rest, data, results =>
    match entry.Parse Unmarshal data with
    | (_, some err) => (.nil, some err)
    | (result, none) => parseEntries Unmarshal rest data (results ++ [result])
end

/-! ## The entries of a schema -/

mutual
/-- The schema entries reachable from a schema, in the order `visit` meets
them. -/
def CompositeSchema.leaves : CompositeSchema → List schemaEntry
  | .entry s => [s]
  | .composed entries => leavesOf entries
/-- The schema entries reachable from the schemas of a list, in order. -/
def leavesOf : List CompositeSchema → List schemaEntry
  | [] => []
  | s :: rest => s.leaves ++ leavesOf rest
end

/-! ## A payload and its schemas, for the examples -/

/-- Three schemas without a conflict: `a` and `c` required, `b` optional. -/
def exampleSchemas : List CompositeSchema :=
  [NewCompositeSchema "a" "{}" true 1, NewCompositeSchema "b" "{}" false 2,
    NewCompositeSchema "c" "{}" true 3]

/-- A data map that holds `a` and `c`. -/
def exampleData : List (String × RawMessage) := [("a", some [49]), ("c", some [50])]

/-- A `json.Unmarshal` that fails on an empty value only. -/
def exampleUnmarshal (value : List Nat) (_makeTarget : Nat) : Option Error :=
  if value = [] then some (.unmarshal "unexpected end of JSON input") else none

end runtime

namespace qemuguesttools

/-! ## guesttools_test.go: the callback of the tests and what it reports on -/

/-- Modelled from the spec: `atomics.Once` is not among the sources.  It guards
a resolution so that "only the first resolution attempt has effect". -/
structure Once where
  done : Bool
  deriving DecidableEq, Repr

/-- Modelled from the spec: `Once.Do` is not among the sources.  The first call
runs the function and returns true; a later call runs nothing and returns
false.  The flag returned tells the caller whether to run the function. -/
def Once.Do (o : Once) : Once × Bool :=
  if o.done then (o, false) else ({ done := true }, true)

/-- The variables `result` and `resolved` of a test. -/
structure TestState where
  result : Bool
  resolved : Once
  deriving DecidableEq, Repr

/-- The variables of a test at its start: `result := false` and a zero
`atomics.Once`. -/
def TestState.init : TestState := { result := false, resolved := { done := false } }

/-- The callback the tests hand to `metaservice.New`: `resolved.Do` runs
`result = r`, and the callback panics when `Do` returns false. -/
def callback (r : Bool) (t : TestState) : Except dockerengine.Abort TestState :=
  let d := t.resolved.Do
  let t := if d.2 then { t with result := r } else t
  let t := { t with resolved := d.1 }
  if !d.2 then .error (.panic "It shouldn't be possible to resolve twice")
  else .ok t

/-- The process that the guest tools run for the task: still running, ended by
itself with success or failure, or killed. -/
inductive Process where
  | running
  | exited (success : Bool)
  | killed
  deriving DecidableEq, Repr

/-- The outcome of a process that has ended: success only for a process that
ended by itself successfully. -/
def Process.outcome : Process → Option Bool
  | .running => none
  | .exited success => some success
  | .killed => some false

/-- Modelled from the spec: package `metaservice` is not among the sources.
The service of one run holds the process of the task and the guard of "the
reporting of a task's final outcome". -/
structure MetaService where
  process : Process
  resolved : Bool
  deriving DecidableEq, Repr

/-- One run of a test: the service, the variables of the test, and the
arguments of the calls of the callback so far (oldest first). -/
structure World where
  s : MetaService
  t : TestState
  invocations : List Bool
  deriving DecidableEq, Repr

/-- The state after `metaservice.New`: the process runs and nothing is
resolved. -/
def World.init : World :=
  { s := { process := .running, resolved := false }, t := TestState.init, invocations := [] }

/-- Modelled from the spec: a resolution attempt of the service.  "Only the
first resolution attempt has effect; concurrent or repeated resolution attempts
must be no-ops after the first": the first attempt calls the callback. -/
def resolve (r : Bool) (w : World) : Except dockerengine.Abort World :=
  if w.s.resolved then .ok w
  else do
    let t ← callback r w.t
    return { s := { w.s with resolved := true }, t := t, invocations := w.invocations ++ [r] }

/-- The atomic steps of a run, in any order and any number. -/
inductive Event where
  /-- The process ends by itself. -/
  | exit (success : Bool)
  /-- `s.KillProcess()` reaches the process. -/
  | KillProcess
  /-- The guest tools report the outcome of the process (`g.Run`). -/
  | report
  deriving DecidableEq, Repr

/-- Modelled from the spec: one step of a run.  A process ends once: by itself
or by the kill.  "An external kill signal ... must cause ... a failure
outcome": the kill of a running process is a resolution attempt with failure.
The report of a process that has ended is a resolution attempt with its
outcome. -/
def step (w : World) : Event → Except dockerengine.Abort World
  | .exit success =>
    match w.s.process with
    | .running => .ok { w with s := { w.s with process := .exited success } }
    | _ => .ok w
  | .KillProcess =>
    match w.s.process with
    | .running => resolve false { w with s := { w.s with process := .killed } }
    | _ => .ok w
  | .report =>
    match w.s.process.outcome with
    | none => .ok w
    | some r => resolve r w

/-- The steps of a run in order; a panic ends the run. -/
def run (w : World) : List Event → Except dockerengine.Abort World
  | [] => .ok w
  | ev :: rest =>
    match step w ev with
    | .ok w1 => run w1 rest
    | .error a => .error a

/-- What every run keeps: the guard of the service and the `Once` of the test
agree; before the resolution the callback has not been called; after it, it has
been called once, with the outcome of the process that has ended, and `result`
holds that outcome; a killed process is resolved. -/
def Consistent (w : World) : Prop :=
  w.t.resolved.done = w.s.resolved ∧
    (w.s.resolved = false → w.invocations = []) ∧
    (w.s.resolved = true →
      ∃ r, w.s.process.outcome = some r ∧ w.invocations = [r] ∧ w.t.result = r) ∧
    (w.s.process = .killed → w.s.resolved = true)

end qemuguesttools

namespace dockerengine

/-! ## Lemmas on the engine -/


theorem wrapInt_of_isInt (x : Int) (h : isInt x) : wrapInt x = x := by
  unfold isInt at h
  unfold wrapInt
  omega

theorem NewSandboxBuilder_full (e : engine) (p : payloadType) (hm : e.m.locked = false)
    (h : e.running = e.maxConcurrency) :
    e.NewSandboxBuilder (some p) = .ok (e, none, some .ErrMaxConcurrencyExceeded) := by
  obtain ⟨⟨l⟩, mc, cfg, r⟩ := e
  simp only at hm h
  subst hm h
  simp [engine.NewSandboxBuilder, Mutex.Lock, Mutex.Unlock, bind, Except.bind, pure, Except.pure]

theorem NewSandboxBuilder_free (e : engine) (p : payloadType) (hm : e.m.locked = false)
    (h : e.running < e.maxConcurrency) (hi : isInt e.maxConcurrency) (hr : isInt e.running) :
    e.NewSandboxBuilder (some p) = .ok ({ e with running := e.running + 1 }, none, none) := by
  obtain ⟨⟨l⟩, mc, cfg, r⟩ := e
  simp only at hm h hi hr
  subst hm
  have hne : mc ≠ r := by omega
  have hw : wrapInt (r + 1) = r + 1 := wrapInt_of_isInt _ (by unfold isInt at *; omega)
  simp [engine.NewSandboxBuilder, Mutex.Lock, Mutex.Unlock, bind, Except.bind, pure, Except.pure,
    hne, hw]

theorem NewSandboxBuilder_none (e : engine) :
    e.NewSandboxBuilder none = .error (.panic "MustValidateAndMap: payload does not validate") :=
  rfl

/-- Along any sequence of calls the mutex is free again, the maximum is
untouched, and `running` has grown by the number of calls that returned nil. -/
theorem newSandboxBuilders_inv (calls : List (Option payloadType)) :
    ∀ e : engine, e.m.locked = false → 0 ≤ e.running → e.running ≤ e.maxConcurrency →
      isInt e.maxConcurrency →
      (newSandboxBuilders e calls).1.m.locked = false ∧
      (newSandboxBuilders e calls).1.maxConcurrency = e.maxConcurrency ∧
      (newSandboxBuilders e calls).1.running = e.running + (newSandboxBuilders e calls).2 ∧
      (newSandboxBuilders e calls).1.running ≤ e.maxConcurrency := by
  induction calls with
  | nil => intro e hm h0 h1 _; simp [newSandboxBuilders, hm, h1]
  | cons c rest ih =>
    intro e hm h0 h1 hi
    cases c with
    | none =>
      simp only [newSandboxBuilders, NewSandboxBuilder_none]
      exact ih e hm h0 h1 hi
    | some p =>
      rcases lt_or_eq_of_le h1 with hlt | heq
      · have hr : isInt e.running := by unfold isInt at *; omega
        simp only [newSandboxBuilders, NewSandboxBuilder_free e p hm hlt hi hr]
        have := ih { e with running := e.running + 1 } hm (by simp; omega) (by simp; omega) hi
        simp only at this
        obtain ⟨a, b, c, d⟩ := this
        refine ⟨a, b, ?_, d⟩
        rw [c]; push_cast; ring
      · simp only [newSandboxBuilders, NewSandboxBuilder_full e p hm heq]
        exact ih e hm h0 h1 hi

/-! ## Lemmas on the builder lifecycle -/


theorem Discard_none (w : World) (hm : w.sb.m.locked = false) (hh : w.sb.imageHandle = none) :
    sandboxBuilder.Discard w = .ok ({ w with sb := { w.sb with discarded := true } }, none) := by
  obtain ⟨e, ⟨⟨l⟩, pl, px, env, d, ms, done, ih, ie⟩, rel, sbs⟩ := w
  simp only at hm hh
  subst hm hh
  simp [sandboxBuilder.Discard, World.lock, World.unlock, Mutex.Lock, Mutex.Unlock, bind,
    Except.bind, pure, Except.pure]

theorem Discard_some (w : World) (h : ImageHandle) (hm : w.sb.m.locked = false)
    (hh : w.sb.imageHandle = some h) :
    sandboxBuilder.Discard w =
      .ok ({ w with released := w.released ++ [h]
                    sb := { w.sb with discarded := true, imageHandle := none } }, none) := by
  obtain ⟨e, ⟨⟨l⟩, pl, px, env, d, ms, done, ih, ie⟩, rel, sbs⟩ := w
  simp only at hm hh
  subst hm hh
  simp [sandboxBuilder.Discard, World.lock, World.unlock, Mutex.Lock, Mutex.Unlock, bind,
    Except.bind, pure, Except.pure, Release]

theorem StartSandbox_discarded (w : World) (hm : w.sb.m.locked = false)
    (hdone : w.sb.imageDone = true) (hd : w.sb.discarded = true) :
    sandboxBuilder.StartSandbox w = .error .unlockOfUnlockedMutex := by
  obtain ⟨e, ⟨⟨l⟩, pl, px, env, d, ms, done, ih, ie⟩, rel, sbs⟩ := w
  simp only at hm hdone hd
  subst hm hdone hd
  simp [sandboxBuilder.StartSandbox, World.lock, World.unlock, Mutex.Lock, Mutex.Unlock, bind,
    Except.bind, pure, Except.pure]

theorem StartSandbox_pending (w : World) (hdone : w.sb.imageDone = false) :
    sandboxBuilder.StartSandbox w = .error .blocked := by
  simp [sandboxBuilder.StartSandbox, hdone]

theorem imageResolved_done (w : World) (ih : Option ImageHandle) (err : Option Error)
    (hdone : w.sb.imageDone = true) : sandboxBuilder.imageResolved ih err w = .ok w := by
  simp [sandboxBuilder.imageResolved, hdone]

theorem imageResolved_discarded (w : World) (h : ImageHandle) (err : Option Error)
    (hm : w.sb.m.locked = false) (hdone : w.sb.imageDone = false) (hd : w.sb.discarded = true) :
    sandboxBuilder.imageResolved (some h) err w =
      .ok { w with released := w.released ++ [h], sb := { w.sb with imageDone := true } } := by
  obtain ⟨e, ⟨⟨l⟩, pl, px, env, d, ms, done, ih, ie⟩, rel, sbs⟩ := w
  simp only at hm hdone hd
  subst hm hdone hd
  simp [sandboxBuilder.imageResolved, World.lock, World.unlock, Mutex.Lock, Mutex.Unlock, bind,
    Except.bind, pure, Except.pure, Release]

/-- No step touches the engine. -/
theorem step_engine (w : World) (s : Step) : (step w s).e = w.e := by
  obtain ⟨e, ⟨⟨l⟩, pl, px, env, d, ms, done, ih, ie⟩, rel, sbs⟩ := w
  cases s with
  | resolved h err =>
    cases l <;> cases done <;> cases d <;> cases h <;>
      simp [step, sandboxBuilder.imageResolved, World.lock, World.unlock, Mutex.Lock,
        Mutex.Unlock, bind, Except.bind, pure, Except.pure, Release]
  | StartSandbox =>
    cases l <;> cases done <;> cases d <;> cases ie <;>
      simp [step, sandboxBuilder.StartSandbox, World.lock, World.unlock, Mutex.Lock,
        Mutex.Unlock, bind, Except.bind, pure, Except.pure, newSandbox]
  | Discard =>
    cases l <;> cases ih <;>
      simp [step, sandboxBuilder.Discard, World.lock, World.unlock, Mutex.Lock,
        Mutex.Unlock, bind, Except.bind, pure, Except.pure, Release]

theorem run_engine (steps : List Step) : ∀ w : World, (run w steps).e = w.e := by
  induction steps with
  | nil => intro w; rfl
  | cons s rest ih =>
    intro w
    show (run (step w s) rest).e = w.e
    rw [ih, step_engine]

theorem fresh_pending (e : engine) (payload : payloadType) : Pending (World.fresh e payload) := by
  simp [Pending, World.fresh, newSandboxBuilder]

theorem step_done (w : World) (s : Step) (hdone : w.sb.imageDone = true) :
    (step w s).sb.imageDone = true := by
  obtain ⟨e, ⟨⟨l⟩, pl, px, env, d, ms, done, ih, ie⟩, rel, sbs⟩ := w
  simp only at hdone
  subst hdone
  cases s with
  | resolved h err => simp [step, sandboxBuilder.imageResolved]
  | StartSandbox =>
    cases l <;> cases d <;> cases ie <;>
      simp [step, sandboxBuilder.StartSandbox, World.lock, World.unlock, Mutex.Lock,
        Mutex.Unlock, bind, Except.bind, pure, Except.pure, newSandbox]
  | Discard =>
    cases l <;> cases ih <;>
      simp [step, sandboxBuilder.Discard, World.lock, World.unlock, Mutex.Lock,
        Mutex.Unlock, bind, Except.bind, pure, Except.pure, Release]

theorem run_done (steps : List Step) :
    ∀ w : World, w.sb.imageDone = true → (run w steps).sb.imageDone = true := by
  induction steps with
  | nil => intro w h; exact h
  | cons s rest ih => intro w h; exact ih (step w s) (step_done w s h)

theorem step_pending (w : World) (s : Step) (hp : Pending w) :
    Pending (step w s) ∨ (step w s).sb.imageDone = true := by
  obtain ⟨e, ⟨⟨l⟩, pl, px, env, d, ms, done, ih, ie⟩, rel, sbs⟩ := w
  obtain ⟨h1, h2, h3, h4, h5, h6⟩ := hp
  simp only at h1 h2 h3 h4 h5 h6
  subst h1 h2 h3 h4 h5 h6
  cases s with
  | resolved h err =>
    right
    cases d <;> cases h <;>
      simp [step, sandboxBuilder.imageResolved, World.lock, World.unlock, Mutex.Lock,
        Mutex.Unlock, bind, Except.bind, pure, Except.pure, Release]
  | StartSandbox => left; simp [step, sandboxBuilder.StartSandbox, Pending]
  | Discard =>
    left
    simp [step, sandboxBuilder.Discard, World.lock, World.unlock, Mutex.Lock,
      Mutex.Unlock, bind, Except.bind, pure, Except.pure, Pending]

theorem run_pending (steps : List Step) :
    ∀ w : World, Pending w → (run w steps).sb.imageDone = false → Pending (run w steps) := by
  induction steps with
  | nil => intro w hp _; exact hp
  | cons s rest ih =>
    intro w hp hnd
    rcases step_pending w s hp with h | h
    · exact ih (step w s) h hnd
    · have := run_done rest (step w s) h
      have hnd2 : (run (step w s) rest).sb.imageDone = false := hnd
      rw [this] at hnd2
      exact absurd hnd2 (by simp)

theorem step_discarded (w : World) (s : Step) (hd : w.sb.discarded = true) :
    (step w s).sb.discarded = true := by
  obtain ⟨e, ⟨⟨l⟩, pl, px, env, d, ms, done, ih, ie⟩, rel, sbs⟩ := w
  simp only at hd
  subst hd
  cases s with
  | resolved h err =>
    cases l <;> cases done <;> cases h <;>
      simp [step, sandboxBuilder.imageResolved, World.lock, World.unlock, Mutex.Lock,
        Mutex.Unlock, bind, Except.bind, pure, Except.pure, Release]
  | StartSandbox =>
    cases l <;> cases done <;>
      simp [step, sandboxBuilder.StartSandbox, World.lock, World.unlock, Mutex.Lock,
        Mutex.Unlock, bind, Except.bind, pure, Except.pure]
  | Discard =>
    cases l <;> cases ih <;>
      simp [step, sandboxBuilder.Discard, World.lock, World.unlock, Mutex.Lock,
        Mutex.Unlock, bind, Except.bind, pure, Except.pure, Release]

theorem run_discarded (steps : List Step) :
    ∀ w : World, w.sb.discarded = true → (run w steps).sb.discarded = true := by
  induction steps with
  | nil => intro w h; exact h
  | cons s rest ih => intro w h; exact ih (step w s) (step_discarded w s h)

theorem step_releasedByResolution (h : ImageHandle) (w : World) (s : Step)
    (hr : ReleasedByResolution h w) : step w s = w := by
  obtain ⟨e, ⟨⟨l⟩, pl, px, env, d, ms, done, ih, ie⟩, rel, sbs⟩ := w
  obtain ⟨h1, h2, h3, h4, h5, h6, h7⟩ := hr
  simp only at h1 h2 h3 h4 h5 h6 h7
  subst h1 h2 h3 h4 h5 h6 h7
  cases s with
  | resolved h err => simp [step, sandboxBuilder.imageResolved]
  | StartSandbox =>
    simp [step, sandboxBuilder.StartSandbox, World.lock, World.unlock, Mutex.Lock,
      Mutex.Unlock, bind, Except.bind, pure, Except.pure]
  | Discard =>
    simp [step, sandboxBuilder.Discard, World.lock, World.unlock, Mutex.Lock,
      Mutex.Unlock, bind, Except.bind, pure, Except.pure]

theorem run_releasedByResolution (h : ImageHandle) (steps : List Step) :
    ∀ w : World, ReleasedByResolution h w → run w steps = w := by
  induction steps with
  | nil => intro w _; rfl
  | cons s rest ih =>
    intro w hr
    show run (step w s) rest = w
    rw [step_releasedByResolution h w s hr]
    exact ih w hr

/-! ## Lemmas on AttachVolume -/


theorem noOverlap_symm {a b : HostMount} (h : NoOverlap a b) : NoOverlap b a :=
  ⟨fun e => h.1 e.symm, h.2.2, h.2.1⟩

/-- A mount point that passes validation ends in a slash. -/
theorem validateMountPoint_hasSuffix (mp : String) (h : validateMountPoint mp = none) :
    HasSuffix mp "/" = true := by
  unfold validateMountPoint at h
  by_cases h1 : HasPrefix mp "/" = true
  · by_cases h2 : HasSuffix mp "/" = true
    · exact h2
    · simp [h1, h2] at h
  · simp [h1] at h

/-- A mount point that passes validation is its target followed by a slash. -/
theorem validateMountPoint_data (mp : String) (h : validateMountPoint mp = none) :
    mp.data = (targetOf mp).data ++ ['/'] := by
  have hs := validateMountPoint_hasSuffix mp h
  unfold HasSuffix at hs
  have hs2 : ['/'] <:+ mp.data := by
    have : ("/" : String).data = ['/'] := rfl
    rw [this] at hs
    simpa using hs
  obtain ⟨t, ht⟩ := hs2
  show mp.data = mp.data.dropLast ++ ['/']
  rw [← ht, List.dropLast_concat]

theorem target_append_slash (mp : String) (h : validateMountPoint mp = none) :
    (targetOf mp ++ "/").data = mp.data := by
  rw [String.data_append, validateMountPoint_data mp h]

/-- `HasPrefix` only looks at the characters. -/
theorem HasPrefix_congr (s p q : String) (h : p.data = q.data) : HasPrefix s p = HasPrefix s q := by
  unfold HasPrefix
  rw [h]

theorem namingConflict_false_iff (mountPoint target : String) (ms : List HostMount) :
    namingConflict mountPoint target ms = false ↔
      ∀ m ∈ ms, target ≠ m.Target ∧ HasPrefix m.Target mountPoint = false ∧
        HasPrefix target (m.Target ++ "/") = false := by
  induction ms with
  | nil => simp [namingConflict]
  | cons m rest ih =>
    simp only [namingConflict, List.mem_cons, forall_eq_or_imp]
    by_cases h1 : target = m.Target
    · simp [h1]
    · by_cases h2 : (HasPrefix m.Target mountPoint || HasPrefix target (m.Target ++ "/")) = true
      · simp only [h1, h2, if_true, if_false]
        simp only [Bool.or_eq_true] at h2
        constructor
        · intro h; exact absurd h (by simp)
        · rintro ⟨⟨_, a, b⟩, _⟩
          rcases h2 with h2 | h2
          · rw [h2] at a; exact absurd a (by simp)
          · rw [h2] at b; exact absurd b (by simp)
      · have h3 : (HasPrefix m.Target mountPoint || HasPrefix target (m.Target ++ "/")) = false := by
          simpa using h2
        simp only [h1, h3, if_false, Bool.false_eq_true]
        simp only [Bool.or_eq_false_iff] at h3
        have h2 := h3
        rw [ih]
        constructor
        · intro h; exact ⟨⟨h1, h2.1, h2.2⟩, h⟩
        · intro h; exact h.2

theorem AttachVolume_accept (sb : sandboxBuilder) (mp name : String) (ro : Bool)
    (hm : sb.m.locked = false) (hv : validateMountPoint mp = none)
    (hc : namingConflict mp (targetOf mp) sb.mounts = false) :
    sb.AttachVolume mp (.docker name) ro =
      .ok ({ sb with mounts := sb.mounts ++
        [{ Target := targetOf mp, Source := name, Type_ := "volume", ReadOnly := ro }] }, none) := by
  obtain ⟨⟨l⟩, pl, px, env, d, ms, done, ih, ie⟩ := sb
  simp only at hm hc
  subst hm
  unfold targetOf at hc
  simp [sandboxBuilder.AttachVolume, hv, hc, targetOf, Mutex.Lock, Mutex.Unlock, bind,
    Except.bind, pure, Except.pure]

theorem AttachVolume_conflict (sb : sandboxBuilder) (mp name : String) (ro : Bool)
    (hm : sb.m.locked = false) (hv : validateMountPoint mp = none)
    (hc : namingConflict mp (targetOf mp) sb.mounts = true) :
    sb.AttachVolume mp (.docker name) ro = .ok (sb, some .ErrNamingConflict) := by
  obtain ⟨⟨l⟩, pl, px, env, d, ms, done, ih, ie⟩ := sb
  simp only at hm hc
  subst hm
  unfold targetOf at hc
  simp [sandboxBuilder.AttachVolume, hv, hc, Mutex.Lock, Mutex.Unlock, bind,
    Except.bind, pure, Except.pure]

/-- Whatever `AttachVolume` returns, the mounts are as before or have grown by
one entry for a validated mount point that conflicts with none of them. -/
theorem AttachVolume_mounts (sb sb1 : sandboxBuilder) (mp : String) (vol : Volume) (ro : Bool)
    (err : Option Error) (h : sb.AttachVolume mp vol ro = .ok (sb1, err)) :
    sb1.mounts = sb.mounts ∨
      (validateMountPoint mp = none ∧ namingConflict mp (targetOf mp) sb.mounts = false ∧
        ∃ name, sb1.mounts = sb.mounts ++
          [{ Target := targetOf mp, Source := name, Type_ := "volume", ReadOnly := ro }]) := by
  cases vol with
  | foreign => simp [sandboxBuilder.AttachVolume] at h
  | docker name =>
    cases hv : validateMountPoint mp with
    | some e =>
      simp [sandboxBuilder.AttachVolume, hv] at h
      left; rw [← h.1]
    | none =>
      by_cases hm : sb.m.locked = false
      · cases hc : namingConflict mp (targetOf mp) sb.mounts with
        | true =>
          rw [AttachVolume_conflict sb mp name ro hm hv hc] at h
          simp at h
          left; rw [← h.1]
        | false =>
          rw [AttachVolume_accept sb mp name ro hm hv hc] at h
          simp at h
          right
          exact ⟨rfl, rfl, name, by rw [← h.1]⟩
      · have hl : sb.m.locked = true := by simpa using hm
        simp [sandboxBuilder.AttachVolume, hv, Mutex.Lock, hl, bind, Except.bind] at h

theorem AttachVolume_pairwise (sb sb1 : sandboxBuilder) (mp : String) (vol : Volume) (ro : Bool)
    (err : Option Error) (h : sb.AttachVolume mp vol ro = .ok (sb1, err))
    (hp : sb.mounts.Pairwise NoOverlap) : sb1.mounts.Pairwise NoOverlap := by
  rcases AttachVolume_mounts sb sb1 mp vol ro err h with h1 | ⟨hv, hc, name, h1⟩
  · rw [h1]; exact hp
  · rw [h1, List.pairwise_append]
    refine ⟨hp, by simp, ?_⟩
    intro a ha b hb
    simp only [List.mem_singleton] at hb
    subst hb
    obtain ⟨c1, c2, c3⟩ := (namingConflict_false_iff mp (targetOf mp) sb.mounts).1 hc a ha
    refine ⟨fun e => c1 e.symm, c3, ?_⟩
    rw [HasPrefix_congr a.Target _ mp (target_append_slash mp hv)]
    exact c2

theorem attachVolumes_pairwise (calls : List (String × Volume × Bool)) :
    ∀ sb : sandboxBuilder, sb.mounts.Pairwise NoOverlap →
      (attachVolumes sb calls).mounts.Pairwise NoOverlap := by
  induction calls with
  | nil => intro sb h; exact h
  | cons c rest ih =>
    intro sb h
    obtain ⟨mp, vol, ro⟩ := c
    simp only [attachVolumes]
    cases hr : sb.AttachVolume mp vol ro with
    | error a => exact ih sb h
    | ok r =>
      obtain ⟨sb1, err⟩ := r
      exact ih sb1 (AttachVolume_pairwise sb sb1 mp vol ro err hr h)

/-- When `p` starts `q` and both pass validation, the two targets are equal or
the target of `q` starts with `p`. -/
theorem target_of_HasPrefix (p q : String)
    (hq : validateMountPoint q = none) (hpq : HasPrefix q p = true) :
    targetOf q = targetOf p ∨ HasPrefix (targetOf q) p = true := by
  unfold HasPrefix at hpq
  have h1 : p.data <+: q.data := by simpa using hpq
  rw [validateMountPoint_data q hq] at h1
  have h2 := List.prefix_concat_iff.1 (by simpa using h1)
  rcases h2 with h2 | h2
  · left
    have : p.data = q.data := by
      rw [validateMountPoint_data q hq]; simpa using h2
    unfold targetOf
    rw [this]
  · right
    unfold HasPrefix
    simpa using h2

/-! ## Claims on the builder lifecycle and on admission -/


theorem fresh_handleAccounted (e : engine) (payload : payloadType) :
    HandleAccounted (World.fresh e payload) := by
  simp [HandleAccounted, World.fresh, newSandboxBuilder]

/-- Every step keeps the account of the handle. -/
theorem step_handleAccounted (w : World) (s : Step) (ha : HandleAccounted w) :
    HandleAccounted (step w s) := by
  obtain ⟨e, ⟨⟨l⟩, pl, px, env, d, ms, done, ih, ie⟩, rel, sbs⟩ := w
  have ha0 := ha
  obtain ⟨h1, h2, h3, h4⟩ := ha
  simp only at h1 h2 h3 h4
  subst h1
  cases s with
  | resolved h err =>
    cases done with
    | true =>
      have hs : step ⟨e, ⟨⟨false⟩, pl, px, env, d, ms, true, ih, ie⟩, rel, sbs⟩ (.resolved h err) =
          ⟨e, ⟨⟨false⟩, pl, px, env, d, ms, true, ih, ie⟩, rel, sbs⟩ := by
        simp [step, sandboxBuilder.imageResolved]
      rw [hs]; exact ha0
    | false =>
      obtain ⟨rfl, rfl⟩ := h3 (Or.inr (Or.inl rfl))
      have hih := h4 rfl
      subst hih
      cases d <;> cases h <;>
        simp [step, sandboxBuilder.imageResolved, World.lock, World.unlock, Mutex.Lock,
          Mutex.Unlock, bind, Except.bind, pure, Except.pure, Release, HandleAccounted]
  | StartSandbox =>
    cases done with
    | false =>
      have hs : step ⟨e, ⟨⟨false⟩, pl, px, env, d, ms, false, ih, ie⟩, rel, sbs⟩ .StartSandbox =
          ⟨e, ⟨⟨false⟩, pl, px, env, d, ms, false, ih, ie⟩, rel, sbs⟩ := by
        simp [step, sandboxBuilder.StartSandbox]
      rw [hs]; exact ha0
    | true =>
      cases d with
      | true =>
        have hs : step ⟨e, ⟨⟨false⟩, pl, px, env, true, ms, true, ih, ie⟩, rel, sbs⟩ .StartSandbox =
            ⟨e, ⟨⟨false⟩, pl, px, env, true, ms, true, ih, ie⟩, rel, sbs⟩ := by
          simp [step, sandboxBuilder.StartSandbox, World.lock, World.unlock, Mutex.Lock,
            Mutex.Unlock, bind, Except.bind, pure, Except.pure]
        rw [hs]; exact ha0
      | false =>
        obtain ⟨rfl, rfl⟩ := h3 (Or.inr (Or.inr rfl))
        cases ie <;>
          simp [step, sandboxBuilder.StartSandbox, World.lock, World.unlock, Mutex.Lock,
            Mutex.Unlock, bind, Except.bind, pure, Except.pure, newSandbox, HandleAccounted]
  | Discard =>
    cases ih with
    | some h =>
      obtain ⟨rfl, rfl⟩ := h3 (Or.inl rfl)
      have hdone : done = true := by
        cases done with
        | true => rfl
        | false => exact absurd (h4 rfl) (by simp)
      subst hdone
      simp [step, sandboxBuilder.Discard, World.lock, World.unlock, Mutex.Lock,
        Mutex.Unlock, bind, Except.bind, pure, Except.pure, Release, HandleAccounted]
    | none =>
      have hs : step ⟨e, ⟨⟨false⟩, pl, px, env, d, ms, done, none, ie⟩, rel, sbs⟩ .Discard =
          ⟨e, ⟨⟨false⟩, pl, px, env, true, ms, done, none, ie⟩, rel, sbs⟩ := by
        simp [step, sandboxBuilder.Discard, World.lock, World.unlock, Mutex.Lock,
          Mutex.Unlock, bind, Except.bind, pure, Except.pure]
      rw [hs]
      refine ⟨rfl, h2, ?_, by simp⟩
      rintro (hx | hx | hx)
      · exact absurd hx (by simp)
      · exact h3 (Or.inr (Or.inl hx))
      · exact absurd hx (by simp)

theorem run_handleAccounted (steps : List Step) :
    ∀ w : World, HandleAccounted w → HandleAccounted (run w steps) := by
  induction steps with
  | nil => intro w h; exact h
  | cons s rest ih => intro w h; exact ih (step w s) (step_handleAccounted w s h)

/-- The resolution that completes with handle `h` and no error on a pending
builder: a discarded builder has `h` released, another one has it stored. -/
theorem resolved_pending (w : World) (h : ImageHandle) (hp : Pending w) :
    (w.sb.discarded = true → ReleasedByResolution h (step w (.resolved (some h) none))) ∧
      (w.sb.discarded = false → Stored h (step w (.resolved (some h) none))) := by
  obtain ⟨e, ⟨⟨l⟩, pl, px, env, d, ms, done, ih, ie⟩, rel, sbs⟩ := w
  obtain ⟨h1, h2, h3, h4, h5, h6⟩ := hp
  simp only at h1 h2 h3 h4 h5 h6
  subst h1 h2 h3 h4 h5 h6
  cases d <;>
    simp [step, sandboxBuilder.imageResolved, World.lock, World.unlock, Mutex.Lock,
      Mutex.Unlock, bind, Except.bind, pure, Except.pure, Release, ReleasedByResolution, Stored]

/-- After the transfer no step changes anything. -/
theorem step_transferred (h : ImageHandle) (w : World) (s : Step) (ht : Transferred h w) :
    step w s = w := by
  obtain ⟨e, ⟨⟨l⟩, pl, px, env, d, ms, done, ih, ie⟩, rel, sbs⟩ := w
  obtain ⟨h1, h2, h3, h4, _, h6⟩ := ht
  simp only at h1 h2 h3 h4 h6
  subst h1 h2 h3 h4 h6
  cases s with
  | resolved h err => simp [step, sandboxBuilder.imageResolved]
  | StartSandbox =>
    simp [step, sandboxBuilder.StartSandbox, World.lock, World.unlock, Mutex.Lock,
      Mutex.Unlock, bind, Except.bind, pure, Except.pure]
  | Discard =>
    simp [step, sandboxBuilder.Discard, World.lock, World.unlock, Mutex.Lock,
      Mutex.Unlock, bind, Except.bind, pure, Except.pure]

theorem run_transferred (h : ImageHandle) (steps : List Step) :
    ∀ w : World, Transferred h w → run w steps = w := by
  induction steps with
  | nil => intro w _; rfl
  | cons s rest ih =>
    intro w ht
    show run (step w s) rest = w
    rw [step_transferred h w s ht]
    exact ih w ht

/-- A step on a builder that holds `h`: nothing happens, or `Discard` releases
`h`, or `StartSandbox` transfers it. -/
theorem step_stored (h : ImageHandle) (w : World) (s : Step) (hs : Stored h w) :
    Stored h (step w s) ∨ ReleasedByResolution h (step w s) ∨ Transferred h (step w s) := by
  obtain ⟨e, ⟨⟨l⟩, pl, px, env, d, ms, done, ih, ie⟩, rel, sbs⟩ := w
  obtain ⟨h1, h2, h3, h4, h5, h6, h7⟩ := hs
  simp only at h1 h2 h3 h4 h5 h6 h7
  subst h1 h2 h3 h4 h5 h6 h7
  cases s with
  | resolved h1 err =>
    left
    simp [step, sandboxBuilder.imageResolved, Stored]
  | StartSandbox =>
    right; right
    simp [step, sandboxBuilder.StartSandbox, World.lock, World.unlock, Mutex.Lock,
      Mutex.Unlock, bind, Except.bind, pure, Except.pure, newSandbox, Transferred]
  | Discard =>
    right; left
    simp [step, sandboxBuilder.Discard, World.lock, World.unlock, Mutex.Lock,
      Mutex.Unlock, bind, Except.bind, pure, Except.pure, Release, ReleasedByResolution]

theorem run_stored (h : ImageHandle) (steps : List Step) :
    ∀ w : World, Stored h w →
      Stored h (run w steps) ∨ ReleasedByResolution h (run w steps) ∨
        Transferred h (run w steps) := by
  induction steps with
  | nil => intro w hs; exact Or.inl hs
  | cons s rest ih =>
    intro w hs
    show Stored h (run (step w s) rest) ∨ ReleasedByResolution h (run (step w s) rest) ∨
        Transferred h (run (step w s) rest)
    rcases step_stored h w s hs with h1 | h1 | h1
    · exact ih _ h1
    · rw [run_releasedByResolution h rest _ h1]; exact Or.inr (Or.inl h1)
    · rw [run_transferred h rest _ h1]; exact Or.inr (Or.inr h1)

theorem run_append (w : World) (a b : List Step) : run w (a ++ b) = run (run w a) b := by
  simp [run, List.foldl_append]

/-- C1: for every sequence of the steps resolution completing, `StartSandbox`
and `Discard` on one fresh builder, in the state reached the calls of `Release`
and the Sandboxes together are at most one: no handle is released twice, none
is both released and held by a Sandbox, and no second Sandbox exists.  When the
resolution completes with the handle `h` and no error and the builder is
consumed in the state reached, then either `h` was released exactly once and no
Sandbox exists, or exactly one Sandbox holds `h` and nothing was released.  So
after a transfer a `Discard` releases nothing, and after a `Discard` or a
resolution on a discarded builder no `StartSandbox` creates a Sandbox. -/
theorem C1_released_or_transferred_never_both (e : engine) (payload : payloadType)
    (steps : List Step) :
    (run (World.fresh e payload) steps).released.length +
        (run (World.fresh e payload) steps).sandboxes.length ≤ 1 ∧
      (∀ pre post h, steps = pre ++ .resolved (some h) none :: post →
        (run (World.fresh e payload) pre).sb.imageDone = false →
        (run (World.fresh e payload) steps).sb.discarded = true →
        ((run (World.fresh e payload) steps).released = [h] ∧
            (run (World.fresh e payload) steps).sandboxes = []) ∨
          ((run (World.fresh e payload) steps).released = [] ∧
            (run (World.fresh e payload) steps).sandboxes.map (fun s => s.imageHandle) =
              [some h])) ∧
      (∀ h,
        ((run (World.fresh e payload) [.resolved (some h) none, .StartSandbox, .Discard]).released
            = [] ∧
          (run (World.fresh e payload)
            [.resolved (some h) none, .StartSandbox, .Discard]).sandboxes.map
              (fun s => s.imageHandle) = [some h]) ∧
        ((run (World.fresh e payload) [.resolved (some h) none, .Discard, .StartSandbox]).released
            = [h] ∧
          (run (World.fresh e payload)
            [.resolved (some h) none, .Discard, .StartSandbox]).sandboxes = []) ∧
        ((run (World.fresh e payload) [.Discard, .resolved (some h) none, .StartSandbox]).released
            = [h] ∧
          (run (World.fresh e payload)
            [.Discard, .resolved (some h) none, .StartSandbox]).sandboxes = [])) := by
  refine ⟨(run_handleAccounted steps _ (fresh_handleAccounted e payload)).2.1, ?_, ?_⟩
  · intro pre post h hsteps hpre hcons
    have hp := run_pending pre _ (fresh_pending e payload) hpre
    have hrun : run (World.fresh e payload) steps =
        run (step (run (World.fresh e payload) pre) (.resolved (some h) none)) post := by
      rw [hsteps, run_append]; rfl
    rw [hrun] at hcons ⊢
    obtain ⟨hyes, hno⟩ := resolved_pending (run (World.fresh e payload) pre) h hp
    cases hd : (run (World.fresh e payload) pre).sb.discarded with
    | true =>
      have hR := hyes hd
      rw [run_releasedByResolution h post _ hR]
      exact Or.inl ⟨hR.2.2.2.2.1, hR.2.2.2.2.2.1⟩
    | false =>
      rcases run_stored h post _ (hno hd) with h1 | h1 | h1
      · rw [h1.2.1] at hcons
        exact absurd hcons (by simp)
      · exact Or.inl ⟨h1.2.2.2.2.1, h1.2.2.2.2.2.1⟩
      · exact Or.inr ⟨h1.2.2.2.1, h1.2.2.2.2.1⟩
  · intro h
    exact ⟨⟨rfl, rfl⟩, ⟨rfl, rfl⟩, ⟨rfl, rfl⟩⟩

/-- C2: the claim that `StartSandbox` on a discarded builder returns the
discarded error fails on the code.  On every builder that is discarded, whose
resolution is done and whose mutex is free, the discarded branch unlocks the
mutex and the deferred `Unlock` then unlocks it a second time: the call ends in
the fatal error for unlocking an unlocked mutex and returns nothing. -/
theorem C2_start_after_discard_unlocks_twice (w : World) (hm : w.sb.m.locked = false)
    (hdone : w.sb.imageDone = true) (hd : w.sb.discarded = true) :
    sandboxBuilder.StartSandbox w = .error .unlockOfUnlockedMutex :=
  StartSandbox_discarded w hm hdone hd

theorem C2_start_after_discard_unlocks_twice_witness :
    sandboxBuilder.StartSandbox
        (run (World.fresh ⟨⟨false⟩, 1, ⟨"", 1⟩, 1⟩ ⟨"image", []⟩)
          [.resolved (some 7) none, .Discard])
      = .error .unlockOfUnlockedMutex :=
  C2_start_after_discard_unlocks_twice _ (by decide) (by decide) (by decide)

/-- C5: on an engine with `running == maxConcurrency` (and a free mutex),
`NewSandboxBuilder` with a payload that passes the schema returns a nil builder
and `ErrMaxConcurrencyExceeded`, and leaves the whole engine state, `running`
and `maxConcurrency` included, as it was. -/
theorem C5_full_engine_rejects (e : engine) (p : payloadType) (hm : e.m.locked = false)
    (h : e.running = e.maxConcurrency) :
    e.NewSandboxBuilder (some p) = .ok (e, none, some .ErrMaxConcurrencyExceeded) :=
  NewSandboxBuilder_full e p hm h

theorem C5_full_engine_rejects_witness :
    (⟨⟨false⟩, 2, ⟨"unix:///var/run/docker.sock", 2⟩, 2⟩ : engine).NewSandboxBuilder
        (some ⟨"image", ["true"]⟩)
      = .ok (⟨⟨false⟩, 2, ⟨"unix:///var/run/docker.sock", 2⟩, 2⟩, none,
          some .ErrMaxConcurrencyExceeded) :=
  C5_full_engine_rejects _ _ (by decide) (by decide)

/-- C6: for an engine returned by `NewEngine` from a configuration with
`0 <= maxConcurrency` (a Go int), after every sequence of `NewSandboxBuilder`
calls `0 <= running <= maxConcurrency` holds, `maxConcurrency` is the
configured one, and the number of calls that returned without
`ErrMaxConcurrencyExceeded` is at most `maxConcurrency`. -/
theorem C6_running_bounded (c : configType) (clientErr : Option Error) (e : engine)
    (calls : List (Option payloadType))
    (hnew : NewEngine (some c) clientErr = .ok (some e, none))
    (h0 : 0 ≤ c.MaxConcurrency) (hi : isInt c.MaxConcurrency) :
    0 ≤ (newSandboxBuilders e calls).1.running ∧
      (newSandboxBuilders e calls).1.running ≤ (newSandboxBuilders e calls).1.maxConcurrency ∧
      (newSandboxBuilders e calls).1.maxConcurrency = c.MaxConcurrency ∧
      ((newSandboxBuilders e calls).2 : Int) ≤ c.MaxConcurrency := by
  cases clientErr with
  | some err => simp [NewEngine] at hnew
  | none =>
    simp only [NewEngine, Except.ok.injEq, Prod.mk.injEq, Option.some.injEq, and_true] at hnew
    subst hnew
    have := newSandboxBuilders_inv calls
      { m := { locked := false }, maxConcurrency := c.MaxConcurrency, engineConfig := c,
        running := 0 } rfl (le_refl _) h0 hi
    simp only at this
    obtain ⟨_, b, c1, d⟩ := this
    refine ⟨?_, ?_, b, ?_⟩
    · rw [c1]; omega
    · rw [b]; exact d
    · rw [c1] at d; omega

theorem C6_running_bounded_witness :
    0 ≤ (newSandboxBuilders ⟨⟨false⟩, 1, ⟨"", 1⟩, 0⟩
          [some ⟨"a", []⟩, some ⟨"b", []⟩, none, some ⟨"c", []⟩]).1.running ∧
      (newSandboxBuilders ⟨⟨false⟩, 1, ⟨"", 1⟩, 0⟩
          [some ⟨"a", []⟩, some ⟨"b", []⟩, none, some ⟨"c", []⟩]).1.running
        ≤ (newSandboxBuilders ⟨⟨false⟩, 1, ⟨"", 1⟩, 0⟩
          [some ⟨"a", []⟩, some ⟨"b", []⟩, none, some ⟨"c", []⟩]).1.maxConcurrency ∧
      (newSandboxBuilders ⟨⟨false⟩, 1, ⟨"", 1⟩, 0⟩
          [some ⟨"a", []⟩, some ⟨"b", []⟩, none, some ⟨"c", []⟩]).1.maxConcurrency = 1 ∧
      ((newSandboxBuilders ⟨⟨false⟩, 1, ⟨"", 1⟩, 0⟩
          [some ⟨"a", []⟩, some ⟨"b", []⟩, none, some ⟨"c", []⟩]).2 : Int) ≤ 1 :=
  C6_running_bounded ⟨"", 1⟩ none _ _ rfl (by decide) (by decide)

/-- C7: the claim that an admitted call returns a non-nil SandboxBuilder fails
on the code.  On every engine with `running < maxConcurrency` (Go ints, free
mutex) and every payload that passes the schema, `NewSandboxBuilder` raises
`running` by exactly one and returns a nil error together with a nil builder. -/
theorem C7_admitted_call_returns_nil_builder (e : engine) (p : payloadType)
    (hm : e.m.locked = false) (h : e.running < e.maxConcurrency)
    (hi : isInt e.maxConcurrency) (hr : isInt e.running) :
    e.NewSandboxBuilder (some p) = .ok ({ e with running := e.running + 1 }, none, none) :=
  NewSandboxBuilder_free e p hm h hi hr

theorem C7_admitted_call_returns_nil_builder_witness :
    (⟨⟨false⟩, 1, ⟨"", 1⟩, 0⟩ : engine).NewSandboxBuilder (some ⟨"image", ["true"]⟩)
      = .ok (⟨⟨false⟩, 1, ⟨"", 1⟩, 1⟩, none, none) :=
  C7_admitted_call_returns_nil_builder _ _ (by decide) (by decide) (by decide) (by decide)

/-- C8: the claim that `Discard` or a failing `StartSandbox` decrements
`running` fails on the code.  No step of a builder touches its engine: once the
engine is full, after every sequence of resolution, `StartSandbox` and `Discard`
steps on a builder the next `NewSandboxBuilder` still returns
`ErrMaxConcurrencyExceeded` and `running` is what it was. -/
theorem C8_discard_frees_no_slot (w : World) (steps : List Step) (p : payloadType)
    (hm : w.e.m.locked = false) (hfull : w.e.running = w.e.maxConcurrency) :
    (run w steps).e.running = w.e.running ∧
      (run w steps).e.NewSandboxBuilder (some p)
        = .ok (w.e, none, some .ErrMaxConcurrencyExceeded) := by
  rw [run_engine]
  exact ⟨rfl, NewSandboxBuilder_full w.e p hm hfull⟩

theorem C8_discard_frees_no_slot_witness :
    (run (World.fresh ⟨⟨false⟩, 1, ⟨"", 1⟩, 1⟩ ⟨"image", []⟩) [.Discard]).e.running = 1 ∧
      (run (World.fresh ⟨⟨false⟩, 1, ⟨"", 1⟩, 1⟩ ⟨"image", []⟩) [.Discard]).e.NewSandboxBuilder
          (some ⟨"next", []⟩)
        = .ok (⟨⟨false⟩, 1, ⟨"", 1⟩, 1⟩, none, some .ErrMaxConcurrencyExceeded) :=
  C8_discard_frees_no_slot (World.fresh ⟨⟨false⟩, 1, ⟨"", 1⟩, 1⟩ ⟨"image", []⟩) [.Discard]
    ⟨"next", []⟩ (by decide) (by decide)

theorem Discard_pending (w : World) (hp : Pending w) :
    sandboxBuilder.Discard w = .ok (step w .Discard, none) ∧ Pending (step w .Discard) ∧
      (step w .Discard).sb.discarded = true ∧ (step w .Discard).released = w.released := by
  obtain ⟨h1, h2, h3, h4, h5, h6⟩ := hp
  have hd := Discard_none w h6 h2
  have hs : step w .Discard = { w with sb := { w.sb with discarded := true } } := by
    simp [step, hd]
  rw [hs]
  exact ⟨hd, ⟨h1, h2, h3, h4, h5, h6⟩, rfl, rfl⟩

theorem discards_clean (n : Nat) (w : World) (hm : w.sb.m.locked = false)
    (hh : w.sb.imageHandle = none) (hd : w.sb.discarded = true) :
    discards n w = .ok (w, List.replicate n none) := by
  have hw : sandboxBuilder.Discard w = .ok (w, none) := by
    rw [Discard_none w hm hh]
    obtain ⟨e, ⟨⟨l⟩, pl, px, env, d, ms, done, ih, ie⟩, rel, sbs⟩ := w
    simp only at hd
    subst hd
    rfl
  induction n with
  | zero => rfl
  | succ k ih =>
    simp [discards, hw, ih, bind, Except.bind, pure, Except.pure, List.replicate_succ]

/-- C9: on a builder whose resolution has not completed (any state reached
from `newSandboxBuilder` with the resolution still pending), `Discard` returns
nil at once, without waiting, and releases nothing.  Whatever steps follow
while the resolution is pending, when it then completes with handle `h` the
resolution routine calls `Release` on `h` exactly once and stores neither the
handle nor the error; after that no sequence of steps releases anything more
or creates a Sandbox. -/
theorem C9_discard_before_resolution (e : engine) (payload : payloadType)
    (pre mid post : List Step) (h : ImageHandle) (err : Option Error)
    (hpre : (run (World.fresh e payload) pre).sb.imageDone = false)
    (hmid : (run (step (run (World.fresh e payload) pre) .Discard) mid).sb.imageDone = false) :
    sandboxBuilder.Discard (run (World.fresh e payload) pre)
        = .ok (step (run (World.fresh e payload) pre) .Discard, none) ∧
      (step (run (World.fresh e payload) pre) .Discard).released = [] ∧
      ∃ w2, sandboxBuilder.imageResolved (some h) err
              (run (step (run (World.fresh e payload) pre) .Discard) mid) = .ok w2 ∧
        w2.released = [h] ∧ w2.sb.imageHandle = none ∧ w2.sb.imageErr = none ∧
        w2.sb.imageDone = true ∧
        (run w2 post).released = [h] ∧ (run w2 post).sandboxes = [] ∧
        (run w2 post).sb.imageHandle = none := by
  have hp := run_pending pre _ (fresh_pending e payload) hpre
  obtain ⟨hd, hp1, hdisc, hrel⟩ := Discard_pending _ hp
  have hp2 := run_pending mid _ hp1 hmid
  have hdisc2 := run_discarded mid _ hdisc
  obtain ⟨g1, g2, g3, g4, g5, g6⟩ := hp2
  have hres := imageResolved_discarded _ h err g6 g1 hdisc2
  refine ⟨hd, by rw [hrel]; exact hp.2.2.2.1, _, hres, ?_⟩
  have hR : ReleasedByResolution h
      { run (step (run (World.fresh e payload) pre) .Discard) mid with
        released := (run (step (run (World.fresh e payload) pre) .Discard) mid).released ++ [h]
        sb := { (run (step (run (World.fresh e payload) pre) .Discard) mid).sb with
                imageDone := true } } :=
    ⟨rfl, hdisc2, g2, g3, by simp [g4], g5, g6⟩
  rw [run_releasedByResolution h post _ hR]
  exact ⟨hR.2.2.2.2.1, hR.2.2.1, hR.2.2.2.1, hR.1, hR.2.2.2.2.1, hR.2.2.2.2.2.1, hR.2.2.1⟩

theorem C9_discard_before_resolution_witness :
    sandboxBuilder.Discard (run (World.fresh ⟨⟨false⟩, 1, ⟨"", 1⟩, 1⟩ ⟨"image", []⟩) [.StartSandbox])
        = .ok (step (run (World.fresh ⟨⟨false⟩, 1, ⟨"", 1⟩, 1⟩ ⟨"image", []⟩) [.StartSandbox])
            .Discard, none) ∧
      (step (run (World.fresh ⟨⟨false⟩, 1, ⟨"", 1⟩, 1⟩ ⟨"image", []⟩) [.StartSandbox])
        .Discard).released = [] ∧
      ∃ w2, sandboxBuilder.imageResolved (some 7) none
              (run (step (run (World.fresh ⟨⟨false⟩, 1, ⟨"", 1⟩, 1⟩ ⟨"image", []⟩) [.StartSandbox])
                .Discard) [.Discard, .StartSandbox]) = .ok w2 ∧
        w2.released = [7] ∧ w2.sb.imageHandle = none ∧ w2.sb.imageErr = none ∧
        w2.sb.imageDone = true ∧
        (run w2 [.StartSandbox, .Discard, .resolved (some 8) none]).released = [7] ∧
        (run w2 [.StartSandbox, .Discard, .resolved (some 8) none]).sandboxes = [] ∧
        (run w2 [.StartSandbox, .Discard, .resolved (some 8) none]).sb.imageHandle = none :=
  C9_discard_before_resolution ⟨⟨false⟩, 1, ⟨"", 1⟩, 1⟩ ⟨"image", []⟩ [.StartSandbox]
    [.Discard, .StartSandbox] [.StartSandbox, .Discard, .resolved (some 8) none] 7 none
    (by decide) (by decide)

/-- C10: `Discard` is idempotent.  On every builder state with a free mutex and
for every `n >= 1`, `n` consecutive `Discard` calls all return nil and end in
the state that a single `Discard` ends in, where `discarded` is true and
`imageHandle` is nil; over all `n` calls `Release` is called once on the handle
that was stored, and not at all when none was stored. -/
theorem C10_discard_idempotent (w : World) (n : Nat) (hm : w.sb.m.locked = false)
    (hn : 1 ≤ n) :
    ∃ w1, sandboxBuilder.Discard w = .ok (w1, none) ∧
      discards n w = .ok (w1, List.replicate n none) ∧
      w1.sb.discarded = true ∧ w1.sb.imageHandle = none ∧
      w1.released = w.released ++ w.sb.imageHandle.toList := by
  obtain ⟨k, rfl⟩ : ∃ k, n = k + 1 := ⟨n - 1, by omega⟩
  cases hh : w.sb.imageHandle with
  | none =>
    have hd := Discard_none w hm hh
    refine ⟨_, hd, ?_, rfl, hh, by simp⟩
    have hc := discards_clean k { w with sb := { w.sb with discarded := true } } hm hh rfl
    simp [discards, hd, hc, bind, Except.bind, pure, Except.pure, List.replicate_succ]
  | some h =>
    have hd := Discard_some w h hm hh
    refine ⟨_, hd, ?_, rfl, rfl, by simp⟩
    have hc := discards_clean k
      { w with released := w.released ++ [h]
               sb := { w.sb with discarded := true, imageHandle := none } } hm rfl rfl
    simp [discards, hd, hc, bind, Except.bind, pure, Except.pure, List.replicate_succ]

theorem C10_discard_idempotent_witness :
    ∃ w1, sandboxBuilder.Discard
            (run (World.fresh ⟨⟨false⟩, 1, ⟨"", 1⟩, 1⟩ ⟨"image", []⟩) [.resolved (some 7) none])
          = .ok (w1, none) ∧
      discards 3 (run (World.fresh ⟨⟨false⟩, 1, ⟨"", 1⟩, 1⟩ ⟨"image", []⟩)
          [.resolved (some 7) none]) = .ok (w1, List.replicate 3 none) ∧
      w1.sb.discarded = true ∧ w1.sb.imageHandle = none ∧
      w1.released =
        (run (World.fresh ⟨⟨false⟩, 1, ⟨"", 1⟩, 1⟩ ⟨"image", []⟩)
          [.resolved (some 7) none]).released ++
        (run (World.fresh ⟨⟨false⟩, 1, ⟨"", 1⟩, 1⟩ ⟨"image", []⟩)
          [.resolved (some 7) none]).sb.imageHandle.toList :=
  C10_discard_idempotent _ 3 (by decide) (by decide)

/-! ## Claims on AttachVolume -/


/-- C3: starting from a builder with no mounts, after every sequence of
`AttachVolume` calls, whatever each call returned, any two entries of
`sb.mounts` at distinct positions `i` and `j`, with targets `t1` and `t2`,
satisfy `t1 != t2` and `t1 + "/"` is not a prefix of `t2`. -/
theorem C3_mount_targets_never_overlap (sb : sandboxBuilder)
    (calls : List (String × Volume × Bool)) (i j : Nat) (m1 m2 : HostMount)
    (h0 : sb.mounts = []) (hij : i ≠ j)
    (h1 : (attachVolumes sb calls).mounts[i]? = some m1)
    (h2 : (attachVolumes sb calls).mounts[j]? = some m2) :
    m1.Target ≠ m2.Target ∧ HasPrefix m2.Target (m1.Target ++ "/") = false := by
  have hp : (attachVolumes sb calls).mounts.Pairwise NoOverlap :=
    attachVolumes_pairwise calls sb (by rw [h0]; exact List.Pairwise.nil)
  rw [List.pairwise_iff_getElem] at hp
  obtain ⟨hi, e1⟩ := List.getElem?_eq_some.1 h1
  obtain ⟨hj, e2⟩ := List.getElem?_eq_some.1 h2
  rcases Nat.lt_or_gt_of_ne hij with hlt | hgt
  · have := hp i j hi hj hlt
    rw [e1, e2] at this
    exact ⟨this.1, this.2.1⟩
  · have := noOverlap_symm (hp j i hj hi hgt)
    rw [e1, e2] at this
    exact ⟨this.1, this.2.1⟩

theorem C3_mount_targets_never_overlap_witness :
    (⟨"/a", "v1", "volume", false⟩ : HostMount).Target
        ≠ (⟨"/ab", "v3", "volume", true⟩ : HostMount).Target ∧
      HasPrefix (⟨"/ab", "v3", "volume", true⟩ : HostMount).Target
        ((⟨"/a", "v1", "volume", false⟩ : HostMount).Target ++ "/") = false :=
  C3_mount_targets_never_overlap (newSandboxBuilder ⟨"image", []⟩)
    [("/a/", .docker "v1", false), ("/a/b/", .docker "v2", false), ("/ab/", .docker "v3", true),
     ("/", .docker "v4", false), ("/c/", .foreign, false)]
    0 1 _ _ (by decide) (by decide) (by decide) (by decide)

/-- C4: for mount points `p` and `q` that both pass `validateMountPoint` and
where `p` is a prefix of `q` (equal, or a parent directory), on a builder with
no mounts and a free mutex: `AttachVolume(p)` succeeds and a following
`AttachVolume(q)` returns `ErrNamingConflict`; `AttachVolume(q)` succeeds and a
following `AttachVolume(p)` returns `ErrNamingConflict`; in both orders the
second call leaves the builder as it was, with only the first mount. -/
theorem C4_overlapping_mounts_conflict (sb : sandboxBuilder) (p q n1 n2 : String) (r1 r2 : Bool)
    (h0 : sb.mounts = []) (hm : sb.m.locked = false)
    (hp : validateMountPoint p = none) (hq : validateMountPoint q = none)
    (hpq : HasPrefix q p = true) :
    (∃ sb1, sb.AttachVolume p (.docker n1) r1 = .ok (sb1, none) ∧
        sb1.AttachVolume q (.docker n2) r2 = .ok (sb1, some .ErrNamingConflict) ∧
        sb1.mounts = [{ Target := targetOf p, Source := n1, Type_ := "volume", ReadOnly := r1 }]) ∧
      (∃ sb2, sb.AttachVolume q (.docker n1) r1 = .ok (sb2, none) ∧
        sb2.AttachVolume p (.docker n2) r2 = .ok (sb2, some .ErrNamingConflict) ∧
        sb2.mounts = [{ Target := targetOf q, Source := n1, Type_ := "volume", ReadOnly := r1 }]) := by
  have hfree : ∀ mp, namingConflict mp (targetOf mp) sb.mounts = false := by
    intro mp; rw [h0]; rfl
  have hcase := target_of_HasPrefix p q hq hpq
  constructor
  · refine ⟨_, AttachVolume_accept sb p n1 r1 hm hp (hfree p), ?_, by simp [h0]⟩
    refine AttachVolume_conflict _ q n2 r2 ?_ hq ?_
    · exact hm
    simp only [h0, List.nil_append, namingConflict]
    rcases hcase with h | h
    · simp [h]
    · rw [HasPrefix_congr (targetOf q) _ p (target_append_slash p hp), h]
      simp
  · refine ⟨_, AttachVolume_accept sb q n1 r1 hm hq (hfree q), ?_, by simp [h0]⟩
    refine AttachVolume_conflict _ p n2 r2 ?_ hp ?_
    · exact hm
    simp only [h0, List.nil_append, namingConflict]
    rcases hcase with h | h
    · simp [h]
    · rw [h]
      simp

theorem C4_overlapping_mounts_conflict_witness :
    (∃ sb1, (newSandboxBuilder ⟨"image", []⟩).AttachVolume "/data/" (.docker "v1") false
          = .ok (sb1, none) ∧
        sb1.AttachVolume "/data/sub/" (.docker "v2") true = .ok (sb1, some .ErrNamingConflict) ∧
        sb1.mounts =
          [{ Target := targetOf "/data/", Source := "v1", Type_ := "volume", ReadOnly := false }]) ∧
      (∃ sb2, (newSandboxBuilder ⟨"image", []⟩).AttachVolume "/data/sub/" (.docker "v1") false
          = .ok (sb2, none) ∧
        sb2.AttachVolume "/data/" (.docker "v2") true = .ok (sb2, some .ErrNamingConflict) ∧
        sb2.mounts =
          [{ Target := targetOf "/data/sub/", Source := "v1", Type_ := "volume",
             ReadOnly := false }]) :=
  C4_overlapping_mounts_conflict (newSandboxBuilder ⟨"image", []⟩) "/data/" "/data/sub/" "v1" "v2"
    false true (by decide) (by decide) (by decide) (by decide) (by decide)

/-! ## Lemmas on regular expressions -/


theorem Regex.nullable_iff (r : Regex) : r.nullable = true ↔ r.Matches [] := by
  induction r with
  | nothing => simp [Regex.nullable, Regex.Matches]
  | eps => simp [Regex.nullable, Regex.Matches]
  | chars p => simp [Regex.nullable, Regex.Matches]
  | cat r1 r2 ih1 ih2 =>
    simp only [Regex.nullable, Regex.Matches, Bool.and_eq_true, ih1, ih2]
    constructor
    · rintro ⟨h1, h2⟩; exact ⟨[], [], rfl, h1, h2⟩
    · rintro ⟨s1, s2, hs, h1, h2⟩
      have hs' := hs.symm
      rw [List.append_eq_nil] at hs'
      obtain ⟨rfl, rfl⟩ := hs'
      exact ⟨h1, h2⟩
  | alt r1 r2 ih1 ih2 => simp only [Regex.nullable, Regex.Matches, Bool.or_eq_true, ih1, ih2]
  | star r _ =>
    simp only [Regex.nullable, Regex.Matches, true_iff]
    exact ⟨[], rfl, by simp⟩

/-- A text that starts with `c` and is made of pieces has a first non-empty
piece that starts with `c`. -/
theorem flatten_cons_split (P : List Char → Prop) (c : Char) :
    ∀ (pieces : List (List Char)) (s : List Char), c :: s = pieces.flatten →
      (∀ p ∈ pieces, P p) →
      ∃ (s1 : List Char) (rest : List (List Char)),
        s = s1 ++ rest.flatten ∧ P (c :: s1) ∧ ∀ p ∈ rest, P p := by
  intro pieces
  induction pieces with
  | nil => intro s h _; simp at h
  | cons p ps ih =>
    intro s h hall
    cases p with
    | nil =>
      simp only [List.flatten_cons, List.nil_append] at h
      exact ih s h (fun q hq => hall q (List.mem_cons_of_mem _ hq))
    | cons c1 p1 =>
      simp only [List.flatten_cons, List.cons_append, List.cons.injEq] at h
      obtain ⟨rfl, rfl⟩ := h
      exact ⟨p1, ps, rfl, hall _ (List.mem_cons_self _ _),
        fun q hq => hall q (List.mem_cons_of_mem _ hq)⟩

theorem Regex.deriv_iff (c : Char) (r : Regex) :
    ∀ s : List Char, (Regex.deriv c r).Matches s ↔ r.Matches (c :: s) := by
  induction r with
  | nothing => intro s; simp [Regex.deriv, Regex.Matches]
  | eps => intro s; simp [Regex.deriv, Regex.Matches]
  | chars p =>
    intro s
    by_cases hp : p c = true
    · simp only [Regex.deriv, hp, if_true, Regex.Matches]
      constructor
      · rintro rfl; exact ⟨c, rfl, hp⟩
      · rintro ⟨c1, h, _⟩
        simp only [List.cons.injEq] at h
        exact h.2
    · simp only [Regex.deriv, hp, Regex.Matches, false_iff]
      rintro ⟨c1, h, h1⟩
      simp only [List.cons.injEq] at h
      rw [← h.1] at h1
      exact hp h1
  | cat r1 r2 ih1 ih2 =>
    intro s
    have key : (∃ s1 s2, s = s1 ++ s2 ∧ (Regex.deriv c r1).Matches s1 ∧ r2.Matches s2) ↔
        ∃ t1 t2, c :: s = (c :: t1) ++ t2 ∧ r1.Matches (c :: t1) ∧ r2.Matches t2 := by
      constructor
      · rintro ⟨s1, s2, hs, h1, h2⟩
        exact ⟨s1, s2, by rw [hs]; rfl, (ih1 s1).1 h1, h2⟩
      · rintro ⟨t1, t2, hs, h1, h2⟩
        simp only [List.cons_append, List.cons.injEq, true_and] at hs
        exact ⟨t1, t2, hs, (ih1 t1).2 h1, h2⟩
    by_cases hn : r1.nullable = true
    · simp only [Regex.deriv, hn, if_true, Regex.Matches]
      rw [key, ih2 s]
      constructor
      · rintro (⟨t1, t2, hs, h1, h2⟩ | h)
        · exact ⟨c :: t1, t2, hs, h1, h2⟩
        · exact ⟨[], c :: s, rfl, (Regex.nullable_iff r1).1 hn, h⟩
      · rintro ⟨u1, u2, hs, h1, h2⟩
        cases u1 with
        | nil =>
          simp only [List.nil_append] at hs
          rw [← hs] at h2
          exact Or.inr h2
        | cons c1 u1 =>
          have hc : c = c1 := by
            simp only [List.cons_append, List.cons.injEq] at hs
            exact hs.1
          subst hc
          exact Or.inl ⟨u1, u2, hs, h1, h2⟩
    · simp only [Regex.deriv, hn, Regex.Matches]
      rw [key]
      constructor
      · rintro ⟨t1, t2, hs, h1, h2⟩
        exact ⟨c :: t1, t2, hs, h1, h2⟩
      · rintro ⟨u1, u2, hs, h1, h2⟩
        cases u1 with
        | nil => exact absurd ((Regex.nullable_iff r1).2 h1) hn
        | cons c1 u1 =>
          have hc : c = c1 := by
            simp only [List.cons_append, List.cons.injEq] at hs
            exact hs.1
          subst hc
          exact ⟨u1, u2, hs, h1, h2⟩
  | alt r1 r2 ih1 ih2 =>
    intro s
    simp only [Regex.deriv, Regex.Matches, ih1 s, ih2 s]
  | star r ih =>
    intro s
    simp only [Regex.deriv, Regex.Matches]
    constructor
    · rintro ⟨s1, s2, hs, h1, ps, hps, hall⟩
      refine ⟨(c :: s1) :: ps, by rw [hs, hps]; rfl, ?_⟩
      intro p hp
      rcases List.mem_cons.1 hp with rfl | hp
      · exact (ih s1).1 h1
      · exact hall p hp
    · rintro ⟨pieces, hs, hall⟩
      obtain ⟨s1, rest, hs1, h1, hrest⟩ := flatten_cons_split r.Matches c pieces s hs hall
      exact ⟨s1, rest.flatten, hs1, (ih s1).2 h1, rest, rfl, hrest⟩

theorem Regex.foldl_deriv_iff (s : List Char) :
    ∀ r : Regex, (s.foldl (fun r c => Regex.deriv c r) r).nullable = true ↔ r.Matches s := by
  induction s with
  | nil => intro r; exact Regex.nullable_iff r
  | cons c s ih =>
    intro r
    rw [List.foldl_cons, ih, Regex.deriv_iff]

/-- `MatchString` accepts exactly the texts the expression denotes. -/
theorem Regex.MatchString_iff (r : Regex) (s : String) :
    r.MatchString s = true ↔ r.Matches s.data :=
  Regex.foldl_deriv_iff s.data r

/-- One or more characters of a class. -/
theorem Regex.plus_chars_iff (p : Char → Bool) (s : List Char) :
    (Regex.plus (.chars p)).Matches s ↔ s ≠ [] ∧ ∀ c ∈ s, p c = true := by
  simp only [Regex.plus, Regex.Matches]
  constructor
  · rintro ⟨s1, s2, hs, ⟨c, rfl, hc⟩, ps, rfl, hall⟩
    subst hs
    refine ⟨by simp, ?_⟩
    intro d hd
    simp only [List.singleton_append, List.mem_cons, List.mem_flatten] at hd
    rcases hd with rfl | ⟨l, hl, hdl⟩
    · exact hc
    · obtain ⟨c1, rfl, hc1⟩ := hall l hl
      simp only [List.mem_singleton] at hdl
      rw [hdl]; exact hc1
  · rintro ⟨hne, hall⟩
    cases s with
    | nil => exact absurd rfl hne
    | cons c s =>
      refine ⟨[c], s, rfl, ⟨c, rfl, hall c (List.mem_cons_self _ _)⟩,
        s.map (fun d => [d]), ?_, ?_⟩
      · clear hne hall
        induction s with
        | nil => rfl
        | cons d s ih => simp [← ih]
      · intro q hq
        simp only [List.mem_map] at hq
        obtain ⟨d, hd, rfl⟩ := hq
        exact ⟨d, rfl, hall d (List.mem_cons_of_mem _ hd)⟩

/-! ## Lemmas and claims on StartSandbox errors, disjoint mounts and validation -/


theorem StartSandbox_imageErr (w : World) (err : Error) (hm : w.sb.m.locked = false)
    (hdone : w.sb.imageDone = true) (hd : w.sb.discarded = false)
    (he : w.sb.imageErr = some err) :
    sandboxBuilder.StartSandbox w =
      .ok ({ w with sb := { w.sb with discarded := true } }, none, some err) := by
  obtain ⟨e, ⟨⟨l⟩, pl, px, env, d, ms, done, ih, ie⟩, rel, sbs⟩ := w
  simp only at hm hdone hd he
  subst hm hdone hd he
  simp [sandboxBuilder.StartSandbox, World.lock, World.unlock, Mutex.Lock, Mutex.Unlock, bind,
    Except.bind, pure, Except.pure]

/-- The target of a mount point starts the mount point. -/
theorem targetOf_isPrefix (mp : String) : (targetOf mp).data <+: mp.data :=
  List.dropLast_prefix mp.data

theorem HasPrefix_iff (s p : String) : HasPrefix s p = true ↔ p.data <+: s.data := by
  unfold HasPrefix
  exact List.isPrefixOf_iff_prefix

theorem HasPrefix_eq_false_iff (s p : String) : HasPrefix s p = false ↔ ¬ p.data <+: s.data := by
  rw [← HasPrefix_iff, Bool.not_eq_true]

theorem String_ext_data (a b : String) (h : a.data = b.data) : a = b := by
  cases a; cases b; simp only at h; rw [h]

theorem target_append_slash_eq (mp : String) (h : validateMountPoint mp = none) :
    targetOf mp ++ "/" = mp :=
  String_ext_data _ _ (target_append_slash mp h)

/-- Validated mount points of which neither starts the other do not conflict. -/
theorem namingConflict_disjoint (p q n : String) (r : Bool)
    (hp : validateMountPoint p = none) (hq : validateMountPoint q = none)
    (hpq : HasPrefix q p = false) (hqp : HasPrefix p q = false) :
    namingConflict q (targetOf q)
      [{ Target := targetOf p, Source := n, Type_ := "volume", ReadOnly := r }] = false := by
  rw [HasPrefix_eq_false_iff] at hpq hqp
  rw [namingConflict_false_iff]
  intro m hm
  simp only [List.mem_singleton] at hm
  subst hm
  refine ⟨?_, ?_, ?_⟩
  · intro h
    apply hpq
    have hd : (targetOf q).data = (targetOf p).data := by rw [h]
    rw [validateMountPoint_data p hp, validateMountPoint_data q hq, hd]
  · rw [HasPrefix_eq_false_iff]
    intro h
    exact hqp (h.trans (targetOf_isPrefix p))
  · rw [HasPrefix_eq_false_iff]
    intro h
    rw [target_append_slash p hp] at h
    exact hpq (h.trans (targetOf_isPrefix q))

theorem validateMountPoint_malformed (mp : String)
    (h : HasPrefix mp "/" = false ∨ HasSuffix mp "/" = false) :
    ∃ msg, validateMountPoint mp = some (.MalformedPayloadError msg) := by
  unfold validateMountPoint
  by_cases h1 : HasPrefix mp "/" = true
  · rcases h with h | h
    · rw [h1] at h; exact absurd h (by simp)
    · simp only [h1, h, Bool.not_true, Bool.false_eq_true, if_false, Bool.not_false, if_true]
      exact ⟨_, rfl⟩
  · have h1' : HasPrefix mp "/" = false := by simpa using h1
    simp only [h1', Bool.not_false, if_true]
    exact ⟨_, rfl⟩

/-- C11: on a builder that is not discarded and whose resolution completed
with the error `err` (mutex free), `StartSandbox` returns a nil Sandbox and
exactly `err`; no Sandbox is created, `Release` is called on nothing, and
`discarded` is set, the rest of the builder being as it was. -/
theorem C11_start_returns_image_error (w : World) (err : Error) (hm : w.sb.m.locked = false)
    (hdone : w.sb.imageDone = true) (hd : w.sb.discarded = false)
    (he : w.sb.imageErr = some err) :
    ∃ w1, sandboxBuilder.StartSandbox w = .ok (w1, none, some err) ∧
      w1.sandboxes = w.sandboxes ∧ w1.released = w.released ∧ w1.sb.discarded = true ∧
      w1.sb.imageHandle = w.sb.imageHandle ∧ w1.e = w.e :=
  ⟨_, StartSandbox_imageErr w err hm hdone hd he, rfl, rfl, rfl, rfl, rfl⟩

theorem C11_start_returns_image_error_witness :
    ∃ w1, sandboxBuilder.StartSandbox
            (run (World.fresh ⟨⟨false⟩, 1, ⟨"", 1⟩, 1⟩ ⟨"image", []⟩)
              [.resolved none (some (.other 3))])
          = .ok (w1, none, some (.other 3)) ∧
      w1.sandboxes = (run (World.fresh ⟨⟨false⟩, 1, ⟨"", 1⟩, 1⟩ ⟨"image", []⟩)
        [.resolved none (some (.other 3))]).sandboxes ∧
      w1.released = (run (World.fresh ⟨⟨false⟩, 1, ⟨"", 1⟩, 1⟩ ⟨"image", []⟩)
        [.resolved none (some (.other 3))]).released ∧
      w1.sb.discarded = true ∧
      w1.sb.imageHandle = (run (World.fresh ⟨⟨false⟩, 1, ⟨"", 1⟩, 1⟩ ⟨"image", []⟩)
        [.resolved none (some (.other 3))]).sb.imageHandle ∧
      w1.e = (run (World.fresh ⟨⟨false⟩, 1, ⟨"", 1⟩, 1⟩ ⟨"image", []⟩)
        [.resolved none (some (.other 3))]).e :=
  C11_start_returns_image_error _ (.other 3) (by decide) (by decide) (by decide) (by decide)

/-- C12: for mount points `p` and `q` that both pass `validateMountPoint` and
of which neither is a string prefix of the other, on a builder with no mounts
and a free mutex `AttachVolume(p, v1, r1)` and then `AttachVolume(q, v2, r2)`
both return nil, and `sb.mounts` is then exactly the two entries in call order,
each with the mount point without its trailing slash as Target, the name of the
volume as Source, Type "volume" and the given read-only flag. -/
theorem C12_disjoint_mounts_accepted (sb : sandboxBuilder) (p q n1 n2 : String) (r1 r2 : Bool)
    (h0 : sb.mounts = []) (hm : sb.m.locked = false)
    (hp : validateMountPoint p = none) (hq : validateMountPoint q = none)
    (hpq : HasPrefix q p = false) (hqp : HasPrefix p q = false) :
    ∃ sb1 sb2, sb.AttachVolume p (.docker n1) r1 = .ok (sb1, none) ∧
      sb1.AttachVolume q (.docker n2) r2 = .ok (sb2, none) ∧
      sb2.mounts = [{ Target := targetOf p, Source := n1, Type_ := "volume", ReadOnly := r1 },
                    { Target := targetOf q, Source := n2, Type_ := "volume", ReadOnly := r2 }] ∧
      targetOf p ++ "/" = p ∧ targetOf q ++ "/" = q := by
  have hfree : namingConflict p (targetOf p) sb.mounts = false := by rw [h0]; rfl
  have h1 := AttachVolume_accept sb p n1 r1 hm hp hfree
  have h2 := AttachVolume_accept
    { sb with mounts := sb.mounts ++
        [{ Target := targetOf p, Source := n1, Type_ := "volume", ReadOnly := r1 }] }
    q n2 r2 hm hq (by
      simp only [h0, List.nil_append]
      exact namingConflict_disjoint p q n1 r1 hp hq hpq hqp)
  exact ⟨_, _, h1, h2, by simp [h0], target_append_slash_eq p hp, target_append_slash_eq q hq⟩

theorem C12_disjoint_mounts_accepted_witness :
    ∃ sb1 sb2, (newSandboxBuilder ⟨"image", []⟩).AttachVolume "/data/" (.docker "v1") false
        = .ok (sb1, none) ∧
      sb1.AttachVolume "/data2/" (.docker "v2") true = .ok (sb2, none) ∧
      sb2.mounts =
        [{ Target := targetOf "/data/", Source := "v1", Type_ := "volume", ReadOnly := false },
         { Target := targetOf "/data2/", Source := "v2", Type_ := "volume", ReadOnly := true }] ∧
      targetOf "/data/" ++ "/" = "/data/" ∧ targetOf "/data2/" ++ "/" = "/data2/" :=
  C12_disjoint_mounts_accepted (newSandboxBuilder ⟨"image", []⟩) "/data/" "/data2/" "v1" "v2"
    false true (by decide) (by decide) (by decide) (by decide) (by decide) (by decide)

/-- C13: for a mount point that does not start with a slash or does not end
with a slash (the empty string included), `AttachVolume` with a volume of this
engine returns a malformed-payload error, which is not `ErrNamingConflict`,
whatever the builder holds, and leaves the builder, `sb.mounts` included, as it
was. -/
theorem C13_malformed_mount_point (sb : sandboxBuilder) (mp name : String) (ro : Bool)
    (h : HasPrefix mp "/" = false ∨ HasSuffix mp "/" = false) :
    ∃ msg, sb.AttachVolume mp (.docker name) ro = .ok (sb, some (.MalformedPayloadError msg)) ∧
      Error.MalformedPayloadError msg ≠ Error.ErrNamingConflict := by
  obtain ⟨msg, hv⟩ := validateMountPoint_malformed mp h
  refine ⟨msg, ?_, by simp⟩
  simp [sandboxBuilder.AttachVolume, hv]

theorem C13_malformed_mount_point_witness :
    ∃ msg, ((attachVolumes (newSandboxBuilder ⟨"image", []⟩)
          [("/a/", .docker "v", false)]).AttachVolume "" (.docker "w") false
        = .ok (attachVolumes (newSandboxBuilder ⟨"image", []⟩) [("/a/", .docker "v", false)],
            some (.MalformedPayloadError msg))) ∧
      Error.MalformedPayloadError msg ≠ Error.ErrNamingConflict :=
  C13_malformed_mount_point _ "" "w" false (Or.inl (by decide))

/-! ## Lemmas on the mount point pattern -/


/-- One or more repetitions are a non-empty list of pieces. -/
theorem Regex.plus_iff (r : Regex) (s : List Char) :
    (Regex.plus r).Matches s ↔
      ∃ pieces : List (List Char), pieces ≠ [] ∧ s = pieces.flatten ∧ ∀ p ∈ pieces, r.Matches p := by
  simp only [Regex.plus, Regex.Matches]
  constructor
  · rintro ⟨s1, s2, hs, h1, ps, hps, hall⟩
    refine ⟨s1 :: ps, by simp, by rw [hs, hps]; rfl, ?_⟩
    intro p hp
    rcases List.mem_cons.1 hp with rfl | hp
    · exact h1
    · exact hall p hp
  · rintro ⟨pieces, hne, hs, hall⟩
    cases pieces with
    | nil => exact absurd rfl hne
    | cons p ps =>
      exact ⟨p, ps.flatten, hs, hall p (List.mem_cons_self _ _), ps, rfl,
        fun q hq => hall q (List.mem_cons_of_mem _ hq)⟩

theorem mountPointChar_iff (c : Char) : mountPointChar c = true ↔ c ∉ mountPointForbidden := by
  simp [mountPointChar]

theorem slash_forbidden : '/' ∈ mountPointForbidden := by decide

/-- The group of the pattern: a slash and one or more allowed characters. -/
theorem mountPointGroup_iff (t : List Char) :
    (Regex.cat (.chars (fun c => c == '/')) (Regex.plus (.chars mountPointChar))).Matches t ↔
      ∃ seg : List Char, t = '/' :: seg ∧ seg ≠ [] ∧ ∀ c ∈ seg, c ∉ mountPointForbidden := by
  simp only [Regex.Matches.eq_4, Regex.plus_chars_iff, mountPointChar_iff]
  constructor
  · rintro ⟨s1, s2, hs, ⟨c, rfl, hc⟩, hne, hall⟩
    have hc' : c = '/' := by simpa using hc
    subst hc'
    exact ⟨s2, hs, hne, hall⟩
  · rintro ⟨seg, hs, hne, hall⟩
    exact ⟨['/'], seg, hs, ⟨'/', rfl, by simp⟩, hne, hall⟩

/-- What `mountPointPattern` matches, in terms of segments. -/
theorem mountPointPattern_iff (s : List Char) :
    mountPointPattern.Matches s ↔
      ∃ segs : List (List Char), segs ≠ [] ∧ s = segmentsPath segs ∧
        ∀ seg ∈ segs, seg ≠ [] ∧ ∀ c ∈ seg, c ∉ mountPointForbidden := by
  unfold mountPointPattern
  rw [Regex.Matches.eq_4]
  constructor
  · rintro ⟨s1, s2, hs, h1, h2⟩
    rw [Regex.plus_iff] at h1
    obtain ⟨pieces, hne, hs1, hall⟩ := h1
    obtain ⟨c, rfl, hc⟩ := h2
    have hc' : c = '/' := by simpa using hc
    subst hc'
    refine ⟨pieces.map List.tail, by simpa using hne, ?_, ?_⟩
    · have this : ∀ p ∈ pieces, ((fun s => '/' :: s) ∘ List.tail) p = id p := by
        intro p hp
        obtain ⟨seg, hp1, _⟩ := (mountPointGroup_iff p).1 (hall p hp)
        rw [hp1]; rfl
      have hmap : (pieces.map List.tail).map (fun s => '/' :: s) = pieces := by
        rw [List.map_map, List.map_congr_left this, List.map_id]
      rw [hs, hs1]
      unfold segmentsPath
      rw [hmap]
    · intro seg hseg
      simp only [List.mem_map] at hseg
      obtain ⟨p, hp, rfl⟩ := hseg
      obtain ⟨seg, hp1, h2, h3⟩ := (mountPointGroup_iff p).1 (hall p hp)
      rw [hp1]
      exact ⟨h2, h3⟩
  · rintro ⟨segs, hne, hs, hall⟩
    refine ⟨(segs.map (fun s => '/' :: s)).flatten, ['/'], hs, ?_, ⟨'/', rfl, by simp⟩⟩
    rw [Regex.plus_iff]
    refine ⟨segs.map (fun s => '/' :: s), by simpa using hne, rfl, ?_⟩
    intro p hp
    simp only [List.mem_map] at hp
    obtain ⟨seg, hseg, rfl⟩ := hp
    exact (mountPointGroup_iff _).2 ⟨seg, rfl, hall seg hseg⟩

theorem segmentsPath_nil : segmentsPath [] = ['/'] := rfl

theorem segmentsPath_cons (s : List Char) (rest : List (List Char)) :
    segmentsPath (s :: rest) = '/' :: (s ++ segmentsPath rest) := by
  simp [segmentsPath]

/-- A path of segments starts with a slash. -/
theorem segmentsPath_head (segs : List (List Char)) :
    ∃ X, segmentsPath segs = '/' :: X := by
  cases segs with
  | nil => exact ⟨[], rfl⟩
  | cons s rest => exact ⟨_, segmentsPath_cons s rest⟩

/-- A pattern that starts with a slash does not start inside a segment. -/
theorem containsAt_skip (P : List Char) :
    ∀ (s rest : List Char), (∀ c ∈ s, c ≠ '/') →
      containsAt ('/' :: P) (s ++ rest) = containsAt ('/' :: P) rest := by
  intro s
  induction s with
  | nil => intro rest _; rfl
  | cons c s ih =>
    intro rest hs
    have hc : c ≠ '/' := hs c (List.mem_cons_self _ _)
    have hc' : ('/' == c) = false := by
      simp only [beq_eq_false_iff_ne, ne_eq]
      exact fun h => hc h.symm
    simp only [List.cons_append, containsAt, List.isPrefixOf, hc', Bool.false_and, Bool.false_or]
    exact ih rest (fun d hd => hs d (List.mem_cons_of_mem _ hd))

/-- Two slash-free names that are each followed by a slash agree as soon as
one followed by its slash starts the other followed by its slash. -/
theorem isPrefixOf_segment (X : List Char) :
    ∀ (d s : List Char), (∀ c ∈ d, c ≠ '/') → (∀ c ∈ s, c ≠ '/') →
      ((d ++ ['/']).isPrefixOf (s ++ '/' :: X) = true ↔ d = s) := by
  intro d
  induction d with
  | nil =>
    intro s _ hs
    cases s with
    | nil => simp [List.isPrefixOf]
    | cons c s =>
      have hc : c ≠ '/' := hs c (List.mem_cons_self _ _)
      have hc' : ('/' == c) = false := by
        simp only [beq_eq_false_iff_ne, ne_eq]
        exact fun h => hc h.symm
      simp [List.isPrefixOf, hc']
  | cons a d ih =>
    intro s hd hs
    have ha : a ≠ '/' := hd a (List.mem_cons_self _ _)
    cases s with
    | nil =>
      have ha' : (a == '/') = false := by simpa using ha
      simp [List.isPrefixOf, ha']
    | cons c s =>
      simp only [List.cons_append, List.isPrefixOf, Bool.and_eq_true, beq_iff_eq,
        List.cons.injEq]
      exact and_congr_right (fun _ => ih s (fun x hx => hd x (List.mem_cons_of_mem _ hx))
        (fun x hx => hs x (List.mem_cons_of_mem _ hx)))

/-- A slash, a slash-free name and a slash occur in a path of slash-free
segments exactly when the name is one of the segments. -/
theorem containsAt_segmentsPath (d : List Char) (hd : ∀ c ∈ d, c ≠ '/') :
    ∀ segs : List (List Char), (∀ s ∈ segs, ∀ c ∈ s, c ≠ '/') →
      (containsAt ('/' :: (d ++ ['/'])) (segmentsPath segs) = true ↔ d ∈ segs) := by
  intro segs
  induction segs with
  | nil =>
    intro _
    cases d with
    | nil => simp [segmentsPath_nil, containsAt, List.isPrefixOf]
    | cons a d => simp [segmentsPath_nil, containsAt, List.isPrefixOf]
  | cons s rest ih =>
    intro hall
    have hs : ∀ c ∈ s, c ≠ '/' := hall s (List.mem_cons_self _ _)
    have hrest : ∀ t ∈ rest, ∀ c ∈ t, c ≠ '/' := fun t ht => hall t (List.mem_cons_of_mem _ ht)
    obtain ⟨X, hX⟩ := segmentsPath_head rest
    rw [segmentsPath_cons]
    simp only [containsAt, List.isPrefixOf, beq_self_eq_true, Bool.true_and, Bool.or_eq_true]
    rw [containsAt_skip (d ++ ['/']) s (segmentsPath rest) hs, ih hrest, List.mem_cons]
    rw [hX, isPrefixOf_segment X d s hd hs]

theorem not_forbidden_ne_slash {c : Char} (h : c ∉ mountPointForbidden) : c ≠ '/' :=
  fun e => h (e ▸ slash_forbidden)

theorem validateMountPoint_none_iff (p : String) :
    validateMountPoint p = none ↔
      HasPrefix p "/" = true ∧ HasSuffix p "/" = true ∧ mountPointPattern.MatchString p = true ∧
        Contains p "/./" = false ∧ Contains p "/../" = false := by
  unfold validateMountPoint
  cases h1 : HasPrefix p "/" <;> cases h2 : HasSuffix p "/" <;>
    cases h3 : mountPointPattern.MatchString p <;> cases h4 : Contains p "/./" <;>
    cases h5 : Contains p "/../" <;> simp

/-- The shape of a path of segments: it starts and ends with a slash. -/
theorem segmentsPath_slashes (segs : List (List Char)) (p : String)
    (hp : p.data = segmentsPath segs) : HasPrefix p "/" = true ∧ HasSuffix p "/" = true := by
  constructor
  · obtain ⟨X, hX⟩ := segmentsPath_head segs
    rw [HasPrefix_iff, hp, hX]
    exact ⟨X, rfl⟩
  · unfold HasSuffix
    rw [List.isSuffixOf_iff_suffix, hp]
    exact ⟨_, rfl⟩

/-- For a path of slash-free segments, `Contains` of a slash, a slash-free
name and a slash tells whether the name is one of the segments. -/
theorem Contains_segment (segs : List (List Char)) (p sub : String) (d : List Char)
    (hp : p.data = segmentsPath segs) (hsub : sub.data = '/' :: (d ++ ['/']))
    (hd : ∀ c ∈ d, c ≠ '/') (hall : ∀ s ∈ segs, ∀ c ∈ s, c ≠ '/') :
    Contains p sub = true ↔ d ∈ segs := by
  unfold Contains
  rw [hp, hsub]
  exact containsAt_segmentsPath d hd segs hall

/-- C14: `validateMountPoint(p)` returns nil exactly when `p` is one or more
segments followed by a final slash, each segment a slash followed by one or
more characters none of which is slash, NUL, backslash, colon, star, double
quote, less, greater or bar, and no segment named `.` or `..`.  Every accepted
mount point is absolute, ends with a slash, contains no `//`, and is not the
bare root `/`. -/
theorem C14_validateMountPoint_characterised (p : String) :
    (validateMountPoint p = none ↔ IsMountPoint p) ∧
      (validateMountPoint p = none →
        HasPrefix p "/" = true ∧ HasSuffix p "/" = true ∧ Contains p "//" = false ∧ p ≠ "/") := by
  have hdot : ∀ c ∈ ['.'], c ≠ '/' := by decide
  have hdotdot : ∀ c ∈ ['.', '.'], c ≠ '/' := by decide
  have hnil : ∀ c ∈ ([] : List Char), c ≠ '/' := by simp
  have main : validateMountPoint p = none ↔ IsMountPoint p := by
    rw [validateMountPoint_none_iff, Regex.MatchString_iff, mountPointPattern_iff]
    constructor
    · rintro ⟨_, _, ⟨segs, hne, hp, hall⟩, h4, h5⟩
      have hfree : ∀ s ∈ segs, ∀ c ∈ s, c ≠ '/' :=
        fun s hs c hc => not_forbidden_ne_slash ((hall s hs).2 c hc)
      refine ⟨segs, hne, hp, ?_⟩
      intro s hs
      refine ⟨(hall s hs).1, (hall s hs).2, ?_, ?_⟩
      · rintro rfl
        have := (Contains_segment segs p "/./" ['.'] hp rfl hdot hfree).2 hs
        rw [h4] at this
        exact absurd this (by simp)
      · rintro rfl
        have := (Contains_segment segs p "/../" ['.', '.'] hp rfl hdotdot hfree).2 hs
        rw [h5] at this
        exact absurd this (by simp)
    · rintro ⟨segs, hne, hp, hall⟩
      have hfree : ∀ s ∈ segs, ∀ c ∈ s, c ≠ '/' :=
        fun s hs c hc => not_forbidden_ne_slash ((hall s hs).2.1 c hc)
      obtain ⟨ha, hb⟩ := segmentsPath_slashes segs p hp
      refine ⟨ha, hb, ⟨segs, hne, hp, fun s hs => ⟨(hall s hs).1, (hall s hs).2.1⟩⟩, ?_, ?_⟩
      · rw [← Bool.not_eq_true, Contains_segment segs p "/./" ['.'] hp rfl hdot hfree]
        exact fun hm => (hall _ hm).2.2.1 rfl
      · rw [← Bool.not_eq_true, Contains_segment segs p "/../" ['.', '.'] hp rfl hdotdot hfree]
        exact fun hm => (hall _ hm).2.2.2 rfl
  refine ⟨main, ?_⟩
  intro hv
  obtain ⟨segs, hne, hp, hall⟩ := main.1 hv
  have hfree : ∀ s ∈ segs, ∀ c ∈ s, c ≠ '/' :=
    fun s hs c hc => not_forbidden_ne_slash ((hall s hs).2.1 c hc)
  obtain ⟨ha, hb⟩ := segmentsPath_slashes segs p hp
  refine ⟨ha, hb, ?_, ?_⟩
  · rw [← Bool.not_eq_true, Contains_segment segs p "//" [] hp rfl hnil hfree]
    exact fun hm => (hall _ hm).1 rfl
  · rintro rfl
    exact absurd hv (by decide)

/-! ## Lemmas and claims on SetEnvironmentVariable and name validation -/


theorem nameChar_ne_eq {c : Char} (h : nameChar c = true) : c ≠ '=' := by
  rintro rfl
  exact absurd h (by decide)

/-- A name that matches the pattern is not empty and holds no `=`. -/
theorem envVarPattern_no_eq (name : String) (h : envVarPattern.MatchString name = true) :
    name.data ≠ [] ∧ ∀ c ∈ name.data, c ≠ '=' := by
  rw [Regex.MatchString_iff] at h
  obtain ⟨hne, hall⟩ := (Regex.plus_chars_iff nameChar name.data).1 h
  exact ⟨hne, fun c hc => nameChar_ne_eq (hall c hc)⟩

theorem takeWhile_ne_eq (n v : List Char) (h : ∀ c ∈ n, c ≠ '=') :
    (n ++ '=' :: v).takeWhile (fun c => c != '=') = n := by
  induction n with
  | nil => simp [List.takeWhile]
  | cons a n ih =>
    have ha : a ≠ '=' := h a (List.mem_cons_self _ _)
    have ha' : (a != '=') = true := by simpa using ha
    simp only [List.cons_append, List.takeWhile, ha', List.cons.injEq, true_and]
    exact ih (fun c hc => h c (List.mem_cons_of_mem _ hc))

theorem dropWhile_ne_eq (n v : List Char) (h : ∀ c ∈ n, c ≠ '=') :
    (n ++ '=' :: v).dropWhile (fun c => c != '=') = '=' :: v := by
  induction n with
  | nil => simp [List.dropWhile]
  | cons a n ih =>
    have ha : a ≠ '=' := h a (List.mem_cons_self _ _)
    have ha' : (a != '=') = true := by simpa using ha
    simp only [List.cons_append, List.dropWhile, ha']
    exact ih (fun c hc => h c (List.mem_cons_of_mem _ hc))

theorem entry_data (name value : String) :
    (name ++ "=" ++ value).data = name.data ++ '=' :: value.data := by
  simp only [String.data_append]
  simp

theorem envKey_entry (name value : String) (h : ∀ c ∈ name.data, c ≠ '=') :
    envKey (name ++ "=" ++ value) = name := by
  apply String_ext_data
  show ((name ++ "=" ++ value).data.takeWhile (fun c => c != '=')) = name.data
  rw [entry_data, takeWhile_ne_eq _ _ h]

theorem envValue_entry (name value : String) (h : ∀ c ∈ name.data, c ≠ '=') :
    envValue (name ++ "=" ++ value) = value := by
  apply String_ext_data
  show (((name ++ "=" ++ value).data.dropWhile (fun c => c != '=')).drop 1) = value.data
  rw [entry_data, dropWhile_ne_eq _ _ h]
  rfl

theorem SetEnvironmentVariable_malformed (sb : sandboxBuilder) (name value : String)
    (h : envVarPattern.MatchString name = false) :
    ∃ msg, sb.SetEnvironmentVariable name value = .ok (sb, some (.MalformedPayloadError msg)) := by
  simp only [sandboxBuilder.SetEnvironmentVariable, h, Bool.not_false, if_true]
  exact ⟨_, rfl⟩

theorem SetEnvironmentVariable_accept (sb : sandboxBuilder) (name value : String)
    (hm : sb.m.locked = false) (hv : envVarPattern.MatchString name = true)
    (hx : Env.Exists sb.env name = false) :
    sb.SetEnvironmentVariable name value =
      .ok ({ sb with env := sb.env ++ [name ++ "=" ++ value] }, none) := by
  obtain ⟨⟨l⟩, pl, px, env, d, ms, done, ih, ie⟩ := sb
  simp only at hm hx
  subst hm
  simp [sandboxBuilder.SetEnvironmentVariable, hv, hx, Env.Set, Mutex.Lock, Mutex.Unlock, bind,
    Except.bind, pure, Except.pure]

theorem SetEnvironmentVariable_conflict (sb : sandboxBuilder) (name value : String)
    (hm : sb.m.locked = false) (hv : envVarPattern.MatchString name = true)
    (hx : Env.Exists sb.env name = true) :
    sb.SetEnvironmentVariable name value = .ok (sb, some .ErrNamingConflict) := by
  obtain ⟨⟨l⟩, pl, px, env, d, ms, done, ih, ie⟩ := sb
  simp only at hm hx
  subst hm
  simp [sandboxBuilder.SetEnvironmentVariable, hv, hx, Mutex.Lock, Mutex.Unlock, bind,
    Except.bind, pure, Except.pure]

theorem AttachProxy_malformed (sb : sandboxBuilder) (hostname : String) (handler : Handler)
    (h : proxyNamePattern.MatchString hostname = false) :
    ∃ msg, sb.AttachProxy hostname handler = .ok (sb, some (.MalformedPayloadError msg)) := by
  simp only [sandboxBuilder.AttachProxy, h, Bool.not_false, if_true]
  exact ⟨_, rfl⟩

/-- C15: for a name that matches `^[a-zA-Z0-9_-]+$` and any values `v1`, `v2`,
on a builder (mutex free) whose environment does not hold the name:
`SetEnvironmentVariable(name, v1)` returns nil, a following
`SetEnvironmentVariable(name, v2)` returns `ErrNamingConflict` and changes
nothing, and the environment then holds exactly one entry for the name, the
appended `name=v1`, whose value reads back as `v1` whatever `v1` holds. -/
theorem C15_env_set_once (sb : sandboxBuilder) (name v1 v2 : String)
    (hm : sb.m.locked = false) (hv : envVarPattern.MatchString name = true)
    (hx : Env.Exists sb.env name = false) :
    ∃ sb1, sb.SetEnvironmentVariable name v1 = .ok (sb1, none) ∧
      sb1.SetEnvironmentVariable name v2 = .ok (sb1, some .ErrNamingConflict) ∧
      sb1.env = sb.env ++ [name ++ "=" ++ v1] ∧
      sb1.env.filter (fun kv => envKey kv == name) = [name ++ "=" ++ v1] ∧
      envValue (name ++ "=" ++ v1) = v1 ∧ Env.Get sb1.env name = v1 := by
  obtain ⟨_, hne⟩ := envVarPattern_no_eq name hv
  have hk : envKey (name ++ "=" ++ v1) = name := envKey_entry name v1 hne
  have hval : envValue (name ++ "=" ++ v1) = v1 := envValue_entry name v1 hne
  have h1 := SetEnvironmentVariable_accept sb name v1 hm hv hx
  have hx1 : Env.Exists (sb.env ++ [name ++ "=" ++ v1]) name = true := by
    simp [Env.Exists, hk]
  have h2 := SetEnvironmentVariable_conflict { sb with env := sb.env ++ [name ++ "=" ++ v1] }
    name v2 hm hv hx1
  refine ⟨_, h1, h2, rfl, ?_, hval, ?_⟩
  · have hnone : sb.env.filter (fun kv => envKey kv == name) = [] := by
      rw [List.filter_eq_nil_iff]
      intro kv hkv hkey
      have : Env.Exists sb.env name = true := by
        unfold Env.Exists
        rw [List.any_eq_true]
        exact ⟨kv, hkv, hkey⟩
      rw [hx] at this
      exact absurd this (by simp)
    simp [List.filter_append, hnone, List.filter, hk]
  · simp [Env.Get, List.reverse_append, List.find?, hk, hval]

theorem C15_env_set_once_witness :
    ∃ sb1, (newSandboxBuilder ⟨"image", []⟩).SetEnvironmentVariable "X" "a=b" = .ok (sb1, none) ∧
      sb1.SetEnvironmentVariable "X" "2" = .ok (sb1, some .ErrNamingConflict) ∧
      sb1.env = (newSandboxBuilder ⟨"image", []⟩).env ++ ["X" ++ "=" ++ "a=b"] ∧
      sb1.env.filter (fun kv => envKey kv == "X") = ["X" ++ "=" ++ "a=b"] ∧
      envValue ("X" ++ "=" ++ "a=b") = "a=b" ∧ Env.Get sb1.env "X" = "a=b" :=
  C15_env_set_once (newSandboxBuilder ⟨"image", []⟩) "X" "a=b" "2" (by decide) (by decide)
    (by decide)

/-- C16: for a name that does not match `^[a-zA-Z0-9_-]+$`,
`SetEnvironmentVariable` and `AttachProxy` return a malformed-payload error,
which is not `ErrNamingConflict`, and leave the builder, its environment and
proxies included, as it was, whatever the builder already holds: validation is
decided before the lock is taken and before any conflict check. -/
theorem C16_malformed_name (sb : sandboxBuilder) (name value : String) (handler : Handler)
    (h : envVarPattern.MatchString name = false) :
    (∃ msg, sb.SetEnvironmentVariable name value = .ok (sb, some (.MalformedPayloadError msg)) ∧
        Error.MalformedPayloadError msg ≠ Error.ErrNamingConflict) ∧
      (∃ msg, sb.AttachProxy name handler = .ok (sb, some (.MalformedPayloadError msg)) ∧
        Error.MalformedPayloadError msg ≠ Error.ErrNamingConflict) ∧
      (∀ n ∈ ["", "A=B", "a.b", "a b", "A" ++ String.singleton (Char.ofNat 10)],
        envVarPattern.MatchString n = false ∧ proxyNamePattern.MatchString n = false) := by
  obtain ⟨m1, h1⟩ := SetEnvironmentVariable_malformed sb name value h
  obtain ⟨m2, h2⟩ := AttachProxy_malformed sb name handler h
  exact ⟨⟨m1, h1, by simp⟩, ⟨m2, h2, by simp⟩, by decide⟩

theorem C16_malformed_name_witness :
    (∃ msg, ({ newSandboxBuilder ⟨"image", []⟩ with env := ["A=1"], proxies := [("A", 1)] }
          : sandboxBuilder).SetEnvironmentVariable "A=B" "2"
          = .ok ({ newSandboxBuilder ⟨"image", []⟩ with env := ["A=1"], proxies := [("A", 1)] },
              some (.MalformedPayloadError msg)) ∧
        Error.MalformedPayloadError msg ≠ Error.ErrNamingConflict) ∧
      (∃ msg, ({ newSandboxBuilder ⟨"image", []⟩ with env := ["A=1"], proxies := [("A", 1)] }
          : sandboxBuilder).AttachProxy "A=B" 7
          = .ok ({ newSandboxBuilder ⟨"image", []⟩ with env := ["A=1"], proxies := [("A", 1)] },
              some (.MalformedPayloadError msg)) ∧
        Error.MalformedPayloadError msg ≠ Error.ErrNamingConflict) ∧
      (∀ n ∈ ["", "A=B", "a.b", "a b", "A" ++ String.singleton (Char.ofNat 10)],
        envVarPattern.MatchString n = false ∧ proxyNamePattern.MatchString n = false) :=
  C16_malformed_name _ "A=B" "2" 7 (by decide)

/-! ## Lemmas and claims on AttachProxy -/


theorem lookup_isSome_eq_any (m : List (String × Handler)) (k : String) :
    (m.lookup k).isSome = m.any (fun e => e.1 == k) := by
  induction m with
  | nil => rfl
  | cons e m ih =>
    obtain ⟨a, b⟩ := e
    by_cases h : k = a
    · subst h; simp [List.lookup]
    · have h1 : (k == a) = false := by simpa using h
      have h2 : (a == k) = false := by simpa using (fun e => h e.symm)
      simp [List.lookup, h1, h2, ih]

theorem AttachProxy_accept (sb : sandboxBuilder) (hostname : String) (handler : Handler)
    (hm : sb.m.locked = false) (hv : proxyNamePattern.MatchString hostname = true)
    (hx : sb.proxies.lookup hostname = none) :
    sb.AttachProxy hostname handler =
      .ok ({ sb with proxies := sb.proxies ++ [(hostname, handler)] }, none) := by
  have hany : sb.proxies.any (fun e => e.1 == hostname) = false := by
    rw [← lookup_isSome_eq_any, hx]; rfl
  obtain ⟨⟨l⟩, pl, px, env, d, ms, done, ih, ie⟩ := sb
  simp only at hm hx hany
  subst hm
  simp [sandboxBuilder.AttachProxy, hv, hx, mapSet, hany, Mutex.Lock, Mutex.Unlock, bind,
    Except.bind, pure, Except.pure]

theorem AttachProxy_conflict (sb : sandboxBuilder) (hostname : String) (handler : Handler)
    (hm : sb.m.locked = false) (hv : proxyNamePattern.MatchString hostname = true)
    (hx : (sb.proxies.lookup hostname).isSome = true) :
    sb.AttachProxy hostname handler = .ok (sb, some .ErrNamingConflict) := by
  obtain ⟨⟨l⟩, pl, px, env, d, ms, done, ih, ie⟩ := sb
  simp only at hm hx
  subst hm
  simp [sandboxBuilder.AttachProxy, hv, hx, Mutex.Lock, Mutex.Unlock, bind,
    Except.bind, pure, Except.pure]

/-- One call of `AttachProxy` on a builder whose mutex is free. -/
theorem AttachProxy_step (sb : sandboxBuilder) (h0 : String) (hd0 : Handler)
    (hm : sb.m.locked = false) :
    ∃ sb1 err, sb.AttachProxy h0 hd0 = .ok (sb1, err) ∧ sb1.m.locked = false ∧
      (proxyNamePattern.MatchString h0 = true →
        err = if (sb.proxies.lookup h0).isSome then some .ErrNamingConflict else none) ∧
      sb1.proxies = if proxyNamePattern.MatchString h0 && (sb.proxies.lookup h0).isNone
        then sb.proxies ++ [(h0, hd0)] else sb.proxies := by
  cases hv : proxyNamePattern.MatchString h0 with
  | false =>
    obtain ⟨msg, h⟩ := AttachProxy_malformed sb h0 hd0 hv
    exact ⟨_, _, h, hm, by simp, by simp⟩
  | true =>
    cases hx : sb.proxies.lookup h0 with
    | none =>
      exact ⟨_, _, AttachProxy_accept sb h0 hd0 hm hv hx, hm, by simp, by simp⟩
    | some v =>
      exact ⟨_, _, AttachProxy_conflict sb h0 hd0 hm hv (by rw [hx]; rfl), hm, by simp, by simp⟩

/-- What a hostname that matches the pattern looks up after one call. -/
theorem AttachProxy_step_lookup (px : List (String × Handler)) (h0 h : String) (hd0 : Handler)
    (hv : proxyNamePattern.MatchString h = true) :
    (if proxyNamePattern.MatchString h0 && (px.lookup h0).isNone
        then px ++ [(h0, hd0)] else px).lookup h =
      (px.lookup h).or (if h0 == h then some hd0 else none) := by
  by_cases e : h0 = h
  · subst e
    cases hx : px.lookup h0 with
    | none => simp [hv, List.lookup_append, List.lookup, hx]
    | some v => simp [hv, hx]
  · have e1 : (h0 == h) = false := by simpa using e
    have e2 : (h == h0) = false := by simpa using (fun x => e x.symm)
    split
    · simp [List.lookup_append, List.lookup, e1, e2]
    · simp [e1]

theorem AttachProxy_step_nodup (px : List (String × Handler)) (h0 : String) (hd0 : Handler)
    (hn : (px.map Prod.fst).Nodup) :
    ((if proxyNamePattern.MatchString h0 && (px.lookup h0).isNone
        then px ++ [(h0, hd0)] else px).map Prod.fst).Nodup := by
  split
  · rename_i hc
    simp only [Bool.and_eq_true] at hc
    have hany : px.any (fun e => e.1 == h0) = false := by
      rw [← lookup_isSome_eq_any]
      cases hx : px.lookup h0 with
      | none => rfl
      | some v => rw [hx] at hc; exact absurd hc.2 (by simp)
    rw [List.map_append, List.nodup_append]
    refine ⟨hn, by simp, ?_⟩
    intro a ha hb
    simp only [List.map_cons, List.map_nil, List.mem_singleton] at hb
    subst hb
    simp only [List.mem_map] at ha
    obtain ⟨e, he, rfl⟩ := ha
    have hyes : px.any (fun x => x.1 == e.1) = true := by
      rw [List.any_eq_true]
      exact ⟨e, he, by simp⟩
    rw [hany] at hyes
    exact absurd hyes (by simp)
  · exact hn

theorem AttachProxy_step_keys (px : List (String × Handler)) (h0 : String) (hd0 : Handler)
    (hk : ∀ k ∈ px.map Prod.fst, proxyNamePattern.MatchString k = true) :
    ∀ k ∈ (if proxyNamePattern.MatchString h0 && (px.lookup h0).isNone
        then px ++ [(h0, hd0)] else px).map Prod.fst, proxyNamePattern.MatchString k = true := by
  split
  · rename_i hc
    simp only [Bool.and_eq_true] at hc
    intro k hkm
    rw [List.map_append, List.mem_append] at hkm
    rcases hkm with hkm | hkm
    · exact hk k hkm
    · simp only [List.map_cons, List.map_nil, List.mem_singleton] at hkm
      rw [hkm]; exact hc.1
  · exact hk

/-- A sequence of `AttachProxy` calls on a builder whose mutex is free: every
call returns, and what each call returns and what the map then holds follow
from the map before and the calls before. -/
theorem attachProxies_run (calls : List (String × Handler)) :
    ∀ sb : sandboxBuilder, sb.m.locked = false →
      ∃ sb2 errs, attachProxies sb calls = .ok (sb2, errs) ∧ sb2.m.locked = false ∧
        errs.length = calls.length ∧
        (∀ pre h hd post, calls = pre ++ (h, hd) :: post →
          proxyNamePattern.MatchString h = true →
          errs[pre.length]? = some (if (sb.proxies.lookup h).isSome || pre.any (fun c => c.1 == h)
            then some .ErrNamingConflict else none)) ∧
        (∀ h, proxyNamePattern.MatchString h = true →
          sb2.proxies.lookup h =
            (sb.proxies.lookup h).or ((calls.find? (fun c => c.1 == h)).map Prod.snd)) ∧
        ((sb.proxies.map Prod.fst).Nodup → (sb2.proxies.map Prod.fst).Nodup) ∧
        ((∀ k ∈ sb.proxies.map Prod.fst, proxyNamePattern.MatchString k = true) →
          ∀ k ∈ sb2.proxies.map Prod.fst, proxyNamePattern.MatchString k = true) := by
  induction calls with
  | nil =>
    intro sb hm
    refine ⟨sb, [], rfl, hm, rfl, ?_, ?_, id, id⟩
    · intro pre h hd post hc
      exact absurd hc (by simp)
    · intro h _
      simp
  | cons c rest ih =>
    intro sb hm
    obtain ⟨h0, hd0⟩ := c
    obtain ⟨sb1, err, hstep, hm1, herr, hpx⟩ := AttachProxy_step sb h0 hd0 hm
    obtain ⟨sb2, errs, hrun, hm2, hlen, hidx, hlook, hnd, hkeys⟩ := ih sb1 hm1
    refine ⟨sb2, err :: errs, ?_, hm2, by simp [hlen], ?_, ?_, ?_, ?_⟩
    · simp [attachProxies, hstep, hrun, bind, Except.bind, pure, Except.pure]
    · intro pre h hd post hc hv
      cases pre with
      | nil =>
        simp only [List.nil_append, List.cons.injEq, Prod.mk.injEq] at hc
        obtain ⟨⟨rfl, rfl⟩, rfl⟩ := hc
        rw [herr hv]
        simp only [List.length_nil, List.getElem?_cons_zero, List.any_nil, Bool.or_false]
      | cons p pre =>
        simp only [List.cons_append, List.cons.injEq] at hc
        obtain ⟨rfl, hc⟩ := hc
        have := hidx pre h hd post hc hv
        simp only [List.length_cons, List.getElem?_cons_succ, this]
        rw [hpx, AttachProxy_step_lookup sb.proxies h0 h hd0 hv]
        congr 1
        by_cases e : h0 = h
        · subst e
          cases hx : sb.proxies.lookup h0 <;> simp
        · have e1 : (h0 == h) = false := by simpa using e
          rw [List.any_cons]
          simp only [e1, Bool.false_or, Bool.false_eq_true, if_false, Option.or_none]
    · intro h hv
      rw [hlook h hv, hpx, AttachProxy_step_lookup sb.proxies h0 h hd0 hv]
      by_cases e : h0 = h
      · subst e
        cases hx : sb.proxies.lookup h0 <;> simp [List.find?]
      · have e1 : (h0 == h) = false := by simpa using e
        cases hx : sb.proxies.lookup h <;> simp [List.find?, e1, e]
    · intro hn
      exact hnd (by rw [hpx]; exact AttachProxy_step_nodup sb.proxies h0 hd0 hn)
    · intro hk
      exact hkeys (by rw [hpx]; exact AttachProxy_step_keys sb.proxies h0 hd0 hk)

/-- C17: every sequence of `AttachProxy` calls on a fresh builder returns, one
error per call, and each hostname is recorded at most once: a call with a
hostname that matches `^[a-zA-Z0-9_-]+$` returns nil when no earlier call of
the sequence had this hostname and `ErrNamingConflict` when one had; the
handler the map then holds for such a hostname is the one of the first call
with it; no two entries of `sb.proxies` have the same key, and every key
matches the pattern. -/
theorem C17_proxy_hostnames_unique (payload : payloadType) (calls : List (String × Handler)) :
    ∃ sb errs, attachProxies (newSandboxBuilder payload) calls = .ok (sb, errs) ∧
      errs.length = calls.length ∧
      (∀ pre h hd post, calls = pre ++ (h, hd) :: post →
        proxyNamePattern.MatchString h = true →
        errs[pre.length]? =
          some (if pre.any (fun c => c.1 == h) then some .ErrNamingConflict else none)) ∧
      (∀ h, proxyNamePattern.MatchString h = true →
        sb.proxies.lookup h = (calls.find? (fun c => c.1 == h)).map Prod.snd) ∧
      (sb.proxies.map Prod.fst).Nodup ∧
      (∀ k ∈ sb.proxies.map Prod.fst, proxyNamePattern.MatchString k = true) := by
  obtain ⟨sb, errs, hrun, _, hlen, hidx, hlook, hnd, hkeys⟩ :=
    attachProxies_run calls (newSandboxBuilder payload) rfl
  refine ⟨sb, errs, hrun, hlen, ?_, ?_, hnd List.nodup_nil, hkeys (by simp [newSandboxBuilder])⟩
  · intro pre h hd post hc hv
    have := hidx pre h hd post hc hv
    simpa [newSandboxBuilder] using this
  · intro h hv
    have := hlook h hv
    simpa [newSandboxBuilder] using this

theorem C17_proxy_hostnames_unique_witness :
    ∃ sb errs, attachProxies (newSandboxBuilder ⟨"image", []⟩)
        [("a", 1), ("b", 2), ("a", 3), ("a.b", 4), ("a", 5)] = .ok (sb, errs) ∧
      errs.length = [("a", 1), ("b", 2), ("a", 3), ("a.b", 4), ("a", 5)].length ∧
      (∀ pre h hd post, [("a", 1), ("b", 2), ("a", 3), ("a.b", 4), ("a", 5)] = pre ++ (h, hd) :: post →
        proxyNamePattern.MatchString h = true →
        errs[pre.length]? =
          some (if pre.any (fun c => c.1 == h) then some .ErrNamingConflict else none)) ∧
      (∀ h, proxyNamePattern.MatchString h = true →
        sb.proxies.lookup h =
          (([("a", 1), ("b", 2), ("a", 3), ("a.b", 4), ("a", 5)] : List (String × Handler)).find?
            (fun c => c.1 == h)).map Prod.snd) ∧
      (sb.proxies.map Prod.fst).Nodup ∧
      (∀ k ∈ sb.proxies.map Prod.fst, proxyNamePattern.MatchString k = true) :=
  C17_proxy_hostnames_unique ⟨"image", []⟩ [("a", 1), ("b", 2), ("a", 3), ("a.b", 4), ("a", 5)]

end dockerengine

/-! ## Lemmas and claims on prepare -/

namespace taskrun

/-- On a payload that passes validation `prepare` returns, with both objects
stored and the error chosen from the two creation errors. -/
theorem prepare_valid (c : Collaborators) (t : TaskRun) (hm : c.mergeErr = none)
    (hv : c.validate = .valid) :
    prepare c t =
      .ok ({ t with sandboxBuilder := c.newSandboxBuilder.1
                    taskPlugin := c.newTaskPlugin.1
                    calls := t.calls ++ [Call.NewSandboxBuilder] ++ [Call.NewTaskPlugin] },
        if IsMalformedPayloadError c.newSandboxBuilder.2 || c.newTaskPlugin.2.isNone
          then c.newSandboxBuilder.2 else c.newTaskPlugin.2) := by
  unfold prepare
  simp only [hm, hv, validationError, Option.isSome_none, Bool.false_eq_true, if_false]
  split <;> rfl

/-- On a payload that fails validation `prepare` returns the converted
validation error and creates the task plugin only. -/
theorem prepare_invalid (c : Collaborators) (t : TaskRun) (verr : dockerengine.Error)
    (hm : c.mergeErr = none) (hv : validationError c.validate = some verr) :
    prepare c t =
      .ok ({ t with taskPlugin := c.newTaskPlugin.1, calls := t.calls ++ [Call.NewTaskPlugin] },
        some verr) := by
  unfold prepare
  simp only [hm, hv, Option.isSome_some, if_true]

theorem validationError_malformed (v : ValidateResult) (hv : v ≠ .valid) :
    ∃ verr, validationError v = some verr ∧ IsMalformedPayloadError (some verr) = true := by
  cases v with
  | valid => exact absurd rfl hv
  | validationError issues => exact ⟨_, rfl, rfl⟩
  | other text => exact ⟨_, rfl, rfl⟩

theorem IsMalformedPayloadError_none : IsMalformedPayloadError none = false := rfl

/-- The choice `prepare` makes between the two creation errors. -/
theorem prepare_choice (err1 err2 : Option dockerengine.Error) :
    ((if IsMalformedPayloadError err1 || err2.isNone then err1 else err2) = none ↔
        err1 = none ∧ err2 = none) ∧
      (IsMalformedPayloadError err1 = true ∨ IsMalformedPayloadError err2 = true →
        IsMalformedPayloadError
          (if IsMalformedPayloadError err1 || err2.isNone then err1 else err2) = true) ∧
      ((if IsMalformedPayloadError err1 || err2.isNone then err1 else err2) = err1 ∨
        (if IsMalformedPayloadError err1 || err2.isNone then err1 else err2) = err2) := by
  cases h1 : IsMalformedPayloadError err1 <;> cases err2 with
  | none =>
    simp only [Option.isSome_none, Option.isNone_none, Bool.or_true, if_true, and_true,
      IsMalformedPayloadError_none, Bool.false_eq_true, or_false, true_or, h1, imp_self]
  | some e2 =>
    cases err1 with
    | none => simp_all [IsMalformedPayloadError]
    | some e1 => simp_all
/-- C18: in `prepare`, when the two schemas merge and the payload passes
validation, for every outcome `err1` of `NewSandboxBuilder` and `err2` of
`NewTaskPlugin`: `prepare` returns; it returns nil exactly when both are nil;
what it returns is one of the two; and when at least one of the two is a
malformed-payload error, it returns a malformed-payload error. -/
theorem C18_prepare_prefers_malformed (c : Collaborators) (t : TaskRun)
    (hm : c.mergeErr = none) (hv : c.validate = .valid) :
    ∃ t1 ret, prepare c t = .ok (t1, ret) ∧
      (ret = none ↔ c.newSandboxBuilder.2 = none ∧ c.newTaskPlugin.2 = none) ∧
      (IsMalformedPayloadError c.newSandboxBuilder.2 = true ∨
          IsMalformedPayloadError c.newTaskPlugin.2 = true →
        IsMalformedPayloadError ret = true) ∧
      (ret = c.newSandboxBuilder.2 ∨ ret = c.newTaskPlugin.2) :=
  ⟨_, _, prepare_valid c t hm hv, prepare_choice c.newSandboxBuilder.2 c.newTaskPlugin.2⟩

theorem C18_prepare_prefers_malformed_witness :
    ∃ t1 ret,
      prepare
        { mergeErr := none, validate := .valid, newSandboxBuilder := (none, some (.other 1)),
          newTaskPlugin := (none, some (.MalformedPayloadError "bad")),
          buildSandbox := fun _ _ => none, startSandbox := fun _ => (some 3, none),
          started := fun _ _ => none, waitForResult := fun _ => (some 4, none),
          stopped := fun _ _ => (true, none), closeLog := none, finished := fun _ _ => none }
        ⟨none, none, none, none, false, []⟩ = .ok (t1, ret) ∧
      (ret = none ↔ (some (dockerengine.Error.other 1)) = none ∧
        (some (dockerengine.Error.MalformedPayloadError "bad")) = none) ∧
      (IsMalformedPayloadError (some (dockerengine.Error.other 1)) = true ∨
          IsMalformedPayloadError (some (dockerengine.Error.MalformedPayloadError "bad")) = true →
        IsMalformedPayloadError ret = true) ∧
      (ret = some (dockerengine.Error.other 1) ∨
        ret = some (dockerengine.Error.MalformedPayloadError "bad")) :=
  C18_prepare_prefers_malformed _ ⟨none, none, none, none, false, []⟩ rfl rfl

/-- C19: in `prepare`, when the two schemas merge and validation fails, with a
ValidationError or with any other error: `prepare` returns the malformed-payload
error made from the validation failure, whatever `NewTaskPlugin` returns;
`NewSandboxBuilder` is not called and `t.sandboxBuilder` is as it was;
`NewTaskPlugin` is the one call made, and what it returned is stored in
`t.taskPlugin`; the other fields are as they were. -/
theorem C19_validation_failure_skips_builder (c : Collaborators) (t : TaskRun)
    (hm : c.mergeErr = none) (hv : c.validate ≠ .valid) :
    ∃ t1 verr, prepare c t = .ok (t1, some verr) ∧
      validationError c.validate = some verr ∧ IsMalformedPayloadError (some verr) = true ∧
      t1.sandboxBuilder = t.sandboxBuilder ∧
      t1.calls = t.calls ++ [Call.NewTaskPlugin] ∧
      t1.calls.count Call.NewSandboxBuilder = t.calls.count Call.NewSandboxBuilder ∧
      t1.calls.count Call.NewTaskPlugin = t.calls.count Call.NewTaskPlugin + 1 ∧
      t1.taskPlugin = c.newTaskPlugin.1 ∧
      t1.sandbox = t.sandbox ∧ t1.resultSet = t.resultSet ∧ t1.success = t.success := by
  obtain ⟨verr, h1, h2⟩ := validationError_malformed c.validate hv
  refine ⟨_, verr, prepare_invalid c t verr hm h1, h1, h2, rfl, rfl, ?_, ?_, rfl, rfl, rfl, rfl⟩
  · simp [List.count_append]
  · simp [List.count_append]

theorem C19_validation_failure_skips_builder_witness :
    ∃ t1 verr,
      prepare
        { mergeErr := none, validate := .validationError ["task.payload.image: missing"],
          newSandboxBuilder := (some 1, none), newTaskPlugin := (none, some (.other 1)),
          buildSandbox := fun _ _ => none, startSandbox := fun _ => (some 3, none),
          started := fun _ _ => none, waitForResult := fun _ => (some 4, none),
          stopped := fun _ _ => (true, none), closeLog := none, finished := fun _ _ => none }
        ⟨some 9, none, none, none, false, []⟩ = .ok (t1, some verr) ∧
      validationError (.validationError ["task.payload.image: missing"]) = some verr ∧
      IsMalformedPayloadError (some verr) = true ∧
      t1.sandboxBuilder = some 9 ∧
      t1.calls = [] ++ [Call.NewTaskPlugin] ∧
      t1.calls.count Call.NewSandboxBuilder = ([] : List Call).count Call.NewSandboxBuilder ∧
      t1.calls.count Call.NewTaskPlugin = ([] : List Call).count Call.NewTaskPlugin + 1 ∧
      t1.taskPlugin = none ∧
      t1.sandbox = none ∧ t1.resultSet = none ∧ t1.success = false :=
  C19_validation_failure_skips_builder _ ⟨some 9, none, none, none, false, []⟩ rfl (by decide)

end taskrun

/-! ## Lemmas and claims on the builder and the Sandbox of a TaskRun -/

namespace taskrun

/-- An entry of the list of `runStages` is the return of the first stage
function, or an entry of the rest when that function returned nil. -/
theorem runStages_cons (c : Collaborators) (s : Stage) (rest : List Stage) (t : TaskRun)
    (e : Stage × TaskRun × Option dockerengine.Error) (he : e ∈ runStages c (s :: rest) t) :
    ∃ f t1 err, stages s = some f ∧ f c t = .ok (t1, err) ∧
      (e = (s, t1, err) ∨ (err = none ∧ e ∈ runStages c rest t1)) := by
  unfold runStages at he
  cases hs : stages s with
  | none => simp [hs] at he
  | some f =>
    cases hf : f c t with
    | error a => simp [hs, hf] at he
    | ok r =>
      obtain ⟨t1, err⟩ := r
      cases err with
      | none =>
        simp only [hs, hf, List.mem_cons] at he
        exact ⟨f, t1, none, rfl, hf, he.imp id (fun h => ⟨rfl, h⟩)⟩
      | some x =>
        simp only [hs, hf, List.mem_singleton] at he
        exact ⟨f, t1, some x, rfl, hf, Or.inl he⟩

/-- A `prepare` that returns leaves the Sandbox as it was; one that returns nil
stored what `NewSandboxBuilder` returned. -/
theorem prepare_fields (c : Collaborators) (t t1 : TaskRun) (err : Option dockerengine.Error)
    (h : prepare c t = .ok (t1, err)) :
    t1.sandbox = t.sandbox ∧ (err = none → t1.sandboxBuilder = c.newSandboxBuilder.1) := by
  unfold prepare at h
  cases hm : c.mergeErr with
  | some x => simp [hm] at h
  | none =>
    simp only [hm] at h
    cases hv : validationError c.validate with
    | some verr =>
      simp only [hv, Option.isSome_some, if_true, Except.ok.injEq, Prod.mk.injEq] at h
      obtain ⟨rfl, rfl⟩ := h
      exact ⟨rfl, fun h => absurd h (by simp)⟩
    | none =>
      simp only [hv, Option.isSome_none, Bool.false_eq_true, if_false] at h
      split at h <;>
        (simp only [Except.ok.injEq, Prod.mk.injEq] at h
         obtain ⟨rfl, _⟩ := h
         exact ⟨rfl, fun _ => rfl⟩)

theorem build_fields (c : Collaborators) (t t1 : TaskRun) (err : Option dockerengine.Error)
    (h : build c t = .ok (t1, err)) :
    t1.sandbox = t.sandbox ∧ t1.sandboxBuilder = t.sandboxBuilder := by
  unfold build at h
  cases hp : t.taskPlugin with
  | none => simp [hp] at h
  | some p =>
    simp only [hp, Except.ok.injEq, Prod.mk.injEq] at h
    obtain ⟨rfl, _⟩ := h
    exact ⟨rfl, rfl⟩

theorem start_fields (c : Collaborators) (t t1 : TaskRun) (err : Option dockerengine.Error)
    (h : start c t = .ok (t1, err)) :
    t1.sandboxBuilder = none ∧
      ∃ b, t.sandboxBuilder = some b ∧ t1.sandbox = (c.startSandbox b).1 ∧
        err = (c.startSandbox b).2 := by
  unfold start at h
  cases hb : t.sandboxBuilder with
  | none => simp [hb] at h
  | some b =>
    simp only [hb, Except.ok.injEq, Prod.mk.injEq] at h
    obtain ⟨rfl, rfl⟩ := h
    exact ⟨rfl, b, rfl, rfl, rfl⟩

theorem started_fields (c : Collaborators) (t t1 : TaskRun) (err : Option dockerengine.Error)
    (h : started c t = .ok (t1, err)) :
    t1.sandbox = t.sandbox ∧ t1.sandboxBuilder = t.sandboxBuilder := by
  unfold started at h
  cases hp : t.taskPlugin with
  | none => simp [hp] at h
  | some p =>
    simp only [hp, Except.ok.injEq, Prod.mk.injEq] at h
    obtain ⟨rfl, _⟩ := h
    exact ⟨rfl, rfl⟩

theorem waiting_fields (c : Collaborators) (t t1 : TaskRun) (err : Option dockerengine.Error)
    (h : waiting c t = .ok (t1, err)) :
    t1.sandbox = none ∧ t1.sandboxBuilder = t.sandboxBuilder := by
  unfold waiting at h
  cases hs : t.sandbox with
  | none => simp [hs] at h
  | some s =>
    simp only [hs, Except.ok.injEq, Prod.mk.injEq] at h
    obtain ⟨rfl, _⟩ := h
    exact ⟨rfl, rfl⟩

theorem stopped_fields (c : Collaborators) (t t1 : TaskRun) (err : Option dockerengine.Error)
    (h : stopped c t = .ok (t1, err)) :
    t1.sandbox = t.sandbox ∧ t1.sandboxBuilder = t.sandboxBuilder := by
  unfold stopped at h
  cases hp : t.taskPlugin with
  | none => simp [hp] at h
  | some p =>
    simp only [hp, Except.ok.injEq, Prod.mk.injEq] at h
    obtain ⟨rfl, _⟩ := h
    exact ⟨rfl, rfl⟩

theorem finished_fields (c : Collaborators) (t t1 : TaskRun) (err : Option dockerengine.Error)
    (h : finished c t = .ok (t1, err)) :
    t1.sandbox = t.sandbox ∧ t1.sandboxBuilder = t.sandboxBuilder := by
  unfold finished at h
  cases hc : c.closeLog with
  | some x => simp [hc] at h
  | none =>
    cases hp : t.taskPlugin with
    | none => simp [hc, hp] at h
    | some p =>
      simp only [hc, hp, Except.ok.injEq, Prod.mk.injEq] at h
      obtain ⟨rfl, _⟩ := h
      exact ⟨rfl, rfl⟩

/-- C20: for a TaskRun that starts with no Sandbox (and so for one that starts
with neither a builder nor a Sandbox) and is taken through the stage functions `prepare`, `build`, `start`, `started`,
`waiting`, `stopped`, `finished` in order, stopping at the first error: after
each stage function that returns, `t.sandboxBuilder` and `t.sandbox` are not
both non-nil; after `start` returns, `t.sandboxBuilder` is nil and `t.sandbox`
is the Sandbox that `StartSandbox` on the builder of `prepare` returned; after
`waiting` returns, `t.sandbox` is nil. -/
theorem C20_builder_and_sandbox_never_both (c : Collaborators) (t : TaskRun)
    (hs : t.sandbox = none) :
    ∀ e ∈ runStages c pipeline t,
      (e.2.1.sandboxBuilder = none ∨ e.2.1.sandbox = none) ∧
      (e.1 = Stage.StageStart → e.2.1.sandboxBuilder = none ∧
        ∃ b, c.newSandboxBuilder.1 = some b ∧ e.2.1.sandbox = (c.startSandbox b).1 ∧
          e.2.2 = (c.startSandbox b).2) ∧
      (e.1 = Stage.StageWaiting → e.2.1.sandbox = none) := by
  intro e he
  unfold pipeline at he
  obtain ⟨f, t1, err, hf, h1, he⟩ := runStages_cons c _ _ t e he
  simp only [stages, Option.some.injEq] at hf
  subst hf
  obtain ⟨p1, p2⟩ := prepare_fields c t t1 err h1
  rcases he with rfl | ⟨rfl, he⟩
  · exact ⟨Or.inr (p1.trans hs), by simp, by simp⟩
  obtain ⟨f, t2, err, hf, h2, he⟩ := runStages_cons c _ _ t1 e he
  simp only [stages, Option.some.injEq] at hf
  subst hf
  obtain ⟨b1, b2⟩ := build_fields c t1 t2 err h2
  rcases he with rfl | ⟨rfl, he⟩
  · exact ⟨Or.inr (b1.trans (p1.trans hs)), by simp, by simp⟩
  obtain ⟨f, t3, err, hf, h3, he⟩ := runStages_cons c _ _ t2 e he
  simp only [stages, Option.some.injEq] at hf
  subst hf
  obtain ⟨s1, b, s2, s3, s4⟩ := start_fields c t2 t3 err h3
  have hnew : c.newSandboxBuilder.1 = some b := by rw [← p2 rfl, ← b2, s2]
  rcases he with rfl | ⟨rfl, he⟩
  · exact ⟨Or.inl s1, fun _ => ⟨s1, b, hnew, s3, s4⟩, by simp⟩
  obtain ⟨f, t4, err, hf, h4, he⟩ := runStages_cons c _ _ t3 e he
  simp only [stages, Option.some.injEq] at hf
  subst hf
  obtain ⟨_, d2⟩ := started_fields c t3 t4 err h4
  rcases he with rfl | ⟨rfl, he⟩
  · exact ⟨Or.inl (d2.trans s1), by simp, by simp⟩
  obtain ⟨f, t5, err, hf, h5, he⟩ := runStages_cons c _ _ t4 e he
  simp only [stages, Option.some.injEq] at hf
  subst hf
  obtain ⟨w1, _⟩ := waiting_fields c t4 t5 err h5
  rcases he with rfl | ⟨rfl, he⟩
  · exact ⟨Or.inr w1, by simp, fun _ => w1⟩
  obtain ⟨f, t6, err, hf, h6, he⟩ := runStages_cons c _ _ t5 e he
  simp only [stages, Option.some.injEq] at hf
  subst hf
  obtain ⟨x1, _⟩ := stopped_fields c t5 t6 err h6
  rcases he with rfl | ⟨rfl, he⟩
  · exact ⟨Or.inr (x1.trans w1), by simp, by simp⟩
  obtain ⟨f, t7, err, hf, h7, he⟩ := runStages_cons c _ _ t6 e he
  simp only [stages, Option.some.injEq] at hf
  subst hf
  obtain ⟨y1, _⟩ := finished_fields c t6 t7 err h7
  rcases he with rfl | ⟨rfl, he⟩
  · exact ⟨Or.inr (y1.trans (x1.trans w1)), by simp, by simp⟩
  simp [runStages] at he

theorem C20_builder_and_sandbox_never_both_witness :
    (runStages
        { mergeErr := none, validate := .valid, newSandboxBuilder := (some 1, none),
          newTaskPlugin := (some 2, none), buildSandbox := fun _ _ => none,
          startSandbox := fun _ => (some 3, none), started := fun _ _ => none,
          waitForResult := fun _ => (some 4, none), stopped := fun _ _ => (true, none),
          closeLog := none, finished := fun _ _ => none }
        pipeline ⟨none, none, none, none, false, []⟩).map (fun e => e.1) = pipeline ∧
      ∀ e ∈ runStages
        { mergeErr := none, validate := .valid, newSandboxBuilder := (some 1, none),
          newTaskPlugin := (some 2, none), buildSandbox := fun _ _ => none,
          startSandbox := fun _ => (some 3, none), started := fun _ _ => none,
          waitForResult := fun _ => (some 4, none), stopped := fun _ _ => (true, none),
          closeLog := none, finished := fun _ _ => none }
        pipeline ⟨none, none, none, none, false, []⟩,
      (e.2.1.sandboxBuilder = none ∨ e.2.1.sandbox = none) ∧
      (e.1 = Stage.StageStart → e.2.1.sandboxBuilder = none ∧
        ∃ b, (some 1 : Option SandboxBuilder) = some b ∧
          e.2.1.sandbox = ((some 3, none) : Option Sandbox × Option dockerengine.Error).1 ∧
          e.2.2 = ((some 3, none) : Option Sandbox × Option dockerengine.Error).2) ∧
      (e.1 = Stage.StageWaiting → e.2.1.sandbox = none) :=
  ⟨by decide, C20_builder_and_sandbox_never_both _ ⟨none, none, none, none, false, []⟩ rfl⟩

end taskrun

/-! ## Lemmas and claims on MergeCompositeSchemas -/

namespace runtime

mutual
/-- `visit` folds the visitor over the entries of the schema, in order. -/
theorem CompositeSchema.visit_eq_foldl {σ : Type} (f : schemaEntry → σ → σ) :
    ∀ (s : CompositeSchema) (st : σ), s.visit f st = s.leaves.foldl (fun st e => f e st) st
  | .entry s, st => by simp [CompositeSchema.visit, CompositeSchema.leaves]
  | .composed entries, st => by
    simp [CompositeSchema.visit, CompositeSchema.leaves, visitEntries_eq_foldl f entries st]
theorem visitEntries_eq_foldl {σ : Type} (f : schemaEntry → σ → σ) :
    ∀ (l : List CompositeSchema) (st : σ),
      visitEntries l f st = (leavesOf l).foldl (fun st e => f e st) st
  | [], st => rfl
  | s :: rest, st => by
    simp [visitEntries, leavesOf, List.foldl_append, CompositeSchema.visit_eq_foldl f s st,
      visitEntries_eq_foldl f rest]
end

/-- A loop that only ever sets a flag: the flag is set at the end when it was
set before or some element sets it. -/
theorem foldl_flag {α : Type} (c : α → Bool) (l : List α) (b : Bool) :
    l.foldl (fun hc e => if c e then true else hc) b = (b || l.any c) := by
  induction l generalizing b with
  | nil => simp
  | cons a l ih =>
    simp only [List.foldl_cons, List.any_cons, ih]
    cases c a <;> cases b <;> simp

theorem foldl_or {α : Type} (c : α → Bool) (l : List α) (b : Bool) :
    l.foldl (fun hc e => hc || c e) b = (b || l.any c) := by
  induction l generalizing b with
  | nil => simp
  | cons a l ih =>
    simp only [List.foldl_cons, List.any_cons, ih, Bool.or_assoc]

theorem conflictsIn_eq (entry : schemaEntry) (l : List CompositeSchema) (b : Bool) :
    conflictsIn entry l b =
      (b || (leavesOf l).any
        (fun e => entry.property == e.property && entry.schema != e.schema)) := by
  induction l generalizing b with
  | nil => simp [conflictsIn, leavesOf]
  | cons s rest ih =>
    simp only [conflictsIn, ih, CompositeSchema.visit_eq_foldl, foldl_flag, leavesOf,
      List.any_append, Bool.or_assoc]

theorem mergeLoop_cons (s : CompositeSchema) (rest : List CompositeSchema) (b : Bool) :
    mergeLoop (s :: rest) b =
      mergeLoop rest (b || s.leaves.any (fun a => (leavesOf (s :: rest)).any
        (fun e => a.property == e.property && a.schema != e.schema))) := by
  simp only [mergeLoop, CompositeSchema.visit_eq_foldl]
  congr 1
  have h : (fun (st : Bool) (e : schemaEntry) => conflictsIn e (s :: rest) st) =
      (fun st e => st || (leavesOf (s :: rest)).any
        (fun x => e.property == x.property && e.schema != x.schema)) := by
    funext st e
    exact conflictsIn_eq e (s :: rest) st
  rw [h, foldl_or]

/-- The flag of `MergeCompositeSchemas` is set at the end exactly when it was
set before or two reachable entries have one property and different schemas. -/
theorem mergeLoop_iff (l : List CompositeSchema) (b : Bool) :
    mergeLoop l b = true ↔
      b = true ∨ ∃ a ∈ leavesOf l, ∃ e ∈ leavesOf l, a.property = e.property ∧ a.schema ≠ e.schema := by
  induction l generalizing b with
  | nil => simp [mergeLoop, leavesOf]
  | cons s rest ih =>
    rw [mergeLoop_cons, ih]
    simp only [Bool.or_eq_true, List.any_eq_true, Bool.and_eq_true, beq_iff_eq, bne_iff_ne, ne_eq,
      leavesOf, List.mem_append]
    constructor
    · rintro ((hb | ⟨a, ha, e, he, h⟩) | ⟨a, ha, e, he, h⟩)
      · exact Or.inl hb
      · exact Or.inr ⟨a, Or.inl ha, e, he, h⟩
      · exact Or.inr ⟨a, Or.inr ha, e, Or.inr he, h⟩
    · rintro (hb | ⟨a, ha, e, he, h1, h2⟩)
      · exact Or.inl (Or.inl hb)
      · rcases ha with ha | ha
        · exact Or.inl (Or.inr ⟨a, ha, e, he, h1, h2⟩)
        · rcases he with he | he
          · exact Or.inl (Or.inr ⟨e, he, a, Or.inr ha, h1.symm, fun h => h2 h.symm⟩)
          · exact Or.inr ⟨a, ha, e, he, h1, h2⟩

/-- C21: for every list of schemas, `MergeCompositeSchemas` returns a nil
schema and `ErrConflictingSchemas` exactly when two of the entries reachable
from the schemas have the same property and different schema text; otherwise it
returns a nil error and the composed schema whose entries are the given schemas
in the given order.  Two entries with the same property and the same schema are
merged whatever their `required` and their factories are. -/
theorem C21_merge_conflict_iff (schemas : List CompositeSchema) :
    (MergeCompositeSchemas schemas = (none, some .ErrConflictingSchemas) ↔
        ∃ a ∈ leavesOf schemas, ∃ e ∈ leavesOf schemas,
          a.property = e.property ∧ a.schema ≠ e.schema) ∧
      ((¬ ∃ a ∈ leavesOf schemas, ∃ e ∈ leavesOf schemas,
          a.property = e.property ∧ a.schema ≠ e.schema) ↔
        MergeCompositeSchemas schemas = (some (.composed schemas), none)) ∧
      (∀ (property schema : String) (r1 r2 : Bool) (t1 t2 : Nat),
        MergeCompositeSchemas
            [NewCompositeSchema property schema r1 t1, NewCompositeSchema property schema r2 t2] =
          (some (.composed
            [NewCompositeSchema property schema r1 t1, NewCompositeSchema property schema r2 t2]),
            none)) := by
  have key : ∀ l : List CompositeSchema, mergeLoop l false = true ↔
      ∃ a ∈ leavesOf l, ∃ e ∈ leavesOf l, a.property = e.property ∧ a.schema ≠ e.schema := by
    intro l
    rw [mergeLoop_iff]
    simp
  have hyes : ∀ l : List CompositeSchema, mergeLoop l false = true →
      MergeCompositeSchemas l = (none, some .ErrConflictingSchemas) := by
    intro l h
    simp [MergeCompositeSchemas, h]
  have hno : ∀ l : List CompositeSchema, mergeLoop l false = false →
      MergeCompositeSchemas l = (some (.composed l), none) := by
    intro l h
    simp [MergeCompositeSchemas, h]
  refine ⟨?_, ?_, ?_⟩
  · rw [← key]
    constructor
    · intro h
      cases hm : mergeLoop schemas false with
      | true => rfl
      | false => rw [hno schemas hm] at h; exact absurd h (by simp)
    · exact hyes schemas
  · rw [← key]
    constructor
    · intro h
      exact hno schemas (by simpa using h)
    · intro h hm
      rw [hyes schemas hm] at h
      exact absurd h (by simp)
  · intro property schema r1 r2 t1 t2
    apply hno
    rw [← Bool.not_eq_true, key]
    simp [leavesOf, CompositeSchema.leaves, NewCompositeSchema]

end runtime

/-! ## Lemmas and claims on Parse -/

namespace runtime

/-- The loop of `composedSchema.Parse` when the next entry parses. -/
theorem parseEntries_cons_ok (U : List Nat → Nat → Option Error) (s : CompositeSchema)
    (rest : List CompositeSchema) (data : List (String × RawMessage)) (acc : List Result)
    (h : (s.Parse U data).2 = none) :
    parseEntries U (s :: rest) data acc = parseEntries U rest data (acc ++ [(s.Parse U data).1]) := by
  rw [parseEntries]
  cases hp : s.Parse U data with
  | mk r e =>
    rw [hp] at h
    simp only at h
    subst h
    rfl

/-- The loop of `composedSchema.Parse` when the next entry fails. -/
theorem parseEntries_cons_err (U : List Nat → Nat → Option Error) (s : CompositeSchema)
    (rest : List CompositeSchema) (data : List (String × RawMessage)) (acc : List Result)
    (err : Error) (h : (s.Parse U data).2 = some err) :
    parseEntries U (s :: rest) data acc = (.nil, some err) := by
  rw [parseEntries]
  cases hp : s.Parse U data with
  | mk r e =>
    rw [hp] at h
    simp only at h
    subst h
    rfl

theorem parseEntries_ok (U : List Nat → Nat → Option Error) (data : List (String × RawMessage))
    (l : List CompositeSchema) :
    ∀ acc : List Result, (∀ s ∈ l, (s.Parse U data).2 = none) →
      parseEntries U l data acc = (.results (acc ++ l.map (fun s => (s.Parse U data).1)), none) := by
  induction l with
  | nil => intro acc _; simp [parseEntries]
  | cons s rest ih =>
    intro acc h
    rw [parseEntries_cons_ok U s rest data acc (h s (List.mem_cons_self _ _)),
      ih _ (fun x hx => h x (List.mem_cons_of_mem _ hx))]
    simp

theorem parseEntries_err (U : List Nat → Nat → Option Error) (data : List (String × RawMessage))
    (s : CompositeSchema) (post : List CompositeSchema) (err : Error)
    (hs : (s.Parse U data).2 = some err) (pre : List CompositeSchema) :
    ∀ acc : List Result, (∀ p ∈ pre, (p.Parse U data).2 = none) →
      parseEntries U (pre ++ s :: post) data acc = (.nil, some err) := by
  induction pre with
  | nil => intro acc _; exact parseEntries_cons_err U s post data acc err hs
  | cons p pre ih =>
    intro acc h
    rw [List.cons_append, parseEntries_cons_ok U p _ data acc (h p (List.mem_cons_self _ _))]
    exact ih _ (fun x hx => h x (List.mem_cons_of_mem _ hx))

theorem MergeCompositeSchemas_some (schemas : List CompositeSchema) (m : CompositeSchema)
    (h : MergeCompositeSchemas schemas = (some m, none)) : m = .composed schemas := by
  unfold MergeCompositeSchemas at h
  cases hm : mergeLoop schemas false with
  | true => simp [hm] at h
  | false =>
    simp only [hm, Bool.false_eq_true, if_false, Prod.mk.injEq, Option.some.injEq, and_true] at h
    exact h.symm

/-- C22: for the schema `m` that `MergeCompositeSchemas` returns for the schemas
`s1..sn` (n ≥ 0) and every data map: when each `si.Parse(data)` returns a nil
error, `m.Parse(data)` returns the results of `s1..sn` in the order given, n of
them, and a nil error; when some `si.Parse(data)` returns an error, `m.Parse`
returns a nil result and the error of the first such schema in that order.  An
entry that is not required and whose property is absent parses to nil with a
nil error. -/
theorem C22_composed_parse (U : List Nat → Nat → Option Error) (schemas : List CompositeSchema)
    (m : CompositeSchema) (data : List (String × RawMessage))
    (hm : MergeCompositeSchemas schemas = (some m, none)) :
    ((∀ s ∈ schemas, (s.Parse U data).2 = none) →
        m.Parse U data = (.results (schemas.map (fun s => (s.Parse U data).1)), none) ∧
          (schemas.map (fun s => (s.Parse U data).1)).length = schemas.length) ∧
      (∀ pre s post err, schemas = pre ++ s :: post →
        (∀ p ∈ pre, (p.Parse U data).2 = none) → (s.Parse U data).2 = some err →
        m.Parse U data = (.nil, some err)) ∧
      (∀ e : schemaEntry, e.required = false → (data.lookup e.property).getD none = none →
        (CompositeSchema.entry e).Parse U data = (.nil, none)) := by
  have hm' := MergeCompositeSchemas_some schemas m hm
  subst hm'
  refine ⟨?_, ?_, ?_⟩
  · intro h
    refine ⟨?_, by simp⟩
    rw [CompositeSchema.Parse, parseEntries_ok U data schemas [] h]
    simp
  · intro pre s post err hs hpre herr
    rw [CompositeSchema.Parse, hs]
    exact parseEntries_err U data s post err herr pre [] hpre
  · intro e hr hd
    simp [CompositeSchema.Parse, schemaEntry.Parse, hd, hr]

theorem C22_composed_parse_witness :
    MergeCompositeSchemas exampleSchemas = (some (.composed exampleSchemas), none) ∧
      (CompositeSchema.composed exampleSchemas).Parse exampleUnmarshal exampleData =
        (.results [.target 1 [49], .nil, .target 3 [50]], none) ∧
      ((∀ s ∈ exampleSchemas, (s.Parse exampleUnmarshal exampleData).2 = none) →
        (CompositeSchema.composed exampleSchemas).Parse exampleUnmarshal exampleData =
          (.results (exampleSchemas.map (fun s => (s.Parse exampleUnmarshal exampleData).1)),
            none) ∧
          (exampleSchemas.map (fun s => (s.Parse exampleUnmarshal exampleData).1)).length =
            exampleSchemas.length) ∧
      (∀ pre s post err, exampleSchemas = pre ++ s :: post →
        (∀ p ∈ pre, (p.Parse exampleUnmarshal exampleData).2 = none) →
        (s.Parse exampleUnmarshal exampleData).2 = some err →
        (CompositeSchema.composed exampleSchemas).Parse exampleUnmarshal exampleData =
          (.nil, some err)) ∧
      (∀ e : schemaEntry, e.required = false →
        (exampleData.lookup e.property).getD none = none →
        (CompositeSchema.entry e).Parse exampleUnmarshal exampleData = (.nil, none)) :=
  ⟨rfl, rfl, C22_composed_parse exampleUnmarshal exampleSchemas _ exampleData rfl⟩

end runtime

/-! ## Lemmas and claims on the configuration calls and the discarded flag -/

namespace dockerengine

/-- `SetEnvironmentVariable` on a builder with another `discarded`. -/
theorem SetEnvironmentVariable_discarded (sb : sandboxBuilder) (d : Bool) (name value : String) :
    ({ sb with discarded := d }).SetEnvironmentVariable name value =
      (sb.SetEnvironmentVariable name value).map (fun r => ({ r.1 with discarded := d }, r.2)) := by
  obtain ⟨⟨l⟩, pl, px, env, d0, ms, done, ih, ie⟩ := sb
  cases l <;> cases hv : envVarPattern.MatchString name <;> cases hx : Env.Exists env name <;>
    simp [sandboxBuilder.SetEnvironmentVariable, hv, hx, Mutex.Lock, Mutex.Unlock, bind,
      Except.bind, pure, Except.pure, Except.map]

/-- `AttachProxy` on a builder with another `discarded`. -/
theorem AttachProxy_discarded (sb : sandboxBuilder) (d : Bool) (hostname : String)
    (handler : Handler) :
    ({ sb with discarded := d }).AttachProxy hostname handler =
      (sb.AttachProxy hostname handler).map (fun r => ({ r.1 with discarded := d }, r.2)) := by
  obtain ⟨⟨l⟩, pl, px, env, d0, ms, done, ih, ie⟩ := sb
  cases l <;> cases hv : proxyNamePattern.MatchString hostname <;>
    cases hx : (px.lookup hostname).isSome <;>
    simp [sandboxBuilder.AttachProxy, hv, hx, Mutex.Lock, Mutex.Unlock, bind,
      Except.bind, pure, Except.pure, Except.map]

/-- `AttachVolume` on a builder with another `discarded`. -/
theorem AttachVolume_discarded (sb : sandboxBuilder) (d : Bool) (mountPoint : String)
    (vol : Volume) (readOnly : Bool) :
    ({ sb with discarded := d }).AttachVolume mountPoint vol readOnly =
      (sb.AttachVolume mountPoint vol readOnly).map
        (fun r => ({ r.1 with discarded := d }, r.2)) := by
  obtain ⟨⟨l⟩, pl, px, env, d0, ms, done, ih, ie⟩ := sb
  cases vol with
  | foreign => simp [sandboxBuilder.AttachVolume, Except.map]
  | docker n =>
    cases l <;> cases hv : validateMountPoint mountPoint <;>
      cases hx : namingConflict mountPoint (String.mk mountPoint.data.dropLast) ms <;>
      simp [sandboxBuilder.AttachVolume, hv, hx, Mutex.Lock, Mutex.Unlock, bind,
        Except.bind, pure, Except.pure, Except.map]

/-- What `SetEnvironmentVariable` leaves as it was, and an error it does not
return. -/
theorem SetEnvironmentVariable_frame (sb sb1 : sandboxBuilder) (name value : String)
    (err : Option Error) (h : sb.SetEnvironmentVariable name value = .ok (sb1, err)) :
    sb1.discarded = sb.discarded ∧ sb1.imageHandle = sb.imageHandle ∧
      sb1.imageErr = sb.imageErr ∧ err ≠ some .ErrSandboxBuilderDiscarded := by
  obtain ⟨⟨l⟩, pl, px, env, d0, ms, done, ih, ie⟩ := sb
  revert h
  cases l <;> cases hv : envVarPattern.MatchString name <;> cases hx : Env.Exists env name <;>
    simp [sandboxBuilder.SetEnvironmentVariable, hv, hx, Mutex.Lock, Mutex.Unlock, bind,
      Except.bind, pure, Except.pure] <;>
    (rintro rfl rfl; simp)

/-- What `AttachProxy` leaves as it was, and an error it does not return. -/
theorem AttachProxy_frame (sb sb1 : sandboxBuilder) (hostname : String) (handler : Handler)
    (err : Option Error) (h : sb.AttachProxy hostname handler = .ok (sb1, err)) :
    sb1.discarded = sb.discarded ∧ sb1.imageHandle = sb.imageHandle ∧
      sb1.imageErr = sb.imageErr ∧ err ≠ some .ErrSandboxBuilderDiscarded := by
  obtain ⟨⟨l⟩, pl, px, env, d0, ms, done, ih, ie⟩ := sb
  revert h
  cases l <;> cases hv : proxyNamePattern.MatchString hostname <;>
    cases hx : (px.lookup hostname).isSome <;>
    simp [sandboxBuilder.AttachProxy, hv, hx, Mutex.Lock, Mutex.Unlock, bind,
      Except.bind, pure, Except.pure] <;>
    (rintro rfl rfl; simp)

theorem validateMountPoint_not_discarded (mountPoint : String) :
    validateMountPoint mountPoint ≠ some .ErrSandboxBuilderDiscarded := by
  unfold validateMountPoint
  split
  · simp
  · split
    · simp
    · split
      · simp
      · split <;> simp

/-- What `AttachVolume` leaves as it was, and an error it does not return. -/
theorem AttachVolume_frame (sb sb1 : sandboxBuilder) (mountPoint : String) (vol : Volume)
    (readOnly : Bool) (err : Option Error)
    (h : sb.AttachVolume mountPoint vol readOnly = .ok (sb1, err)) :
    sb1.discarded = sb.discarded ∧ sb1.imageHandle = sb.imageHandle ∧
      sb1.imageErr = sb.imageErr ∧ err ≠ some .ErrSandboxBuilderDiscarded := by
  obtain ⟨⟨l⟩, pl, px, env, d0, ms, done, ih, ie⟩ := sb
  have hnd := validateMountPoint_not_discarded mountPoint
  revert h
  cases vol with
  | foreign => simp [sandboxBuilder.AttachVolume]
  | docker n =>
    cases hv : validateMountPoint mountPoint with
    | some e =>
      simp only [sandboxBuilder.AttachVolume, hv, Except.ok.injEq, Prod.mk.injEq, and_imp]
      rintro rfl rfl
      rw [hv] at hnd
      exact ⟨rfl, rfl, rfl, hnd⟩
    | none =>
      cases l <;>
        cases hx : namingConflict mountPoint (String.mk mountPoint.data.dropLast) ms <;>
        simp [sandboxBuilder.AttachVolume, hv, hx, Mutex.Lock, Mutex.Unlock, bind,
          Except.bind, pure, Except.pure] <;>
        (rintro rfl rfl; simp)

/-- C24: `SetEnvironmentVariable`, `AttachProxy` and `AttachVolume` never read
`discarded`: for every builder, every value `d` of the flag and every argument,
the call on the builder with `discarded` set to `d` returns what the call on the
builder returns, error, env, proxies and mounts included, the flag apart.  A
call that returns leaves `discarded`, `imageHandle` and `imageErr` as they were
and does not return `ErrSandboxBuilderDiscarded`.  So on a discarded builder
(mutex free) a valid new variable, a valid new hostname and a valid mount point
without a conflict are recorded and the call returns nil. -/
theorem C24_configuration_ignores_discarded (sb : sandboxBuilder) (d : Bool)
    (name value hostname mountPoint : String) (handler : Handler) (vol : Volume)
    (readOnly : Bool) :
    (({ sb with discarded := d }).SetEnvironmentVariable name value =
        (sb.SetEnvironmentVariable name value).map
          (fun r => ({ r.1 with discarded := d }, r.2)) ∧
      ({ sb with discarded := d }).AttachProxy hostname handler =
        (sb.AttachProxy hostname handler).map (fun r => ({ r.1 with discarded := d }, r.2)) ∧
      ({ sb with discarded := d }).AttachVolume mountPoint vol readOnly =
        (sb.AttachVolume mountPoint vol readOnly).map
          (fun r => ({ r.1 with discarded := d }, r.2))) ∧
    (∀ sb1 err,
      sb.SetEnvironmentVariable name value = .ok (sb1, err) ∨
        sb.AttachProxy hostname handler = .ok (sb1, err) ∨
        sb.AttachVolume mountPoint vol readOnly = .ok (sb1, err) →
      sb1.discarded = sb.discarded ∧ sb1.imageHandle = sb.imageHandle ∧
        sb1.imageErr = sb.imageErr ∧ err ≠ some .ErrSandboxBuilderDiscarded) ∧
    (sb.discarded = true → sb.m.locked = false →
      (envVarPattern.MatchString name = true → Env.Exists sb.env name = false →
        sb.SetEnvironmentVariable name value =
          .ok ({ sb with env := sb.env ++ [name ++ "=" ++ value] }, none)) ∧
      (proxyNamePattern.MatchString hostname = true → sb.proxies.lookup hostname = none →
        sb.AttachProxy hostname handler =
          .ok ({ sb with proxies := sb.proxies ++ [(hostname, handler)] }, none)) ∧
      (∀ n, validateMountPoint mountPoint = none →
        namingConflict mountPoint (targetOf mountPoint) sb.mounts = false →
        sb.AttachVolume mountPoint (.docker n) readOnly =
          .ok ({ sb with mounts := sb.mounts ++
            [{ Target := targetOf mountPoint, Source := n, Type_ := "volume",
               ReadOnly := readOnly }] }, none))) := by
  refine ⟨⟨SetEnvironmentVariable_discarded sb d name value,
    AttachProxy_discarded sb d hostname handler,
    AttachVolume_discarded sb d mountPoint vol readOnly⟩, ?_, ?_⟩
  · rintro sb1 err (h | h | h)
    · exact SetEnvironmentVariable_frame sb sb1 name value err h
    · exact AttachProxy_frame sb sb1 hostname handler err h
    · exact AttachVolume_frame sb sb1 mountPoint vol readOnly err h
  · intro _ hm
    exact ⟨fun hv hx => SetEnvironmentVariable_accept sb name value hm hv hx,
      fun hv hx => AttachProxy_accept sb hostname handler hm hv hx,
      fun n hv hc => AttachVolume_accept sb mountPoint n readOnly hm hv hc⟩

theorem C24_configuration_ignores_discarded_witness :
    (run (World.fresh ⟨⟨false⟩, 1, ⟨"", 1⟩, 1⟩ ⟨"image", []⟩) [.Discard]).sb.discarded = true ∧
      (run (World.fresh ⟨⟨false⟩, 1, ⟨"", 1⟩, 1⟩ ⟨"image", []⟩) [.Discard]).sb.SetEnvironmentVariable
          "X" "1" =
        .ok ({ (run (World.fresh ⟨⟨false⟩, 1, ⟨"", 1⟩, 1⟩ ⟨"image", []⟩) [.Discard]).sb with
          env := (run (World.fresh ⟨⟨false⟩, 1, ⟨"", 1⟩, 1⟩ ⟨"image", []⟩) [.Discard]).sb.env ++
            ["X" ++ "=" ++ "1"] }, none) :=
  ⟨by decide,
    ((C24_configuration_ignores_discarded
      (run (World.fresh ⟨⟨false⟩, 1, ⟨"", 1⟩, 1⟩ ⟨"image", []⟩) [.Discard]).sb true "X" "1" "h" "/a/"
      0 (.docker "v") false).2.2 (by decide) (by decide)).1 (by decide) (by decide)⟩

end dockerengine

/-! ## Lemmas and claims on the report of the final outcome -/

namespace qemuguesttools

theorem init_consistent : Consistent World.init := by
  simp [Consistent, World.init, TestState.init]

/-- After the resolution no step changes anything. -/
theorem step_resolved (w : World) (ev : Event) (hc : Consistent w) (hr : w.s.resolved = true) :
    step w ev = .ok w := by
  obtain ⟨⟨p, res⟩, ⟨result, ⟨done⟩⟩, inv⟩ := w
  simp only at hr
  subst hr
  obtain ⟨_, _, h3, _⟩ := hc
  obtain ⟨r, ho, _, _⟩ := h3 rfl
  simp only at ho
  cases p with
  | running => simp [Process.outcome] at ho
  | exited s => cases ev <;> simp [step, resolve, Process.outcome]
  | killed => cases ev <;> simp [step, resolve, Process.outcome]

/-- Every step returns and keeps the run consistent. -/
theorem step_consistent (w : World) (ev : Event) (hc : Consistent w) :
    ∃ w1, step w ev = .ok w1 ∧ Consistent w1 := by
  cases hr : w.s.resolved with
  | true => exact ⟨w, step_resolved w ev hc hr, hc⟩
  | false =>
    obtain ⟨⟨p, res⟩, ⟨result, ⟨done⟩⟩, inv⟩ := w
    simp only at hr
    subst hr
    obtain ⟨hd, hi, _, hk⟩ := hc
    have hi' : inv = [] := hi rfl
    have hd' : done = false := hd
    subst hd' hi'
    replace hk : p = Process.killed → false = true := hk
    cases p with
    | running =>
      cases ev with
      | exit s => exact ⟨_, rfl, by simp [Consistent]⟩
      | KillProcess =>
        refine ⟨_, rfl, ?_⟩
        simp [Consistent, Once.Do, Process.outcome]
      | report => exact ⟨_, rfl, by simp [Consistent]⟩
    | exited s =>
      cases ev with
      | exit s1 => exact ⟨_, rfl, by simp [Consistent]⟩
      | KillProcess => exact ⟨_, rfl, by simp [Consistent]⟩
      | report =>
        refine ⟨_, rfl, ?_⟩
        simp [Consistent, Once.Do, Process.outcome]
    | killed => exact absurd (hk rfl) (by simp)

theorem run_consistent (evs : List Event) :
    ∀ w, Consistent w → ∃ w1, run w evs = .ok w1 ∧ Consistent w1 := by
  induction evs with
  | nil => intro w hc; exact ⟨w, rfl, hc⟩
  | cons ev rest ih =>
    intro w hc
    obtain ⟨w1, h1, hc1⟩ := step_consistent w ev hc
    obtain ⟨w2, h2, hc2⟩ := ih w1 hc1
    exact ⟨w2, by simp [run, h1, h2], hc2⟩

theorem run_resolved (evs : List Event) (w : World) (hc : Consistent w)
    (hr : w.s.resolved = true) : run w evs = .ok w := by
  induction evs with
  | nil => rfl
  | cons ev rest ih => simp [run, step_resolved w ev hc hr, ih]

/-- The outcome of a process is success exactly for one that ended by itself
successfully. -/
theorem outcome_true_iff (p : Process) (r : Bool) (h : p.outcome = some r) :
    r = true ↔ p = .exited true := by
  cases p with
  | running => simp [Process.outcome] at h
  | exited s => simp only [Process.outcome, Option.some.injEq] at h; subst h; simp
  | killed => simp only [Process.outcome, Option.some.injEq] at h; subst h; simp

/-- The report of a process that has ended leaves the callback called once. -/
theorem report_once (w : World) (hc : Consistent w) (hp : w.s.process ≠ .running) :
    ∃ w1, step w .report = .ok w1 ∧ w1.invocations.length = 1 := by
  cases hr : w.s.resolved with
  | true =>
    obtain ⟨r, _, hi, _⟩ := hc.2.2.1 hr
    exact ⟨w, step_resolved w .report hc hr, by rw [hi]; rfl⟩
  | false =>
    obtain ⟨⟨p, res⟩, ⟨result, ⟨done⟩⟩, inv⟩ := w
    simp only at hr
    subst hr
    obtain ⟨hd, hi, _, _⟩ := hc
    have hi' : inv = [] := hi rfl
    have hd' : done = false := hd
    subst hd' hi'
    cases p with
    | running => exact absurd rfl hp
    | exited s => exact ⟨_, rfl, rfl⟩
    | killed => exact ⟨_, rfl, rfl⟩

/-- C23: in every run, whatever the order and the number of the steps (the
process ending by itself, `KillProcess`, reports of the guest tools): no step
panics, so the callback of the tests is never called a second time; it has been
called at most once, and once it has been called no later step changes
anything; when it has been called, `result` holds its argument, which is
success exactly for a process that ended by itself successfully, and failure
for a killed process; and once the process has ended, a report leaves the
callback called exactly once.  The runs of the tests, and a kill that races
with the end of the process, report as the tests expect. -/
theorem C23_outcome_reported_once (evs : List Event) :
    (∃ w, run World.init evs = .ok w ∧
      w.invocations.length ≤ 1 ∧
      (∀ r, w.invocations = [r] → w.t.result = r ∧ (r = true ↔ w.s.process = .exited true)) ∧
      (w.s.process = .killed → w.invocations = [false]) ∧
      (w.s.process ≠ .running → ∃ w1, step w .report = .ok w1 ∧ w1.invocations.length = 1) ∧
      (w.invocations ≠ [] → ∀ more, run w more = .ok w)) ∧
    run World.init [.exit true, .report] =
      .ok ⟨⟨.exited true, true⟩, ⟨true, ⟨true⟩⟩, [true]⟩ ∧
    run World.init [.exit false, .report, .report] =
      .ok ⟨⟨.exited false, true⟩, ⟨false, ⟨true⟩⟩, [false]⟩ ∧
    run World.init [.KillProcess, .exit true, .report, .report] =
      .ok ⟨⟨.killed, true⟩, ⟨false, ⟨true⟩⟩, [false]⟩ ∧
    run World.init [.exit true, .KillProcess, .report] =
      .ok ⟨⟨.exited true, true⟩, ⟨true, ⟨true⟩⟩, [true]⟩ := by
  refine ⟨?_, by decide, by decide, by decide, by decide⟩
  obtain ⟨w, hrun, hc⟩ := run_consistent evs World.init init_consistent
  have hres : w.invocations ≠ [] → w.s.resolved = true := by
    intro hne
    cases hr : w.s.resolved with
    | true => rfl
    | false => exact absurd (hc.2.1 hr) hne
  refine ⟨w, hrun, ?_, ?_, ?_, report_once w hc, ?_⟩
  · cases hr : w.s.resolved with
    | true =>
      obtain ⟨r, _, hi, _⟩ := hc.2.2.1 hr
      rw [hi]; exact Nat.le_refl 1
    | false => rw [hc.2.1 hr]; exact Nat.zero_le 1
  · intro r hi
    obtain ⟨r1, ho, hi1, hres1⟩ := hc.2.2.1 (hres (by rw [hi]; simp))
    rw [hi] at hi1
    have hr : r = r1 := by simpa using hi1
    subst hr
    exact ⟨hres1, outcome_true_iff _ r ho⟩
  · intro hk
    obtain ⟨r, ho, hi, _⟩ := hc.2.2.1 (hc.2.2.2 hk)
    rw [hk] at ho
    simp only [Process.outcome, Option.some.injEq] at ho
    rw [hi, ← ho]
  · intro hne more
    exact run_resolved more w hc (hres hne)

end qemuguesttools
